import Mathlib

/-!
# ThorVG Lottie loader: frame/time controller, task runner and slot overriding

A shallow embedding of `src/loaders/lottie/tvgLottieLoader.cpp`.

* C `float` values are rationals (`ℚ`), and `nearbyintf` is round-half-to-even. The
  float operations of `shorten` and of the skip test of `frame` round each result with
  the rounding `fl` of the surroundings: `fl32`, IEEE binary32 with round to nearest
  even, is the arithmetic of the code (every operation rounds to `float`), and the
  identity is exact arithmetic. The other float operations (`-`, `/` in the queries and
  the header, comparisons) are exact.
* The loader object is a record that is passed explicitly; member functions that
  write fields return the new record next to their C++ return value.
* The scheduler is sequentialised: `TaskScheduler::request` runs the task inline when
  there are no worker threads and otherwise marks it in flight; `done()` completes a
  task in flight.
* Calls into the collaborators (parser, builder, document) are recorded in a call log.
-/

namespace Lottie

/-! ## Numeric helpers -/

/-- The C function `nearbyintf` in the default rounding mode: the nearest integer,
ties going to the even neighbour. -/
def roundHalfEven (x : ℚ) : ℤ :=
  let f : ℤ := ⌊x⌋
  let d : ℚ := x - f
  if d < 1 / 2 then f
  else if 1 / 2 < d then f + 1
  else if f % 2 = 0 then f else f + 1

/-- The C function `nearbyintf`: its result is again a `float`. -/
def nearbyintf (x : ℚ) : ℚ := (roundHalfEven x : ℚ)

/-- The C function `fabsf`. -/
def fabsf (x : ℚ) : ℚ := if x < 0 then -x else x

/-- The search for the binary exponent of `x`, from `k - 126` downwards: the largest
`e` in `[-125, k - 126]` with `2 ^ e ≤ |x|`, and -126 when there is none. -/
def exponentFrom : ℕ → ℚ → ℤ
  | 0, _ => -126
  | k + 1, x => if (2 : ℚ) ^ ((k : ℤ) - 125) ≤ |x| then (k : ℤ) - 125 else exponentFrom k x

/-- The binary exponent of the binary32 format at `x`: `⌊log2 |x|⌋` inside the range
of the normal numbers `[-126, 127]`, -126 below it (zero and the subnormal numbers). -/
def exponent32 (x : ℚ) : ℤ := exponentFrom 253 x

/-- The rounding of a real result to a `float` (IEEE binary32, round to nearest, ties to
even): the nearest multiple of `2 ^ (e - 23)` for the exponent `e` of `x`, which leaves 24
significant bits. Overflow to infinity is not modelled: a value beyond `FLT_MAX` is
rounded with the exponent 127. -/
def fl32 (x : ℚ) : ℚ :=
  (roundHalfEven (x / 2 ^ (exponent32 x - 23)) : ℚ) * 2 ^ (exponent32 x - 23)

/-! ## Data model -/

/-- The result codes the segment setter returns. -/
inductive Result where
  | Success
  | InvalidArguments
  deriving DecidableEq, Repr

/-- A named time range of the document (`LottieMarker`). -/
structure LottieMarker where
  name : String
  time : ℚ
  duration : ℚ
  deriving DecidableEq, Repr

/-- Modelled from the spec: `LottieSlot` (tvgLottieModel.h) is not part of the sources;
a slot is an identifier, a current value and the default value `reset()` restores. -/
structure LottieSlot where
  sid : String
  value : Nat
  dflt : Nat
  deriving DecidableEq, Repr

/-- Modelled from the spec: `LottieSlot::reset()`, restoring the default value. -/
def LottieSlot.reset (p : LottieSlot) : LottieSlot := { p with value := p.dflt }

/-- The parsed document (`LottieComposition`): the fields the loader reads or writes. -/
structure LottieComposition where
  w : ℚ
  h : ℚ
  frameRate : ℚ
  /-- the value of `comp->frameCnt()` -/
  frameCnt : ℚ
  markers : List LottieMarker
  slots : List LottieSlot
  initiated : Bool
  expressions : Bool
  deriving DecidableEq, Repr

/-- Modelled from the spec: the tween state of `LottieBuilder` (tvgLottieBuilder.h),
read by `tweening()`, set by `onTween(to, progress)` and cleared by `offTween()`. -/
structure LottieBuilder where
  tweening : Bool
  tweenTo : ℚ
  progress : ℚ
  deriving DecidableEq, Repr

/-- Modelled from the spec: `LottieBuilder::onTween`. -/
def LottieBuilder.onTween (_b : LottieBuilder) (toFrame progress : ℚ) : LottieBuilder :=
  { tweening := true, tweenTo := toFrame, progress := progress }

/-- Modelled from the spec: `LottieBuilder::offTween`. -/
def LottieBuilder.offTween (b : LottieBuilder) : LottieBuilder :=
  { b with tweening := false }

/-- One entry of a slot-override payload as the override parser yields it: the slot
identifier returned by `sid()`, the value that follows it, and whether `apply` accepts
that value (its format/type check). -/
structure SlotEntry where
  sid : String
  value : Nat
  valid : Bool
  deriving DecidableEq, Repr

/-- A slot-override payload: the sequence of entries the override parser walks. -/
abbrev SlotPayload := List SlotEntry

/-- Calls into the collaborators, in the order they happen; `parse` carries the answer
of `LottieParser::parse()`, `request` is `TaskScheduler::request(this)` and `inlineRun`
marks the `run(0)` that `sync()` makes on the calling thread. -/
inductive Call where
  | parse (ok : Bool)
  | build
  | update (frameNo : ℚ)
  | onTween (toFrame progress : ℚ)
  | offTween
  | clear
  | apply (sid : String) (ok : Bool)
  | skip (sid : String)
  | reset
  | request
  | inlineRun
  deriving DecidableEq, Repr

/-- The loader object (`LottieLoader` with the fields it inherits from `FrameModule`
and `LoadModule`). `pending` is the scheduler's in-flight mark of this task and
`calls` the call log. -/
structure LottieLoader where
  content : Option (List Char)
  size : Nat
  copy : Bool
  readied : Bool
  frameNo : ℚ
  frameCnt : ℚ
  frameRate : ℚ
  segmentBegin : ℚ
  segmentEnd : ℚ
  w : ℚ
  h : ℚ
  builder : LottieBuilder
  comp : Option LottieComposition
  overridden : Bool
  rebuild : Bool
  pending : Bool
  calls : List Call
  deriving DecidableEq, Repr

/-- What the loader's surroundings provide: the number of worker threads of the task
scheduler, the outcome of `LottieParser::parse()` on a content (the document and the
default slot payload `parser.slots`, or failure), the constant `FLOAT_EPSILON`, and the
rounding `fl` of the result of a float operation to a `float`: `fl32` for the binary32
arithmetic of the code, the identity for exact arithmetic. -/
structure Env where
  threads : Nat
  parse : List Char → Option (LottieComposition × Option SlotPayload)
  FLOAT_EPSILON : ℚ
  fl : ℚ → ℚ

/-! ## Queries -/

/-- `LottieLoader::startFrame`. -/
def LottieLoader.startFrame (s : LottieLoader) : ℚ := s.segmentBegin

/-- `LottieLoader::totalFrame`. -/
def LottieLoader.totalFrame (s : LottieLoader) : ℚ := s.segmentEnd - s.segmentBegin

/-- `LottieLoader::curFrame`. -/
def LottieLoader.curFrame (s : LottieLoader) : ℚ := s.frameNo - s.startFrame

/-- `LottieLoader::duration`. -/
def LottieLoader.duration (s : LottieLoader) : ℚ :=
  (s.segmentEnd - s.segmentBegin) / s.frameRate

/-- `LottieLoader::shorten`: the sum, the product with `10000.0f` and the product with
`0.0001f` are float operations, and `0.0001f` is the float nearest to 0.0001. -/
def LottieLoader.shorten (env : Env) (s : LottieLoader) (frameNo : ℚ) : ℚ :=
  env.fl (nearbyintf (env.fl (env.fl (frameNo + s.startFrame) * 10000)) * env.fl (1 / 10000))

/-- `LottieLoader::segment(float, float)`. -/
def LottieLoader.segment (s : LottieLoader) (begin_ end_ : ℚ) : Result × LottieLoader :=
  let begin_ := if begin_ < 0 then 0 else begin_
  let end_ := if end_ > s.frameCnt then s.frameCnt else end_
  if begin_ > end_ then (Result.InvalidArguments, s)
  else (Result.Success, { s with segmentBegin := begin_, segmentEnd := end_ })

/-! ## Slot overriding -/

/-- Modelled from the spec: `LottieParser::apply(slot, byDefault)`. The value of the
entry is accepted or rejected by its format/type check; an accepted value becomes the
slot's current value, and with `byDefault` also the value `reset()` returns to. -/
def parserApply (p : LottieSlot) (e : SlotEntry) (byDefault : Bool) : Bool × LottieSlot :=
  if e.valid then
    (true, { p with value := e.value, dflt := if byDefault then e.value else p.dflt })
  else (false, p)

/-- The inner loop of `override`: `ARRAY_FOREACH(p, comp->slots)` looks for the first
slot whose id equals the entry's, calls `parser.apply` on it and leaves the loop.
Returns `applied`, the slot list and the calls made. -/
def applySlot (slots : List LottieSlot) (e : SlotEntry) (byDefault : Bool) :
    Bool × List LottieSlot × List Call :=
  match slots with
  | [] => (false, [], [])
  | p :: rest =>
    if p.sid ≠ e.sid then
      let r := applySlot rest e byDefault
      (r.1, p :: r.2.1, r.2.2)
    else
      let a := parserApply p e byDefault
      (a.1, a.2 :: rest, [Call.apply e.sid a.1])

/-- The outer loop of `override`: `while (auto sid = parser.sid(idx == 0))`, with
`parser.skip()` for an entry that was not applied. Returns `succeed`, the slot list
and the calls made. -/
def overrideLoop (slots : List LottieSlot) (payload : SlotPayload) (byDefault : Bool)
    (succeed : Bool) : Bool × List LottieSlot × List Call :=
  match payload with
  | [] => (succeed, slots, [])
  | e :: es =>
    let r := applySlot slots e byDefault
    let skipped := if r.1 then [] else [Call.skip e.sid]
    let t := overrideLoop r.2.1 es byDefault (succeed || r.1)
    (t.1, t.2.1, r.2.2 ++ skipped ++ t.2.2)

/-- The body of `LottieLoader::override` after `ready()` has answered true: the test
`comp->slots.count == 0`, then the override of the slots (payload given) or their
reset (null payload on an overridden document). -/
def LottieLoader.overrideBody (s : LottieLoader) (slots : Option SlotPayload)
    (byDefault : Bool) : Bool × LottieLoader :=
  match s.comp with
  | none => (false, s)
  | some c =>
    if c.slots.length = 0 then (false, s)
    else
      match slots with
      | some payload =>
        let r := overrideLoop c.slots payload byDefault false
        (r.1, { s with comp := some { c with slots := r.2.1 },
                       rebuild := r.1,
                       overridden := s.overridden || r.1,
                       calls := s.calls ++ r.2.2 })
      | none =>
        if s.overridden then
          (true, { s with comp := some { c with slots := c.slots.map LottieSlot.reset },
                          overridden := false,
                          rebuild := true,
                          calls := s.calls ++ c.slots.map (fun _ => Call.reset) })
        else (true, s)

/-! ## The task and the scheduler -/

/-- `LottieLoader::release`. -/
def LottieLoader.release (s : LottieLoader) : LottieLoader :=
  if s.copy then { s with content := none } else s

/-- `LottieLoader::run`. In the initial loading branch `override(parser.slots, true)`
finds `comp` set, so its `ready()` answers true at the first test and the call is
`overrideBody`. -/
def LottieLoader.run (env : Env) (s : LottieLoader) : LottieLoader :=
  match s.comp with
  | some _ => { s with calls := s.calls ++ [Call.update s.frameNo], rebuild := false }
  | none =>
    let s := { s with calls := s.calls ++ [Call.parse (env.parse (s.content.getD [])).isSome] }
    match env.parse (s.content.getD []) with
    | none => s
    | some (c, slots) =>
      let s := { s with comp := some c }
      let s := match slots with
        | some payload => (s.overrideBody (some payload) true).2
        | none => s
      let s := { s with calls := s.calls ++ [Call.build] }
      let s := s.release
      { s with rebuild := false }

/-- `Task::done()`: returns once no run of this loader is in flight. -/
def LottieLoader.done (env : Env) (s : LottieLoader) : LottieLoader :=
  if s.pending then { s.run env with pending := false } else s

/-- `TaskScheduler::request(this)`: without worker threads the task runs inline,
otherwise it is handed to a worker. -/
def LottieLoader.request (env : Env) (s : LottieLoader) : LottieLoader :=
  let s := { s with calls := s.calls ++ [Call.request] }
  if env.threads = 0 then s.run env else { s with pending := true }

/-- `LottieLoader::ready`. -/
def LottieLoader.ready (env : Env) (s : LottieLoader) : Bool × LottieLoader :=
  if s.comp.isSome then (true, s)
  else
    let s := s.done env
    if s.comp.isSome then (true, s) else (false, s)

/-- `LottieLoader::override`. -/
def LottieLoader.override (env : Env) (s : LottieLoader) (slots : Option SlotPayload)
    (byDefault : Bool) : Bool × LottieLoader :=
  let r := s.ready env
  if !r.1 then (false, r.2) else r.2.overrideBody slots byDefault

/-- `LottieLoader::sync`. -/
def LottieLoader.sync (env : Env) (s : LottieLoader) : LottieLoader :=
  let s := s.done env
  if s.rebuild then { s with calls := s.calls ++ [Call.inlineRun] }.run env else s

/-- `LottieLoader::paint`; the Boolean tells whether a scene (non-null) is returned. -/
def LottieLoader.paint (env : Env) (s : LottieLoader) : Bool × LottieLoader :=
  let s := s.done env
  match s.comp with
  | none => (false, s)
  | some c => (true, { s with comp := some { c with initiated := true } })

/-! ## Frame and time control -/

/-- `comp->clear()` behind `if (comp)`. -/
def LottieLoader.clearComp (s : LottieLoader) : LottieLoader :=
  if s.comp.isSome then { s with calls := s.calls ++ [Call.clear] } else s

/-- `LottieLoader::frame`: the difference in the skip test is a float operation, and
`0.0009f` is the float nearest to 0.0009. -/
def LottieLoader.frame (env : Env) (s : LottieLoader) (no : ℚ) : Bool × LottieLoader :=
  let no := s.shorten env no
  if !s.builder.tweening && fabsf (env.fl (s.frameNo - no)) ≤ env.fl (9 / 10000) then
    (false, s)
  else
    let s := s.done env
    let s := { s with frameNo := no }
    let s := { s with builder := s.builder.offTween, calls := s.calls ++ [Call.offTween] }
    let s := s.clearComp
    (true, s.request env)

/-- Modelled from the spec: `tvg::zero` (tvgMath.h), true when the value is zero up
to `FLOAT_EPSILON`. -/
def zero (env : Env) (a : ℚ) : Bool := fabsf a ≤ env.FLOAT_EPSILON

/-- Modelled from the spec: `tvg::equal` (tvgMath.h). -/
def equal (env : Env) (a b : ℚ) : Bool := zero env (a - b)

/-- `LottieLoader::tween`. -/
def LottieLoader.tween (env : Env) (s : LottieLoader) (from_ to_ progress : ℚ) :
    Bool × LottieLoader :=
  if zero env progress then s.frame env from_
  else if equal env progress 1 then s.frame env to_
  else
    let s := s.done env
    let s := { s with frameNo := s.shorten env from_ }
    let s := { s with builder := s.builder.onTween (s.shorten env to_) progress,
                      calls := s.calls ++ [Call.onTween (s.shorten env to_) progress] }
    let s := s.clearComp
    (true, s.request env)

/-- The loop of `LottieLoader::segment(const char*, float&, float&)` over the markers. -/
def findMarker (markers : List LottieMarker) (marker : String) : Option (ℚ × ℚ) :=
  match markers with
  | [] => none
  | p :: rest =>
    if marker = p.name then some (p.time, p.time + p.duration)
    else findMarker rest marker

/-- `LottieLoader::segment(const char*, float&, float&)`: returns the Boolean, the
values of the reference parameters `begin` and `end` afterwards, and the loader. -/
def LottieLoader.segmentMarker (env : Env) (s : LottieLoader) (marker : String)
    (begin_ end_ : ℚ) : Bool × ℚ × ℚ × LottieLoader :=
  let r := s.ready env
  match r.2.comp with
  | none => (false, begin_, end_, r.2)
  | some c =>
    if !r.1 || c.markers.length = 0 then (false, begin_, end_, r.2)
    else
      match findMarker c.markers marker with
      | some (b, e) => (true, b, e, r.2)
      | none => (false, begin_, end_, r.2)

/-! ## Opening: the header -/

/-- The decimal digits at the start of a text: their value continuing `acc`, how many
there are, and the text after them. -/
def readDigits (p : List Char) (acc : Nat) (cnt : Nat) : Nat × Nat × List Char :=
  match p with
  | [] => (acc, cnt, [])
  | c :: rest =>
    if c.isDigit then readDigits rest (acc * 10 + (c.toNat - 48)) (cnt + 1)
    else (acc, cnt, c :: rest)

/-- Modelled from the spec: `toFloat(p, nullptr)` (tvgStr.h), the numeric parse of the
value at `p`: leading blanks, a sign, the integer digits, a fraction after a dot and a
decimal exponent. -/
def toFloat (p : List Char) : ℚ :=
  let p := p.dropWhile Char.isWhitespace
  let sgn : Bool × List Char := match p with
    | '-' :: r => (true, r)
    | '+' :: r => (false, r)
    | _ => (false, p)
  let ip := readDigits sgn.2 0 0
  let fp : Nat × Nat × List Char := match ip.2.2 with
    | '.' :: r => readDigits r 0 0
    | r => (0, 0, r)
  let mant : ℚ := (ip.1 : ℚ) + (fp.1 : ℚ) / (10 ^ fp.2.1 : ℕ)
  let ex : Bool × Nat := match fp.2.2 with
    | 'e' :: '-' :: r => (true, (readDigits r 0 0).1)
    | 'E' :: '-' :: r => (true, (readDigits r 0 0).1)
    | 'e' :: '+' :: r => (false, (readDigits r 0 0).1)
    | 'E' :: '+' :: r => (false, (readDigits r 0 0).1)
    | 'e' :: r => (false, (readDigits r 0 0).1)
    | 'E' :: r => (false, (readDigits r 0 0).1)
    | _ => (false, 0)
  let v : ℚ := if ex.1 then mant / (10 ^ ex.2 : ℕ) else mant * (10 ^ ex.2 : ℕ)
  if sgn.1 then -v else v

/-- `strstr(p, c)` for a one-character needle: the text from the first `c` on, or null. -/
def strstr1 (p : List Char) (c : Char) : Option (List Char) :=
  match p.dropWhile (fun x => x != c) with
  | [] => none
  | r => some r

/-- The two lines `auto e = strstr(p, ","); if (!e) e = strstr(p, "}");`. -/
def valueEnd (p : List Char) : Option (List Char) :=
  match strstr1 p ',' with
  | some e => some e
  | none => strstr1 p (Char.ofNat 125)

/-- `!strncmp(p, key, n)` with `n` the length of `key`. -/
def startsWith (p : List Char) (key : String) : Bool := key.toList.isPrefixOf p

/-- The values the quick scan of `header` assigns. -/
structure Probe where
  frameRate : ℚ
  w : ℚ
  h : ℚ
  startFrame : ℚ
  endFrame : ℚ
  deriving DecidableEq, Repr

/-- How the quick scan ends: at the terminating NUL, by reading through a null pointer,
or with the iteration budget of the model used up. -/
inductive Scan where
  | finished (st : Probe)
  | nullDeref
  | outOfFuel
  deriving DecidableEq, Repr

/-- The `while (*p != 0)` loop of `LottieLoader::header`, one iteration per unit of
`fuel`; `p` is the text from the cursor on and `depth` the `uint32_t` brace counter. -/
def quickScan (fuel : Nat) (p : List Char) (depth : Nat) (st : Probe) : Scan :=
  match fuel with
  | 0 => Scan.outOfFuel
  | fuel + 1 =>
    match p with
    | [] => Scan.finished st
    | c :: rest =>
      if c = Char.ofNat 123 then quickScan fuel rest ((depth + 1) % 2 ^ 32) st
      else if c = Char.ofNat 125 then quickScan fuel rest ((depth + (2 ^ 32 - 1)) % 2 ^ 32) st
      else if depth ≠ 1 then quickScan fuel rest depth st
      else if startsWith p "\"v\":" then quickScan fuel (p.drop 4) depth st
      else if startsWith p "\"fr\":" then
        match valueEnd (p.drop 5) with
        | none => Scan.nullDeref
        | some e => quickScan fuel e depth { st with frameRate := toFloat (p.drop 5) }
      else if startsWith p "\"ip\":" then
        match valueEnd (p.drop 5) with
        | none => Scan.nullDeref
        | some e => quickScan fuel e depth { st with startFrame := toFloat (p.drop 5) }
      else if startsWith p "\"op\":" then
        match valueEnd (p.drop 5) with
        | none => Scan.nullDeref
        | some e => quickScan fuel e depth { st with endFrame := toFloat (p.drop 5) }
      else if startsWith p "\"w\":" then
        match valueEnd (p.drop 4) with
        | none => Scan.nullDeref
        | some e => quickScan fuel e depth { st with w := toFloat (p.drop 4) }
      else if startsWith p "\"h\":" then
        match valueEnd (p.drop 4) with
        | none => Scan.nullDeref
        | some e => quickScan fuel e depth { st with h := toFloat (p.drop 4) }
      else quickScan fuel rest depth st

/-- `LottieLoader::header`. `none` stands for a read through a null pointer. With no
worker thread the document is loaded at once (`LoadModule::read(); run(0)`), otherwise
the text is scanned. -/
def LottieLoader.header (env : Env) (s : LottieLoader) : Option (Bool × LottieLoader) :=
  if env.threads = 0 then
    let s := { s with readied := true }
    let s := s.run env
    match s.comp with
    | some c =>
      some (true, { s with w := c.w, h := c.h, frameCnt := c.frameCnt,
                           segmentEnd := c.frameCnt, frameRate := c.frameRate })
    | none => some (false, s)
  else
    match s.content with
    | none => none
    | some text =>
      match quickScan (text.length + 1) text 0 ⟨s.frameRate, s.w, s.h, 0, 0⟩ with
      | Scan.finished st =>
        let s := { s with frameRate := st.frameRate, w := st.w, h := st.h }
        if s.frameRate < env.FLOAT_EPSILON then some (false, s)
        else
          some (true, { s with frameCnt := st.endFrame - st.startFrame,
                               segmentEnd := st.endFrame - st.startFrame })
      | Scan.nullDeref => none
      | Scan.outOfFuel => none

/-- The text of a C string: the characters before the first NUL. -/
def cstr (data : List Char) : List Char := data.takeWhile (fun x => x != Char.ofNat 0)

/-- `LottieLoader::open(const char* data, uint32_t size, const char* rpath, bool copy)`
with the allocation of the copy succeeding. -/
def LottieLoader.open (env : Env) (s : LottieLoader) (data : List Char) (size : Nat)
    (copy : Bool) : Option (Bool × LottieLoader) :=
  let content := if copy then cstr (data.take size) else cstr data
  let s := { s with content := some content, size := size, copy := copy }
  s.header env

/-- The loader as constructed, with the member initialisers of the class declarations
(tvgLottieLoader.h and the modules it derives from, which are not part of the sources):
no content, no document, frame 0, segment start 0, flags clear, nothing in flight. -/
def LottieLoader.init : LottieLoader :=
  { content := none, size := 0, copy := false, readied := false,
    frameNo := 0, frameCnt := 0, frameRate := 0, segmentBegin := 0, segmentEnd := 0,
    w := 0, h := 0, builder := { tweening := false, tweenTo := 0, progress := 0 },
    comp := none, overridden := false, rebuild := false, pending := false, calls := [] }

/-! ## Operations as a transition system -/

/-- The operations a caller (or the scheduler, for `run`) performs on a loader. -/
inductive Op where
  | open (data : List Char) (size : Nat) (copy : Bool)
  | run
  | frame (no : ℚ)
  | tween (from_ to_ progress : ℚ)
  | sync
  | override (slots : Option SlotPayload) (byDefault : Bool)
  | segment (begin_ end_ : ℚ)
  | segmentMarker (marker : String) (begin_ end_ : ℚ)
  | paint
  | ready
  | startFrame
  | totalFrame
  | curFrame
  | duration

/-- The loader after an operation; `none` when the operation reads through a null
pointer. The four queries assign no field. -/
def step (env : Env) (s : LottieLoader) : Op → Option LottieLoader
  | Op.open data size copy => (s.open env data size copy).map Prod.snd
  | Op.run => some (s.run env)
  | Op.frame no => some (s.frame env no).2
  | Op.tween a b p => some (s.tween env a b p).2
  | Op.sync => some (s.sync env)
  | Op.override slots byDefault => some (s.override env slots byDefault).2
  | Op.segment b e => some (s.segment b e).2
  | Op.segmentMarker m b e => some (s.segmentMarker env m b e).2.2.2
  | Op.paint => some (s.paint env).2
  | Op.ready => some (s.ready env).2
  | Op.startFrame => some s
  | Op.totalFrame => some s
  | Op.curFrame => some s
  | Op.duration => some s

/-- The loader states that arise from a constructed loader by operations. -/
inductive Reachable (env : Env) : LottieLoader → Prop where
  | init : Reachable env LottieLoader.init
  | step (s s' : LottieLoader) (op : Op) :
      Reachable env s → step env s op = some s' → Reachable env s'

/-- The loader after a sequence of operations. -/
def steps (env : Env) (s : LottieLoader) : List Op → Option LottieLoader
  | [] => some s
  | op :: ops => (step env s op).bind (fun s' => steps env s' ops)

/-! ## Sample surroundings -/

/-- A document of 60 frames at 30 fps with two markers and two slots. -/
def sampleComp : LottieComposition :=
  { w := 100, h := 50, frameRate := 30, frameCnt := 60,
    markers := [⟨"intro", 0, 20⟩, ⟨"loop", 20, 30⟩, ⟨"loop", 40, 5⟩],
    slots := [⟨"color", 1, 1⟩, ⟨"size", 2, 2⟩],
    initiated := false, expressions := false }

/-- A parser that accepts every non-empty text as `sampleComp`. -/
def sampleParse (text : List Char) : Option (LottieComposition × Option SlotPayload) :=
  if text.length = 0 then none else some (sampleComp, none)

/-- Surroundings without worker threads, with the binary32 arithmetic of the code. -/
def envInline : Env :=
  { threads := 0, parse := sampleParse, FLOAT_EPSILON := 1 / 1000000, fl := fl32 }

/-- Surroundings with four worker threads, with the binary32 arithmetic of the code. -/
def envAsync : Env :=
  { threads := 4, parse := sampleParse, FLOAT_EPSILON := 1 / 1000000, fl := fl32 }

/-- Surroundings without worker threads, with exact arithmetic. -/
def envExact : Env :=
  { threads := 0, parse := sampleParse, FLOAT_EPSILON := 1 / 1000000, fl := id }

/-- A small document text. -/
def sampleText : List Char :=
  "\x7b\"v\":\"5.7\",\"fr\":30,\"ip\":0,\"op\":60,\"w\":100,\"h\":50,\"layers\":[\x7b\"ip\":3\x7d]\x7d".toList

/-- The constructed loader after `open` of the sample text without worker threads. -/
def openedInline : LottieLoader :=
  ((LottieLoader.init.open envInline sampleText 69 true).map Prod.snd).getD LottieLoader.init

/-- The constructed loader after `open` of the sample text with worker threads. -/
def openedAsync : LottieLoader :=
  ((LottieLoader.init.open envAsync sampleText 69 true).map Prod.snd).getD LottieLoader.init

/-- The fields the task never writes are as before: frame number, segment, frame count,
frame rate and the builder's tween state. -/
def SameControl (s s' : LottieLoader) : Prop :=
  s'.frameNo = s.frameNo ∧ s'.segmentBegin = s.segmentBegin ∧ s'.segmentEnd = s.segmentEnd ∧
  s'.frameCnt = s.frameCnt ∧ s'.frameRate = s.frameRate ∧ s'.builder = s.builder

/-- The call log of `s'` is that of `s` followed by calls that all satisfy `P`. -/
def Grows (P : Call → Bool) (s s' : LottieLoader) : Prop :=
  ∃ l, s'.calls = s.calls ++ l ∧ ∀ x ∈ l, P x = true

/-- Calls made while overriding or resetting slots. -/
def Call.ofOverride : Call → Bool
  | Call.apply _ _ => true
  | Call.skip _ => true
  | Call.reset => true
  | _ => false

/-- Calls made by the task (`run`): those of the slot override and `parse`, `build`,
`update`. -/
def Call.ofTask : Call → Bool
  | Call.parse _ => true
  | Call.build => true
  | Call.update _ => true
  | c => c.ofOverride

/-- Calls made by `frame`: those of the task, `offTween`, `clear` and the request. -/
def Call.ofFrame : Call → Bool
  | Call.offTween => true
  | Call.clear => true
  | Call.request => true
  | c => c.ofTask

/-- The same document object: everything but the slot values and the `initiated` mark
is as before. -/
def SameDoc (c c' : LottieComposition) : Prop :=
  c'.w = c.w ∧ c'.h = c.h ∧ c'.frameRate = c.frameRate ∧ c'.frameCnt = c.frameCnt ∧
  c'.markers = c.markers ∧ c'.expressions = c.expressions ∧
  c'.slots.map LottieSlot.sid = c.slots.map LottieSlot.sid

/-- A call that is neither `parse()` nor `build()`. -/
def Call.quiet : Call → Bool
  | Call.parse _ => false
  | Call.build => false
  | _ => true

/-- What an operation may do to the document pointer and the log: a loaded document
stays the same object and no `parse`/`build` is logged; a loader that stays without
document logs no successful `parse` and no `build` and keeps `rebuild`; a loader that
gets its document logs exactly one successful `parse` and one `build`. -/
structure Trans (s s' : LottieLoader) : Prop where
  log : ∃ l, s'.calls = s.calls ++ l ∧
    (s.comp.isSome = true → ∀ x ∈ l, Call.quiet x = true) ∧
    (s'.comp = none → l.count (Call.parse true) = 0 ∧ l.count Call.build = 0) ∧
    (s.comp = none → s'.comp.isSome = true →
      l.count (Call.parse true) = 1 ∧ l.count Call.build = 1)
  keeps : ∀ c, s.comp = some c → ∃ c', s'.comp = some c' ∧ SameDoc c c'
  flag : s.comp = none → s'.comp = none → s'.rebuild = s.rebuild

/-- What holds of every loader that arises from a constructed one: without a document
`rebuild` is clear and nothing was loaded, and at most one `parse` succeeded and at most
one `build` was made. -/
def LoadedOnce (s : LottieLoader) : Prop :=
  (s.comp = none → s.rebuild = false ∧ s.calls.count (Call.parse true) = 0 ∧
    s.calls.count Call.build = 0) ∧
  s.calls.count (Call.parse true) ≤ 1 ∧ s.calls.count Call.build ≤ 1

/-- The calls the override loop makes for one entry of the payload, given the slot ids
of the document: `apply` on a slot with that id (and `skip` when `apply` fails), or just
`skip` when no slot has that id. -/
def entryCalls (slots : List LottieSlot) (e : SlotEntry) : List Call :=
  if slots.any (fun p => p.sid == e.sid) then
    (if e.valid then [Call.apply e.sid true] else [Call.apply e.sid false, Call.skip e.sid])
  else [Call.skip e.sid]

/-- An entry of the payload changes a slot: its id is the id of a document slot and
`apply` accepts its value. -/
def entryApplies (slots : List LottieSlot) (e : SlotEntry) : Bool :=
  slots.any (fun p => p.sid == e.sid) && e.valid

/-- What one iteration of the `while` loop of `header` does: the loop ends (`*p` is the
NUL), the cursor is set to a null pointer (read by the next test of the loop), or the
loop goes on with a new cursor, depth and values. -/
inductive Iter where
  | stop
  | crash
  | next (p : List Char) (depth : Nat) (st : Probe)
  deriving DecidableEq, Repr

/-- One iteration of the `while (*p != 0)` loop of `LottieLoader::header`: the body of
`quickScan` with the loop cut open. -/
def scanIter (p : List Char) (depth : Nat) (st : Probe) : Iter :=
  match p with
  | [] => Iter.stop
  | c :: rest =>
    if c = Char.ofNat 123 then Iter.next rest ((depth + 1) % 2 ^ 32) st
    else if c = Char.ofNat 125 then Iter.next rest ((depth + (2 ^ 32 - 1)) % 2 ^ 32) st
    else if depth ≠ 1 then Iter.next rest depth st
    else if startsWith p "\"v\":" then Iter.next (p.drop 4) depth st
    else if startsWith p "\"fr\":" then
      match valueEnd (p.drop 5) with
      | none => Iter.crash
      | some e => Iter.next e depth { st with frameRate := toFloat (p.drop 5) }
    else if startsWith p "\"ip\":" then
      match valueEnd (p.drop 5) with
      | none => Iter.crash
      | some e => Iter.next e depth { st with startFrame := toFloat (p.drop 5) }
    else if startsWith p "\"op\":" then
      match valueEnd (p.drop 5) with
      | none => Iter.crash
      | some e => Iter.next e depth { st with endFrame := toFloat (p.drop 5) }
    else if startsWith p "\"w\":" then
      match valueEnd (p.drop 4) with
      | none => Iter.crash
      | some e => Iter.next e depth { st with w := toFloat (p.drop 4) }
    else if startsWith p "\"h\":" then
      match valueEnd (p.drop 4) with
      | none => Iter.crash
      | some e => Iter.next e depth { st with h := toFloat (p.drop 4) }
    else Iter.next rest depth st

/-- A document text that stops before the value of its frame rate ends. -/
def truncatedText : List Char := "\x7b\"fr\":30".toList
/-- After every quote of the text a ',' or a closing brace follows somewhere: what the
jump `p = e` behind a recognised key needs in order to have a target. -/
def ValuesEnd (text : List Char) : Prop :=
  ∀ q : List Char, q.IsSuffix text → q.head? = some '"' →
    ',' ∈ q ∨ Char.ofNat 125 ∈ q
/-- The five keys whose values the quick scan stores. -/
inductive Key where
  | fr
  | ip
  | op
  | w
  | h
  deriving DecidableEq, Repr

/-- The literal the quick scan compares the text with for a key. -/
def Key.text : Key → String
  | Key.fr => "\"fr\":"
  | Key.ip => "\"ip\":"
  | Key.op => "\"op\":"
  | Key.w => "\"w\":"
  | Key.h => "\"h\":"

/-- The assignment the quick scan makes for a key. -/
def Probe.assign (st : Probe) (k : Key) (v : ℚ) : Probe :=
  match k with
  | Key.fr => { st with frameRate := v }
  | Key.ip => { st with startFrame := v }
  | Key.op => { st with endFrame := v }
  | Key.w => { st with w := v }
  | Key.h => { st with h := v }

/-- The literal of one of the five keys starts at the cursor. -/
def valueKeyAt (p : List Char) : Bool :=
  startsWith p "\"fr\":" || startsWith p "\"ip\":" || startsWith p "\"op\":" ||
    startsWith p "\"w\":" || startsWith p "\"h\":"

/-- A stretch of text that carries no top-level value: read from `k` braces below the
top-level object it closes every brace it opens, never closes one it did not open, and
outside its braces no literal of the five keys starts. -/
def inert : List Char → Nat → Bool
  | [], k => k == 0
  | c :: rest, k =>
    if c = Char.ofNat 123 then inert rest (k + 1)
    else if c = Char.ofNat 125 then decide (0 < k) && inert rest (k - 1)
    else if k = 0 ∧ valueKeyAt (c :: rest) = true then false
    else inert rest k

/-- The pieces between the commas of a top-level object: a field of one of the five keys
with the text of its value, or any other stretch of text (other fields, nested objects,
arrays). -/
inductive Item where
  | num (k : Key) (v : List Char)
  | other (t : List Char)
  deriving DecidableEq, Repr

/-- The text of an item. -/
def Item.text : Item → List Char
  | Item.num k v => k.text.toList ++ v
  | Item.other t => t

/-- The items the statement about the quick scan covers: the value of a key field holds
no comma and no brace, any other stretch is `inert`. -/
def Item.wf : Item → Bool
  | Item.num _ v => v.all (fun c => c != ',' && c != Char.ofNat 123 && c != Char.ofNat 125)
  | Item.other t => inert t 0

/-- The text behind an item: the items that follow, each after a comma, and the closing
brace of the object. -/
def renderFrom : List Item → List Char
  | [] => [Char.ofNat 125]
  | i :: is => ',' :: (i.text ++ renderFrom is)

/-- The text of the object with the given items. -/
def document : List Item → List Char
  | [] => [Char.ofNat 123, Char.ofNat 125]
  | i :: is => Char.ofNat 123 :: (i.text ++ renderFrom is)

/-- What an item adds to the top-level values: a field of one of the five keys stores
the numeric parse of its value. -/
def Item.effect (i : Item) (st : Probe) : Probe :=
  match i with
  | Item.num k v => st.assign k (toFloat v)
  | Item.other _ => st

/-- The top-level values of the items of an object, read from left to right starting
from `st`: for each key the numeric parse of the value of its last field. -/
def topLevel : List Item → Probe → Probe
  | [], st => st
  | i :: is, st => topLevel is (i.effect st)

/-- A document text with a brace inside a top-level string. -/
def braceText : List Char :=
  "\x7b\"nm\":\"\x7b\",\"fr\":30,\"ip\":0,\"op\":60,\"w\":100,\"h\":50\x7d".toList

/-- The items of a document with the five fields and a nested object that repeats keys. -/
def sampleItems : List Item :=
  [Item.other "\"v\":\"5.7\"".toList, Item.num Key.fr "30".toList,
   Item.other "\"layers\":[\x7b\"fr\":99,\"ip\":7,\"w\":1\x7d]".toList,
   Item.num Key.ip "0".toList, Item.num Key.op "60".toList, Item.num Key.w "100".toList,
   Item.num Key.h "50".toList]
/-- The sign stage of `toFloat`: whether a minus sign leads, and the text behind the sign. -/
def signStage (p : List Char) : Bool × List Char :=
  match p with
  | [] => (false, [])
  | c :: r => if c = '-' then (true, r) else if c = '+' then (false, r) else (false, c :: r)

/-- The fraction stage of `toFloat`: the digits behind a dot, their count and the text
behind them. -/
def fracStage (p : List Char) : Nat × Nat × List Char :=
  match p with
  | [] => (0, 0, [])
  | c :: r => if c = '.' then readDigits r 0 0 else (0, 0, c :: r)

/-- The exponent stage of `toFloat`: whether the exponent is negative, and its digits. -/
def expStage (p : List Char) : Bool × Nat :=
  match p with
  | [] => (false, 0)
  | c :: r =>
    if c = 'e' ∨ c = 'E' then
      match r with
      | [] => (false, 0)
      | d :: r' =>
        if d = '-' then (true, (readDigits r' 0 0).1)
        else if d = '+' then (false, (readDigits r' 0 0).1)
        else (false, (readDigits (d :: r') 0 0).1)
    else (false, 0)

/-- The stages of `toFloat` put together. -/
def toFloatStaged (p : List Char) : ℚ :=
  let sgn := signStage (p.dropWhile Char.isWhitespace)
  let ip := readDigits sgn.2 0 0
  let fp := fracStage ip.2.2
  let mant : ℚ := (ip.1 : ℚ) + (fp.1 : ℚ) / (10 ^ fp.2.1 : ℕ)
  let ex := expStage fp.2.2
  let v : ℚ := if ex.1 then mant / (10 ^ ex.2 : ℕ) else mant * (10 ^ ex.2 : ℕ)
  if sgn.1 then -v else v

end Lottie

/-!
# WebP decode buffers

A shallow embedding of `src/loaders/webp/dec/buffer.cpp`. An `int` is an integer, and the
result of an `int` operation is reduced to the signed 32-bit range (`wrap32`);
`uint64_t` and `size_t` values are reduced modulo 2^64 (`u64`); a pointer is its address,
0 for `NULL`. The union `u` of a buffer is kept as its two members `RGBA` and `YUVA`, of
which the code reads and writes the one that the colorspace selects.
-/

namespace WebP

/-- The result of an `int` operation, reduced to the signed 32-bit range. -/
def wrap32 (x : ℤ) : ℤ := (x + 2 ^ 31) % 2 ^ 32 - 2 ^ 31

/-- The conversion to `uint64_t`, and the result of a `uint64_t` operation. -/
def u64 (x : ℤ) : ℤ := x % 2 ^ 64

/-- The C function `abs` on `int`. -/
def abs32 (x : ℤ) : ℤ := wrap32 |x|

/-- The status codes buffer.cpp returns. -/
inductive VP8StatusCode where
  | VP8_STATUS_OK
  | VP8_STATUS_OUT_OF_MEMORY
  | VP8_STATUS_INVALID_PARAM
  deriving DecidableEq, Repr

/-- The first colorspace of the enumeration `WEBP_CSP_MODE` (decode.h, which is not part
of the sources): the modes number the entries of `kModeBpp`. -/
def MODE_RGB : ℤ := 0

/-- The colorspace of the last but one entry of `kModeBpp`: planar YUV. -/
def MODE_YUV : ℤ := 11

/-- The colorspace of the last entry of `kModeBpp`: planar YUV with an alpha plane. -/
def MODE_YUVA : ℤ := 12

/-- The number of colorspaces, the length of `kModeBpp`. -/
def MODE_LAST : ℤ := 13

/-- `kModeBpp`: the number of bytes per pixel for the different colorspaces. -/
def kModeBpp : List ℤ := [3, 4, 3, 4, 4, 2, 2, 4, 4, 4, 2, 1, 1]

/-- The array access `kModeBpp[mode]`. -/
def bpp (mode : ℤ) : ℤ := kModeBpp.getD mode.toNat 0

/-- `IsValidColorspace`. -/
def IsValidColorspace (webp_csp_mode : ℤ) : Bool :=
  decide (webp_csp_mode ≥ MODE_RGB ∧ webp_csp_mode < MODE_LAST)

/-- `WebPIsRGBMode` (decode.h, which is not part of the sources): the colorspaces before
`MODE_YUV`. -/
def WebPIsRGBMode (mode : ℤ) : Bool := decide (mode < MODE_YUV)

/-- The member `RGBA` of the union of a buffer (`WebPRGBABuffer`). -/
structure WebPRGBABuffer where
  rgba : ℤ
  stride : ℤ
  size : ℤ
  deriving DecidableEq, Repr

/-- The member `YUVA` of the union of a buffer (`WebPYUVABuffer`). -/
structure WebPYUVABuffer where
  y : ℤ
  u : ℤ
  v : ℤ
  a : ℤ
  y_stride : ℤ
  u_stride : ℤ
  v_stride : ℤ
  a_stride : ℤ
  y_size : ℤ
  u_size : ℤ
  v_size : ℤ
  a_size : ℤ
  deriving DecidableEq, Repr

/-- The decode buffer (`WebPDecBuffer`). -/
structure WebPDecBuffer where
  colorspace : ℤ
  width : ℤ
  height : ℤ
  is_external_memory : ℤ
  RGBA : WebPRGBABuffer
  YUVA : WebPYUVABuffer
  private_memory : ℤ
  deriving DecidableEq, Repr

/-- The fields of `WebPDecoderOptions` that buffer.cpp reads. -/
structure WebPDecoderOptions where
  use_cropping : ℤ
  crop_left : ℤ
  crop_top : ℤ
  crop_width : ℤ
  crop_height : ℤ
  use_scaling : ℤ
  scaled_width : ℤ
  scaled_height : ℤ
  flip : ℤ
  deriving DecidableEq, Repr

/-- `CheckDecBuffer`. -/
def CheckDecBuffer (buffer : WebPDecBuffer) : VP8StatusCode :=
  let mode := buffer.colorspace
  let width := buffer.width
  let height := buffer.height
  let ok : Bool :=
    if !IsValidColorspace mode then false
    else if !WebPIsRGBMode mode then
      let buf := buffer.YUVA
      let y_stride := abs32 buf.y_stride
      let u_stride := abs32 buf.u_stride
      let v_stride := abs32 buf.v_stride
      let a_stride := abs32 buf.a_stride
      let y_size := u64 (u64 y_stride * u64 height)
      let u_size := u64 (u64 u_stride * u64 ((wrap32 (height + 1)).tdiv 2))
      let v_size := u64 (u64 v_stride * u64 ((wrap32 (height + 1)).tdiv 2))
      let a_size := u64 (u64 a_stride * u64 height)
      let ok := decide (y_size ≤ buf.y_size)
      let ok := ok && decide (u_size ≤ buf.u_size)
      let ok := ok && decide (v_size ≤ buf.v_size)
      let ok := ok && decide (y_stride ≥ width)
      let ok := ok && decide (u_stride ≥ (wrap32 (width + 1)).tdiv 2)
      let ok := ok && decide (v_stride ≥ (wrap32 (width + 1)).tdiv 2)
      let ok := ok && decide (buf.y ≠ 0)
      let ok := ok && decide (buf.u ≠ 0)
      let ok := ok && decide (buf.v ≠ 0)
      if mode = MODE_YUVA then
        ok && decide (a_stride ≥ width) && decide (a_size ≤ buf.a_size) && decide (buf.a ≠ 0)
      else ok
    else
      let buf := buffer.RGBA
      let stride := abs32 buf.stride
      let size := u64 (u64 stride * u64 height)
      decide (size ≤ buf.size) && decide (stride ≥ wrap32 (width * bpp mode)) &&
        decide (buf.rgba ≠ 0)
  if ok then VP8StatusCode.VP8_STATUS_OK else VP8StatusCode.VP8_STATUS_INVALID_PARAM

/-- `AllocateBuffer`; `malloc` is `tvg::malloc`, giving the address of the new block for
a number of bytes, or 0. -/
def AllocateBuffer (malloc : ℤ → ℤ) (buffer : WebPDecBuffer) :
    VP8StatusCode × WebPDecBuffer :=
  let w := buffer.width
  let h := buffer.height
  let mode := buffer.colorspace
  if w ≤ 0 ∨ h ≤ 0 ∨ IsValidColorspace mode = false then
    (VP8StatusCode.VP8_STATUS_INVALID_PARAM, buffer)
  else if buffer.is_external_memory = 0 ∧ buffer.private_memory = 0 then
    let stride := wrap32 (w * bpp mode)
    let size := u64 (u64 stride * u64 h)
    let uv_stride := if WebPIsRGBMode mode = false then (wrap32 (w + 1)).tdiv 2 else 0
    let uv_size :=
      if WebPIsRGBMode mode = false then u64 (u64 uv_stride * u64 ((wrap32 (h + 1)).tdiv 2))
      else 0
    let a_stride := if WebPIsRGBMode mode = false ∧ mode = MODE_YUVA then w else 0
    let a_size :=
      if WebPIsRGBMode mode = false ∧ mode = MODE_YUVA then u64 (u64 a_stride * u64 h) else 0
    let total_size := u64 (size + 2 * uv_size + a_size)
    let output := malloc (u64 (total_size * 1))
    if output = 0 then (VP8StatusCode.VP8_STATUS_OUT_OF_MEMORY, buffer)
    else
      let buffer := { buffer with private_memory := output }
      let buffer :=
        if WebPIsRGBMode mode = false then
          { buffer with YUVA :=
              { y := output
                y_stride := stride
                y_size := size
                u := output + size
                u_stride := uv_stride
                u_size := uv_size
                v := output + size + uv_size
                v_stride := uv_stride
                v_size := uv_size
                a := if mode = MODE_YUVA then output + size + 2 * uv_size else buffer.YUVA.a
                a_size := a_size
                a_stride := a_stride } }
        else
          { buffer with RGBA := { rgba := output, stride := stride, size := size } }
      (CheckDecBuffer buffer, buffer)
  else (CheckDecBuffer buffer, buffer)

/-- `WebPFlipBuffer`; `none` is the null pointer. -/
def WebPFlipBuffer (buffer : Option WebPDecBuffer) : VP8StatusCode × Option WebPDecBuffer :=
  match buffer with
  | none => (VP8StatusCode.VP8_STATUS_INVALID_PARAM, none)
  | some b =>
    if WebPIsRGBMode b.colorspace then
      let buf := b.RGBA
      let buf := { buf with rgba := buf.rgba + wrap32 (wrap32 (b.height - 1) * buf.stride) }
      let buf := { buf with stride := wrap32 (-buf.stride) }
      (VP8StatusCode.VP8_STATUS_OK, some { b with RGBA := buf })
    else
      let buf := b.YUVA
      let H := b.height
      let buf := { buf with y := buf.y + wrap32 (wrap32 (H - 1) * buf.y_stride) }
      let buf := { buf with y_stride := wrap32 (-buf.y_stride) }
      let buf := { buf with u := buf.u + wrap32 (wrap32 (H - 1) / 2 * buf.u_stride) }
      let buf := { buf with u_stride := wrap32 (-buf.u_stride) }
      let buf := { buf with v := buf.v + wrap32 (wrap32 (H - 1) / 2 * buf.v_stride) }
      let buf := { buf with v_stride := wrap32 (-buf.v_stride) }
      let buf :=
        if buf.a ≠ 0 then
          { buf with
              a := buf.a + wrap32 (wrap32 (H - 1) * buf.a_stride)
              a_stride := wrap32 (-buf.a_stride) }
        else buf
      (VP8StatusCode.VP8_STATUS_OK, some { b with YUVA := buf })

/-- `WebPAllocateDecBuffer`; `none` is the null pointer, for the options and for the
buffer `out`. -/
def WebPAllocateDecBuffer (malloc : ℤ → ℤ) (w h : ℤ) (options : Option WebPDecoderOptions)
    (out : Option WebPDecBuffer) : VP8StatusCode × Option WebPDecBuffer :=
  match out with
  | none => (VP8StatusCode.VP8_STATUS_INVALID_PARAM, out)
  | some o =>
    if w ≤ 0 ∨ h ≤ 0 then (VP8StatusCode.VP8_STATUS_INVALID_PARAM, out)
    else
      let cropped : Option (ℤ × ℤ) :=
        match options with
        | none => some (w, h)
        | some opt =>
          if opt.use_cropping ≠ 0 then
            let cw := opt.crop_width
            let ch := opt.crop_height
            let x := Int.land opt.crop_left (Int.not 1)
            let y := Int.land opt.crop_top (Int.not 1)
            if x < 0 ∨ y < 0 ∨ cw ≤ 0 ∨ ch ≤ 0 ∨ wrap32 (x + cw) > w ∨ wrap32 (y + ch) > h
            then none
            else some (cw, ch)
          else some (w, h)
      let scaled : Option (ℤ × ℤ) :=
        match cropped, options with
        | none, _ => none
        | some wh, none => some wh
        | some wh, some opt =>
          if opt.use_scaling ≠ 0 then
            if opt.scaled_width ≤ 0 ∨ opt.scaled_height ≤ 0 then none
            else some (opt.scaled_width, opt.scaled_height)
          else some wh
      match scaled with
      | none => (VP8StatusCode.VP8_STATUS_INVALID_PARAM, out)
      | some wh =>
        let o := { o with width := wh.1, height := wh.2 }
        let r := AllocateBuffer malloc o
        if r.1 ≠ VP8StatusCode.VP8_STATUS_OK then (r.1, some r.2)
        else
          match options with
          | none => (r.1, some r.2)
          | some opt =>
            if opt.flip ≠ 0 then WebPFlipBuffer (some r.2) else (r.1, some r.2)

/-- An allocator that has exactly one block to give, of `n` bytes at address 4096. -/
def mallocOnly (n : ℤ) (bytes : ℤ) : ℤ := if bytes = n then 4096 else 0

/-- An allocator that always succeeds, at address 4096. -/
def mallocAny (_bytes : ℤ) : ℤ := 4096

/-- A zeroed buffer, as `WebPInitDecBufferInternal` leaves it, with a colorspace set. -/
def freshBuffer (mode : ℤ) : WebPDecBuffer :=
  { colorspace := mode, width := 0, height := 0, is_external_memory := 0,
    RGBA := ⟨0, 0, 0⟩, YUVA := ⟨0, 0, 0, 0, 0, 0, 0, 0, 0, 0, 0, 0⟩, private_memory := 0 }

/-- A plane pointer `p` with stride `s` can be moved by `rows` rows and back in `int`
arithmetic: the stride can be negated, the offset `rows * s` fits an `int` together with
its negation, and a pointer that is not null is not moved to the null address. -/
def planeFits (rows p s : ℤ) : Bool :=
  decide (-2 ^ 31 < s ∧ s < 2 ^ 31 ∧ -2 ^ 31 < rows * s ∧ rows * s < 2 ^ 31 ∧
    (p ≠ 0 → p + rows * s ≠ 0))

/-- The flip of a buffer stays inside `int` arithmetic: `height - 1` fits an `int`, and
every plane that `WebPFlipBuffer` moves can be moved (`planeFits`); the alpha plane is
one of them when its pointer is not null. -/
def flipFits (b : WebPDecBuffer) : Bool :=
  decide (-2 ^ 31 ≤ b.height - 1 ∧ b.height - 1 < 2 ^ 31) &&
    if WebPIsRGBMode b.colorspace then
      planeFits (b.height - 1) b.RGBA.rgba b.RGBA.stride
    else
      planeFits (b.height - 1) b.YUVA.y b.YUVA.y_stride &&
      planeFits ((b.height - 1) / 2) b.YUVA.u b.YUVA.u_stride &&
      planeFits ((b.height - 1) / 2) b.YUVA.v b.YUVA.v_stride &&
      (decide (b.YUVA.a = 0) || planeFits (b.height - 1) b.YUVA.a b.YUVA.a_stride)

/-- An RGBA buffer of 16384 x 32769 pixels over a block of 2147549184 bytes at the
address 2^33: a row has 65536 bytes. -/
def tallBuffer : WebPDecBuffer :=
  { freshBuffer 1 with
      width := 16384, height := 32769, is_external_memory := 1,
      RGBA := ⟨8589934592, 65536, 2147549184⟩ }

/-- A planar YUV buffer of 4 x 2 pixels without alpha plane (the pointer `a` is null),
whose alpha stride holds 7. -/
def plainYuv : WebPDecBuffer :=
  { freshBuffer MODE_YUV with
      width := 4, height := 2, is_external_memory := 1,
      YUVA := ⟨4096, 4104, 4106, 0, 4, 2, 2, 7, 8, 2, 2, 0⟩ }

/-- A planar YUVA buffer of 5 x 3 pixels, the four planes one after the other from the
address 4096. -/
def alphaBuffer : WebPDecBuffer :=
  { freshBuffer MODE_YUVA with
      width := 5, height := 3, private_memory := 4096,
      YUVA := ⟨4096, 4111, 4117, 4123, 5, 3, 3, 5, 15, 6, 6, 15⟩ }

end WebP

namespace Lottie

/-! ## Rounding facts -/

/-- Rounding an integer plus an offset below one half gives the integer back. -/
theorem roundHalfEven_int_add (k : ℤ) (x : ℚ) (h : |x| < 1 / 2) :
    roundHalfEven ((k : ℚ) + x) = k := by
  have hx := abs_lt.mp h
  unfold roundHalfEven
  rcases le_or_lt 0 x with h0 | h0
  · have hf : ⌊(k : ℚ) + x⌋ = k := by
      rw [Int.floor_eq_iff]
      constructor <;> linarith [hx.2]
    simp only [hf]
    rw [if_pos (by linarith [hx.2])]
  · have hf : ⌊(k : ℚ) + x⌋ = k - 1 := by
      rw [Int.floor_eq_iff]
      push_cast
      constructor <;> linarith [hx.1]
    simp only [hf]
    push_cast
    rw [if_neg (by linarith [hx.1]), if_pos (by linarith [hx.1])]
    ring

/-- Rounding is within one half of the argument. -/
theorem roundHalfEven_near (x : ℚ) : |(roundHalfEven x : ℚ) - x| ≤ 1 / 2 := by
  have h1 := Int.floor_le x
  have h2 := Int.lt_floor_add_one x
  unfold roundHalfEven
  rw [abs_le]
  simp only
  split_ifs with ha hb hc
  · constructor <;> linarith
  · push_cast; constructor <;> linarith
  · constructor <;> linarith
  · push_cast; constructor <;> linarith

/-! ## The binary32 rounding -/

/-- The exponent search ends at -126 or at a power of two that is not above `|x|`. -/
theorem exponentFrom_lower (k : ℕ) (x : ℚ) :
    -126 ≤ exponentFrom k x ∧
      (exponentFrom k x = -126 ∨ (2 : ℚ) ^ exponentFrom k x ≤ |x|) := by
  induction k with
  | zero => exact ⟨le_refl _, Or.inl rfl⟩
  | succ k ih =>
    unfold exponentFrom
    split_ifs with h
    · exact ⟨by omega, Or.inr h⟩
    · exact ih

/-- Below the top of the search the next power of two is above `|x|`. -/
theorem exponentFrom_upper (k : ℕ) (x : ℚ) :
    |x| < (2 : ℚ) ^ (exponentFrom k x + 1) ∨ exponentFrom k x = (k : ℤ) - 126 := by
  induction k with
  | zero => exact Or.inr (by simp [exponentFrom])
  | succ k ih =>
    unfold exponentFrom
    split_ifs with h
    · right
      push_cast
      ring
    · left
      rcases ih with h1 | h1
      · exact h1
      · rw [h1]
        have e : (k : ℤ) - 126 + 1 = (k : ℤ) - 125 := by ring
        rw [e]
        exact not_le.mp h

/-- The exponent of a value in the range of the normal numbers is `⌊log2 |x|⌋`, so that
`fl32` keeps 24 significant bits; below that range the exponent is -126. -/
theorem exponent32_spec (x : ℚ) (h : |x| < 2 ^ (128 : ℤ)) :
    -126 ≤ exponent32 x ∧ |x| < 2 ^ (exponent32 x + 1) ∧
      (exponent32 x = -126 ∨ (2 : ℚ) ^ exponent32 x ≤ |x|) := by
  obtain ⟨h1, h2⟩ := exponentFrom_lower 253 x
  refine ⟨h1, ?_, h2⟩
  rcases exponentFrom_upper 253 x with h3 | h3
  · exact h3
  · unfold exponent32
    rw [h3]
    norm_num
    norm_num at h
    exact h

/-- The binary32 rounding moves a value by at most half a unit in the last place. -/
theorem fl32_near (x : ℚ) : |fl32 x - x| ≤ 2 ^ (exponent32 x - 24) := by
  have hp : (0 : ℚ) < 2 ^ (exponent32 x - 23) := zpow_pos (by norm_num) _
  have hr := roundHalfEven_near (x / 2 ^ (exponent32 x - 23))
  have e1 : fl32 x - x =
      ((roundHalfEven (x / 2 ^ (exponent32 x - 23)) : ℚ) - x / 2 ^ (exponent32 x - 23)) *
        2 ^ (exponent32 x - 23) := by
    unfold fl32
    field_simp
  have e2 : (2 : ℚ) ^ (exponent32 x - 24) = 1 / 2 * 2 ^ (exponent32 x - 23) := by
    have e3 : exponent32 x - 23 = (exponent32 x - 24) + 1 := by ring
    rw [e3, zpow_add_one₀ (by norm_num)]
    ring
  rw [e1, e2, abs_mul, abs_of_pos hp]
  exact mul_le_mul_of_nonneg_right hr hp.le

/-- The standard model of the binary32 rounding: a relative error of at most `2 ^ -24`,
or an absolute error of at most `2 ^ -150` below the normal numbers. -/
theorem fl32_bound (x M : ℚ) (h : |x| ≤ M) :
    |fl32 x - x| ≤ M / 16777216 + 1 / 2 ^ 150 := by
  have hn := fl32_near x
  have hM : 0 ≤ M := le_trans (abs_nonneg x) h
  obtain ⟨_, h2⟩ := exponentFrom_lower 253 x
  have e24 : (2 : ℚ) ^ (exponent32 x - 24) = 2 ^ exponent32 x / 16777216 := by
    rw [zpow_sub₀ (by norm_num)]
    norm_num
  rcases h2 with h2 | h2
  · have e : exponent32 x = -126 := h2
    rw [e] at hn
    have e150 : (2 : ℚ) ^ ((-126 : ℤ) - 24) = 1 / 2 ^ 150 := by
      norm_num [zpow_neg]
    rw [e150] at hn
    have : 0 ≤ M / 16777216 := by positivity
    linarith
  · have h3 : (2 : ℚ) ^ exponent32 x ≤ M := le_trans h2 h
    rw [e24] at hn
    have : (2 : ℚ) ^ exponent32 x / 16777216 ≤ M / 16777216 := by
      apply div_le_div_of_nonneg_right h3 (by norm_num)
    have : (0 : ℚ) ≤ 1 / 2 ^ 150 := by positivity
    linarith

/-- The float `0.0001f`. -/
theorem fl32_tenth_milli : fl32 (1 / 10000) = 13743895 / 137438953472 := by
  decide!

/-- The float `0.0009f`. -/
theorem fl32_nine_tenth_milli : fl32 (9 / 10000) = 7730941 / 8589934592 := by
  decide!

/-- The stages of `shorten` in binary32 on a document-local frame `x` of at most `M` in
absolute value, for `M` up to 1000: the product `b` that is rounded to an integer is within
`0.0012 * (M + 1)` of `10000 * x`, and the result is within `0.00000006 * (M + 1)` of
`r * 0.0001f` for the integer `r` nearest to `b`. -/
theorem shorten_stages (x M : ℚ) (hx : |x| ≤ M) (hm : M ≤ 1000) :
    |fl32 (fl32 x * 10000) - 10000 * x| ≤ (M + 1) * (12 / 10000) ∧
    |fl32 (nearbyintf (fl32 (fl32 x * 10000)) * fl32 (1 / 10000)) -
      (roundHalfEven (fl32 (fl32 x * 10000)) : ℚ) * (13743895 / 137438953472)| ≤
      (M + 1) * (6 / 100000000) := by
  rw [fl32_tenth_milli]
  unfold nearbyintf
  have hM : 0 ≤ M := le_trans (abs_nonneg x) hx
  have ha := abs_le.mp (fl32_bound x M hx)
  have hx' := abs_le.mp hx
  have ha2 : |fl32 x * 10000| ≤ 10001 * M + 1 := by
    rw [abs_le]
    constructor <;> norm_num at ha ⊢ <;> linarith [ha.1, ha.2, hx'.1, hx'.2]
  have hb := abs_le.mp (fl32_bound (fl32 x * 10000) (10001 * M + 1) ha2)
  have hr := abs_le.mp (roundHalfEven_near (fl32 (fl32 x * 10000)))
  have h1 : |fl32 (fl32 x * 10000) - 10000 * x| ≤ (M + 1) * (12 / 10000) := by
    rw [abs_le]
    constructor <;> norm_num at ha hb ⊢ <;> linarith [ha.1, ha.2, hb.1, hb.2]
  have h1' := abs_le.mp h1
  have h3 : |(roundHalfEven (fl32 (fl32 x * 10000)) : ℚ) * (13743895 / 137438953472)| ≤
      M + 1 := by
    rw [abs_le]
    constructor <;> linarith [h1'.1, h1'.2, hx'.1, hx'.2, hr.1, hr.2]
  have hy := abs_le.mp (fl32_bound _ (M + 1) h3)
  refine ⟨h1, ?_⟩
  rw [abs_le]
  constructor <;> norm_num at hy ⊢ <;> linarith [hy.1, hy.2]

/-! ## Theorems: segment, shorten, queries -/

/-- C1: `segment(begin, end)` clamps `begin` up to 0 and `end` down to `frameCnt`; when the
clamped begin exceeds the clamped end it returns `InvalidArguments` and the loader is
unchanged, otherwise it returns `Success` and the segment bounds are the clamped values. -/
theorem segment_clamps (s : LottieLoader) (b e : ℚ) :
    s.segment b e =
      if max b 0 > min e s.frameCnt then (Result.InvalidArguments, s)
      else (Result.Success,
        { s with segmentBegin := max b 0, segmentEnd := min e s.frameCnt }) := by
  have hb : (if b < 0 then (0 : ℚ) else b) = max b 0 := by
    split_ifs with h
    · exact (max_eq_right h.le).symm
    · exact (max_eq_left (not_lt.mp h)).symm
  have he : (if e > s.frameCnt then s.frameCnt else e) = min e s.frameCnt := by
    split_ifs with h
    · exact (min_eq_right h.le).symm
    · exact (min_eq_left (not_lt.mp h)).symm
  simp only [LottieLoader.segment, hb, he]

/-- C3, as stated, fails in the binary32 arithmetic of the code. With the segment
starting at frame 10, `shorten 5` is 15 and `shorten 15` is 25. With the segment starting
at frame 0, the float 450.541504 (14763344 / 32768) is shortened to 14763343 / 32768
(450.541473), and that to 14763340 / 32768 (450.541382). -/
theorem shorten_not_idempotent :
    ({ LottieLoader.init with segmentBegin := 10 } : LottieLoader).shorten envInline 5 = 15 ∧
    ({ LottieLoader.init with segmentBegin := 10 } : LottieLoader).shorten envInline 15 = 25 ∧
    LottieLoader.init.segmentBegin = 0 ∧
    fl32 (14763344 / 32768) = 14763344 / 32768 ∧
    LottieLoader.init.shorten envInline (14763344 / 32768) = 14763343 / 32768 ∧
    LottieLoader.init.shorten envInline (14763343 / 32768) = 14763340 / 32768 := by
  decide!

/-- C3, amended: in the binary32 arithmetic of the code `shorten` is idempotent when the
segment starts at frame 0 and the frame number is at most 200 in absolute value. -/
theorem shorten_idempotent (env : Env) (s : LottieLoader) (f : ℚ)
    (hfl : env.fl = fl32) (hs : s.segmentBegin = 0) (hf : |f| ≤ 200) :
    s.shorten env (s.shorten env f) = s.shorten env f := by
  unfold LottieLoader.shorten LottieLoader.startFrame
  rw [hfl, hs]
  simp only [add_zero]
  obtain ⟨s1, s2⟩ := shorten_stages f 200 hf (by norm_num)
  rw [fl32_tenth_milli] at s2 ⊢
  have hr := abs_le.mp (roundHalfEven_near (fl32 (fl32 f * 10000)))
  have hf' := abs_le.mp hf
  have s1' := abs_le.mp s1
  have s2' := abs_le.mp s2
  have hy : |fl32 (nearbyintf (fl32 (fl32 f * 10000)) * (13743895 / 137438953472))| ≤
      20001 / 100 := by
    rw [abs_le]
    constructor <;> linarith [s1'.1, s1'.2, s2'.1, s2'.2, hr.1, hr.2, hf'.1, hf'.2]
  obtain ⟨t1, _⟩ := shorten_stages _ (20001 / 100) hy (by norm_num)
  have t1' := abs_le.mp t1
  have key : |fl32 (fl32 (fl32 (nearbyintf (fl32 (fl32 f * 10000)) *
      (13743895 / 137438953472))) * 10000) - (roundHalfEven (fl32 (fl32 f * 10000)) : ℚ)| <
      1 / 2 := by
    rw [abs_lt]
    constructor <;> linarith [s1'.1, s1'.2, s2'.1, s2'.2, hr.1, hr.2, hf'.1, hf'.2, t1'.1, t1'.2]
  have hk := roundHalfEven_int_add (roundHalfEven (fl32 (fl32 f * 10000))) _ key
  rw [add_sub_cancel] at hk
  unfold nearbyintf at hk ⊢
  rw [hk]

/-- The amended C3 at the constructed loader and frame 12.34567, in binary32. -/
theorem shorten_idempotent_witness :
    LottieLoader.init.shorten envInline (LottieLoader.init.shorten envInline
      (1234567 / 100000)) = LottieLoader.init.shorten envInline (1234567 / 100000) :=
  shorten_idempotent envInline LottieLoader.init (1234567 / 100000) rfl rfl (by decide!)

/-- C10: with frame rate `r` and segment `[b, e]`, `duration()` is `(e - b) / r`,
`totalFrame()` is `e - b`, `startFrame()` is `b` (and `curFrame()` is `frameNo - b`), both
for the fields as they stand and after `segment(b, e)` has set a valid segment, and each
of the four queries leaves the loader as it was. -/
theorem queries_pure (env : Env) (s : LottieLoader) (b e : ℚ)
    (hb : 0 ≤ b) (hbe : b ≤ e) (he : e ≤ s.frameCnt) :
    (s.duration = (s.segmentEnd - s.segmentBegin) / s.frameRate ∧
      s.totalFrame = s.segmentEnd - s.segmentBegin ∧
      s.startFrame = s.segmentBegin ∧
      s.curFrame = s.frameNo - s.segmentBegin) ∧
    ((s.segment b e).2.duration = (e - b) / s.frameRate ∧
      (s.segment b e).2.totalFrame = e - b ∧
      (s.segment b e).2.startFrame = b ∧
      (s.segment b e).2.curFrame = s.frameNo - b) ∧
    (step env s Op.duration = some s ∧ step env s Op.totalFrame = some s ∧
      step env s Op.startFrame = some s ∧ step env s Op.curFrame = some s) := by
  refine ⟨⟨rfl, rfl, rfl, rfl⟩, ?_, ⟨rfl, rfl, rfl, rfl⟩⟩
  have h1 : ¬ b < 0 := not_lt.mpr hb
  have h2 : ¬ e > s.frameCnt := not_lt.mpr he
  have h3 : ¬ b > e := not_lt.mpr hbe
  simp [LottieLoader.segment, h1, h2, h3, LottieLoader.duration, LottieLoader.totalFrame,
    LottieLoader.startFrame, LottieLoader.curFrame]

/-- C10 on a 60-frame loader at 30 fps with the segment `[10, 40]`: one second, 30 frames. -/
theorem queries_pure_witness :
    ({ LottieLoader.init with frameCnt := 60, frameRate := 30 }.segment 10 40).2.duration = 1 ∧
    ({ LottieLoader.init with frameCnt := 60, frameRate := 30 }.segment 10 40).2.totalFrame = 30 := by
  have h := queries_pure envInline { LottieLoader.init with frameCnt := 60, frameRate := 30 }
    10 40 (by decide!) (by decide!) (by decide!)
  refine ⟨h.2.1.1.trans (by decide!), h.2.1.2.1.trans (by decide!)⟩

/-! ## Frame conditions of the task -/

theorem sameControl_refl (s : LottieLoader) : SameControl s s :=
  ⟨rfl, rfl, rfl, rfl, rfl, rfl⟩

theorem sameControl_trans {a b c : LottieLoader} (h1 : SameControl a b) (h2 : SameControl b c) :
    SameControl a c :=
  ⟨h2.1.trans h1.1, h2.2.1.trans h1.2.1, h2.2.2.1.trans h1.2.2.1,
    h2.2.2.2.1.trans h1.2.2.2.1, h2.2.2.2.2.1.trans h1.2.2.2.2.1,
    h2.2.2.2.2.2.trans h1.2.2.2.2.2⟩

theorem overrideBody_control (s : LottieLoader) (slots : Option SlotPayload) (bd : Bool) :
    SameControl s (s.overrideBody slots bd).2 := by
  unfold LottieLoader.overrideBody
  cases hc : s.comp with
  | none => exact sameControl_refl s
  | some c =>
    cases slots with
    | none =>
      simp only
      split_ifs <;> exact sameControl_refl s
    | some payload =>
      simp only
      split_ifs <;> exact sameControl_refl s

theorem release_control (s : LottieLoader) : SameControl s s.release := by
  unfold LottieLoader.release
  split_ifs <;> exact ⟨rfl, rfl, rfl, rfl, rfl, rfl⟩

theorem run_control (env : Env) (s : LottieLoader) : SameControl s (s.run env) := by
  unfold LottieLoader.run
  cases hc : s.comp with
  | some c => exact ⟨rfl, rfl, rfl, rfl, rfl, rfl⟩
  | none =>
    simp only
    cases hp : env.parse (s.content.getD []) with
    | none => exact ⟨rfl, rfl, rfl, rfl, rfl, rfl⟩
    | some r =>
      obtain ⟨c, slots⟩ := r
      simp only
      cases slots with
      | none =>
        simp only
        unfold LottieLoader.release
        split_ifs <;> exact ⟨rfl, rfl, rfl, rfl, rfl, rfl⟩
      | some payload =>
        simp only
        have h := overrideBody_control
          { s with calls := s.calls ++ [Call.parse true], comp := some c } (some payload) true
        unfold LottieLoader.release
        split_ifs <;> exact h

theorem done_control (env : Env) (s : LottieLoader) : SameControl s (s.done env) := by
  unfold LottieLoader.done
  split_ifs
  · exact run_control env s
  · exact sameControl_refl s

theorem request_control (env : Env) (s : LottieLoader) : SameControl s (s.request env) := by
  unfold LottieLoader.request
  simp only
  split_ifs
  · exact run_control env { s with calls := s.calls ++ [Call.request] }
  · exact sameControl_refl s

theorem clearComp_control (s : LottieLoader) : SameControl s s.clearComp := by
  unfold LottieLoader.clearComp
  split_ifs <;> exact sameControl_refl s

theorem fabsf_eq_abs (x : ℚ) : fabsf x = |x| := by
  unfold fabsf
  split_ifs with h
  · exact (abs_of_neg h).symm
  · exact (abs_of_nonneg (not_lt.mp h)).symm

/-- A `frame` call that finds the float difference of `frameNo` and the shortened target
within `0.0009f`, with no tween pending, returns false and changes nothing. -/
theorem frame_skips (env : Env) (s : LottieLoader) (n : ℚ)
    (ht : s.builder.tweening = false)
    (hd : |env.fl (s.frameNo - s.shorten env n)| ≤ env.fl (9 / 10000)) :
    s.frame env n = (false, s) := by
  unfold LottieLoader.frame
  simp only [fabsf_eq_abs, ht, Bool.not_false, Bool.true_and, decide_eq_true_eq]
  rw [if_pos hd]

/-- A `frame` call that dispatches stores the shortened target, leaves the segment as
it was and ends the tween. -/
theorem frame_dispatches (env : Env) (s : LottieLoader) (n : ℚ)
    (h : (s.frame env n).1 = true) :
    (s.frame env n).2.frameNo = s.shorten env n ∧
    (s.frame env n).2.segmentBegin = s.segmentBegin ∧
    (s.frame env n).2.builder.tweening = false := by
  unfold LottieLoader.frame at h ⊢
  simp only at h ⊢
  split_ifs at h ⊢ with hc
  obtain ⟨_, b2, _, _, _, _⟩ := done_control env s
  have h6 := sameControl_trans (clearComp_control _) (request_control env
    ({ s.done env with
        frameNo := s.shorten env n
        builder := (s.done env).builder.offTween
        calls := (s.done env).calls ++ [Call.offTween] } : LottieLoader).clearComp)
  obtain ⟨a1, a2, _, _, _, a6⟩ := h6
  exact ⟨a1, a2.trans b2, by rw [a6]; rfl⟩

/-- In exact arithmetic two targets less than 0.0009 apart shorten to values at most
0.0009 apart. -/
theorem shorten_close (env : Env) (s : LottieLoader) (n1 n2 : ℚ) (hfl : env.fl = id)
    (h : |n1 - n2| < 9 / 10000) :
    |s.shorten env n1 - s.shorten env n2| ≤ 9 / 10000 := by
  unfold LottieLoader.shorten nearbyintf LottieLoader.startFrame
  rw [hfl]
  simp only [id]
  set x1 := (n1 + s.segmentBegin) * 10000 with hx1
  set x2 := (n2 + s.segmentBegin) * 10000 with hx2
  set k1 := roundHalfEven x1
  set k2 := roundHalfEven x2
  have e1 := abs_le.mp (roundHalfEven_near x1)
  have e2 := abs_le.mp (roundHalfEven_near x2)
  have hx := abs_lt.mp h
  have hlt : ((k1 - k2 : ℤ) : ℚ) < 10 := by push_cast; linarith [e1.2, e2.1, hx.2]
  have hgt : (-10 : ℚ) < ((k1 - k2 : ℤ) : ℚ) := by push_cast; linarith [e1.1, e2.2, hx.1]
  have hlt' : k1 - k2 < 10 := by exact_mod_cast hlt
  have hgt' : -10 < k1 - k2 := by exact_mod_cast hgt
  have hle : ((k1 - k2 : ℤ) : ℚ) ≤ 9 := by exact_mod_cast (by omega : k1 - k2 ≤ 9)
  have hge : (-9 : ℚ) ≤ ((k1 - k2 : ℤ) : ℚ) := by exact_mod_cast (by omega : -9 ≤ k1 - k2)
  push_cast at hle hge
  rw [abs_le]
  constructor <;> linarith

/-- In binary32 two targets at most 0.0007 apart, on document-local frames of at most
300 in absolute value, shorten to floats whose float difference is at most `0.0009f`. -/
theorem shorten_close32 (env : Env) (s : LottieLoader) (n1 n2 : ℚ) (hfl : env.fl = fl32)
    (h1 : |n1 + s.segmentBegin| ≤ 300) (h2 : |n2 + s.segmentBegin| ≤ 300)
    (h : |n1 - n2| ≤ 7 / 10000) :
    |env.fl (s.shorten env n1 - s.shorten env n2)| ≤ env.fl (9 / 10000) := by
  unfold LottieLoader.shorten LottieLoader.startFrame
  rw [hfl, fl32_nine_tenth_milli]
  obtain ⟨a1, a2⟩ := shorten_stages _ 300 h1 (by norm_num)
  obtain ⟨b1, b2⟩ := shorten_stages _ 300 h2 (by norm_num)
  rw [fl32_tenth_milli] at a2 b2 ⊢
  have a1' := abs_le.mp a1
  have a2' := abs_le.mp a2
  have b1' := abs_le.mp b1
  have b2' := abs_le.mp b2
  have hr1 := abs_le.mp (roundHalfEven_near (fl32 (fl32 (n1 + s.segmentBegin) * 10000)))
  have hr2 := abs_le.mp (roundHalfEven_near (fl32 (fl32 (n2 + s.segmentBegin) * 10000)))
  have h' := abs_le.mp h
  set k1 := roundHalfEven (fl32 (fl32 (n1 + s.segmentBegin) * 10000)) with hk1
  set k2 := roundHalfEven (fl32 (fl32 (n2 + s.segmentBegin) * 10000)) with hk2
  have hlt : ((k1 - k2 : ℤ) : ℚ) < 9 := by
    push_cast
    linarith [a1'.1, a1'.2, b1'.1, b1'.2, hr1.1, hr1.2, hr2.1, hr2.2, h'.1, h'.2]
  have hgt : (-9 : ℚ) < ((k1 - k2 : ℤ) : ℚ) := by
    push_cast
    linarith [a1'.1, a1'.2, b1'.1, b1'.2, hr1.1, hr1.2, hr2.1, hr2.2, h'.1, h'.2]
  have hlt' : k1 - k2 < 9 := by exact_mod_cast hlt
  have hgt' : -9 < k1 - k2 := by exact_mod_cast hgt
  have hle : ((k1 - k2 : ℤ) : ℚ) ≤ 8 := by exact_mod_cast (by omega : k1 - k2 ≤ 8)
  have hge : (-8 : ℚ) ≤ ((k1 - k2 : ℤ) : ℚ) := by exact_mod_cast (by omega : -8 ≤ k1 - k2)
  push_cast at hle hge
  have hd : |fl32 (nearbyintf (fl32 (fl32 (n1 + s.segmentBegin) * 10000)) *
        (13743895 / 137438953472)) -
      fl32 (nearbyintf (fl32 (fl32 (n2 + s.segmentBegin) * 10000)) *
        (13743895 / 137438953472))| ≤ 85 / 100000 := by
    rw [abs_le]
    constructor <;> linarith [a2'.1, a2'.2, b2'.1, b2'.2]
  have he := abs_le.mp (fl32_bound _ _ hd)
  have hd' := abs_le.mp hd
  rw [abs_le]
  constructor <;> norm_num at he ⊢ <;> linarith [he.1, he.2, hd'.1, hd'.2]

/-! ## Theorems: frame deduplication -/

/-- C2, as stated, fails in the binary32 arithmetic of the code. On the opened sample
loader (frame 0, no tween) `frame(0.0004)` is itself skipped, and the following
`frame(0.0012)`, 0.0008 away, dispatches a run. And after `frame(1)` was served, the
following `frame(1.00086)` (the float 8395822 / 8388608) dispatches as well: the target is
shortened to the float 1.00090003, and the float difference 0.000900030 is above
`0.0009f`. -/
theorem frame_dedup_fails :
    ¬ (∀ (env : Env) (s : LottieLoader) (n1 n2 : ℚ), env.fl = fl32 →
        |n1 - n2| < 9 / 10000 → s.builder.tweening = false →
        ((s.frame env n1).2.frame env n2).1 = false) ∧
    (openedInline.frame envInline 1).1 = true ∧
    fl32 (8395822 / 8388608) = 8395822 / 8388608 ∧
    |(1 : ℚ) - 8395822 / 8388608| < 9 / 10000 ∧
    (openedInline.frame envInline 1).2.shorten envInline (8395822 / 8388608) =
      8396158 / 8388608 ∧
    ((openedInline.frame envInline 1).2.frame envInline (8395822 / 8388608)).1 = true := by
  refine ⟨?_, by decide!, by decide!, by decide!, by decide!, by decide!⟩
  intro h
  have h1 := h envInline openedInline (4 / 10000) (12 / 10000) rfl
    (by rw [abs_lt]; constructor <;> norm_num) rfl
  revert h1
  decide!

/-- C2, amended: in the binary32 arithmetic of the code, for targets `n1`, `n2` at most
0.0007 apart whose document-local frames `n + segmentBegin` are at most 300 in absolute
value: when `frame(n1)` was served (it returned true), the following `frame(n2)` returns
false, requests no run and changes no field, whether it comes before or after the run of
`frame(n1)` has completed. -/
theorem frame_dedup (env : Env) (s : LottieLoader) (n1 n2 : ℚ) (hfl : env.fl = fl32)
    (h1 : |n1 + s.segmentBegin| ≤ 300) (h2 : |n2 + s.segmentBegin| ≤ 300)
    (h : |n1 - n2| ≤ 7 / 10000) (hd : (s.frame env n1).1 = true) :
    (s.frame env n1).2.frame env n2 = (false, (s.frame env n1).2) ∧
    ((s.frame env n1).2.done env).frame env n2 = (false, (s.frame env n1).2.done env) := by
  obtain ⟨f1, f2, f3⟩ := frame_dispatches env s n1 hd
  set s1 := (s.frame env n1).2 with hs1
  have key : ∀ t : LottieLoader, SameControl s1 t → t.frame env n2 = (false, t) := by
    intro t ht
    obtain ⟨c1, c2, _, _, _, c6⟩ := ht
    apply frame_skips
    · rw [c6]; exact f3
    · have hsh : ∀ n, t.shorten env n = s.shorten env n := by
        intro n
        unfold LottieLoader.shorten LottieLoader.startFrame
        rw [c2, f2]
      rw [c1, f1, hsh]
      exact shorten_close32 env s n1 n2 hfl h1 h2 h
  exact ⟨key s1 (sameControl_refl s1), key _ (done_control env s1)⟩

/-- The amended C2 on the sequence open, frame(5), frame(5.0001), sync() in binary32: the
second `frame` changes nothing, and the whole sequence makes one request and one run (an
update of the loaded document without worker threads, the initial load with them). -/
theorem frame_dedup_witness :
    (openedInline.frame envInline 5).2.frame envInline (50001 / 10000) =
      (false, (openedInline.frame envInline 5).2) ∧
    (steps envInline LottieLoader.init
        [Op.open sampleText 69 true, Op.frame 5, Op.frame (50001 / 10000), Op.sync]).map
      (fun t => t.calls) =
      some [Call.parse true, Call.build, Call.offTween, Call.clear, Call.request, Call.update 5] ∧
    (steps envAsync LottieLoader.init
        [Op.open sampleText 69 true, Op.frame 5, Op.frame (50001 / 10000), Op.sync]).map
      (fun t => t.calls) =
      some [Call.offTween, Call.request, Call.parse true, Call.build] :=
  ⟨(frame_dedup envInline openedInline 5 (50001 / 10000) rfl (by decide!) (by decide!)
      (by decide!) (by decide!)).1, by decide!, by decide!⟩

/-! ## The call log grows -/

theorem grows_refl (P : Call → Bool) (s : LottieLoader) : Grows P s s :=
  ⟨[], by simp, by simp⟩

theorem grows_same {P : Call → Bool} {s s' : LottieLoader} (h : s'.calls = s.calls) :
    Grows P s s' :=
  ⟨[], by simp [h], by simp⟩

theorem grows_trans {P : Call → Bool} {a b c : LottieLoader} (h1 : Grows P a b)
    (h2 : Grows P b c) : Grows P a c := by
  obtain ⟨l1, e1, p1⟩ := h1
  obtain ⟨l2, e2, p2⟩ := h2
  refine ⟨l1 ++ l2, by rw [e2, e1, List.append_assoc], ?_⟩
  intro x hx
  rcases List.mem_append.mp hx with h | h
  · exact p1 x h
  · exact p2 x h

theorem grows_mono {P Q : Call → Bool} {a b : LottieLoader} (h : Grows P a b)
    (hpq : ∀ x, P x = true → Q x = true) : Grows Q a b := by
  obtain ⟨l, e, p⟩ := h
  exact ⟨l, e, fun x hx => hpq x (p x hx)⟩

theorem applySlot_calls (slots : List LottieSlot) (e : SlotEntry) (bd : Bool) :
    ∀ x ∈ (applySlot slots e bd).2.2, Call.ofOverride x = true := by
  induction slots with
  | nil => simp [applySlot]
  | cons p rest ih =>
    unfold applySlot
    split_ifs with h
    · exact ih
    · simp [Call.ofOverride]

theorem overrideLoop_calls (payload : SlotPayload) (slots : List LottieSlot) (bd ok : Bool) :
    ∀ x ∈ (overrideLoop slots payload bd ok).2.2, Call.ofOverride x = true := by
  induction payload generalizing slots ok with
  | nil => simp [overrideLoop]
  | cons e es ih =>
    unfold overrideLoop
    intro x hx
    simp only [List.mem_append] at hx
    rcases hx with (h | h) | h
    · exact applySlot_calls slots e bd x h
    · split_ifs at h
      · simp at h
      · simp only [List.mem_singleton] at h
        rw [h]; rfl
    · exact ih _ _ x h

theorem overrideBody_grows (s : LottieLoader) (slots : Option SlotPayload) (bd : Bool) :
    Grows Call.ofOverride s (s.overrideBody slots bd).2 := by
  unfold LottieLoader.overrideBody
  cases hc : s.comp with
  | none => exact grows_refl _ s
  | some c =>
    cases slots with
    | none =>
      simp only
      split_ifs
      · exact grows_refl _ s
      · refine ⟨c.slots.map (fun _ => Call.reset), rfl, ?_⟩
        intro x hx
        simp only [List.mem_map] at hx
        obtain ⟨_, _, rfl⟩ := hx
        rfl
      · exact grows_refl _ s
    | some payload =>
      simp only
      split_ifs
      · exact grows_refl _ s
      · exact ⟨_, rfl, overrideLoop_calls payload c.slots bd false⟩

theorem ofOverride_ofTask (x : Call) (h : Call.ofOverride x = true) : Call.ofTask x = true := by
  cases x <;> simp_all [Call.ofTask, Call.ofOverride]

theorem ofTask_ofFrame (x : Call) (h : Call.ofTask x = true) : Call.ofFrame x = true := by
  cases x <;> simp_all [Call.ofFrame, Call.ofTask, Call.ofOverride]

theorem grows_push {P : Call → Bool} (s : LottieLoader) (x : Call) (hx : P x = true)
    (s' : LottieLoader) (h : s'.calls = s.calls ++ [x]) : Grows P s s' :=
  ⟨[x], h, by simpa using hx⟩

theorem release_calls (s : LottieLoader) : s.release.calls = s.calls := by
  unfold LottieLoader.release
  split_ifs <;> rfl

theorem run_grows (env : Env) (s : LottieLoader) : Grows Call.ofTask s (s.run env) := by
  unfold LottieLoader.run
  cases hc : s.comp with
  | some c => exact grows_push s (Call.update s.frameNo) rfl _ rfl
  | none =>
    simp only
    cases hp : env.parse (s.content.getD []) with
    | none => exact grows_push s (Call.parse false) rfl _ rfl
    | some r =>
      obtain ⟨c, slots⟩ := r
      have h1 : Grows Call.ofTask s { s with calls := s.calls ++ [Call.parse true] } :=
        grows_push s (Call.parse true) rfl _ rfl
      simp only
      refine grows_trans h1 ?_
      cases slots with
      | none =>
        simp only
        exact grows_push _ Call.build rfl _ (by rw [release_calls]; rfl)
      | some payload =>
        simp only
        have h2 := grows_mono (overrideBody_grows
          { s with calls := s.calls ++ [Call.parse true], comp := some c } (some payload)
          true) ofOverride_ofTask
        exact grows_trans h2 (grows_push _ Call.build rfl _ (by rw [release_calls]; rfl))

theorem done_grows (env : Env) (s : LottieLoader) : Grows Call.ofTask s (s.done env) := by
  unfold LottieLoader.done
  split_ifs
  · exact grows_trans (run_grows env s) (grows_same rfl)
  · exact grows_refl _ s

theorem request_grows (env : Env) (s : LottieLoader) : Grows Call.ofFrame s (s.request env) := by
  unfold LottieLoader.request
  simp only
  have h1 : Grows Call.ofFrame s { s with calls := s.calls ++ [Call.request] } :=
    grows_push s Call.request rfl _ rfl
  split_ifs
  · exact grows_trans h1 (grows_mono (run_grows env _) ofTask_ofFrame)
  · exact grows_trans h1 (grows_same rfl)

theorem clearComp_grows (s : LottieLoader) : Grows Call.ofFrame s s.clearComp := by
  unfold LottieLoader.clearComp
  split_ifs
  · exact grows_push s Call.clear rfl _ rfl
  · exact grows_refl _ s

theorem frame_grows (env : Env) (s : LottieLoader) (n : ℚ) :
    Grows Call.ofFrame s (s.frame env n).2 := by
  unfold LottieLoader.frame
  simp only
  split_ifs
  · exact grows_refl _ s
  · have h1 := grows_mono (done_grows env s) ofTask_ofFrame
    have h2 : Grows Call.ofFrame (s.done env)
        ({ s.done env with
            frameNo := s.shorten env n
            builder := (s.done env).builder.offTween
            calls := (s.done env).calls ++ [Call.offTween] } : LottieLoader) :=
      grows_push _ Call.offTween rfl _ rfl
    exact grows_trans h1 (grows_trans h2 (grows_trans (clearComp_grows _) (request_grows env _)))

/-! ## Theorems: tween at the boundaries -/

/-- C4: with `FLOAT_EPSILON` in `[0, 1)`, `tween(a, b, 0)` is `frame(a)` and
`tween(a, b, 1)` is `frame(b)`: the same return value and the same loader afterwards
(frame number, tween state, call log and so the dispatched runs), and the calls `frame`
adds to the log include no `onTween`. -/
theorem tween_degenerates (env : Env) (s : LottieLoader) (a b : ℚ)
    (h0 : 0 ≤ env.FLOAT_EPSILON) (h1 : env.FLOAT_EPSILON < 1) :
    s.tween env a b 0 = s.frame env a ∧ s.tween env a b 1 = s.frame env b ∧
    ∀ n, ∃ l, (s.frame env n).2.calls = s.calls ++ l ∧
      ∀ toFrame progress, Call.onTween toFrame progress ∉ l := by
  have z0 : zero env 0 = true := by
    simp [zero, fabsf, h0]
  have z1 : zero env 1 = false := by
    have : ¬ ((1 : ℚ) < 0) := by norm_num
    simp [zero, fabsf, h1, this]
  have e1 : equal env 1 1 = true := by
    simp [equal, z0]
  refine ⟨?_, ?_, ?_⟩
  · unfold LottieLoader.tween
    rw [if_pos z0]
  · unfold LottieLoader.tween
    rw [if_neg (by simp [z1]), if_pos e1]
  · intro n
    obtain ⟨l, hl, hp⟩ := frame_grows env s n
    refine ⟨l, hl, ?_⟩
    intro t p hmem
    have := hp _ hmem
    simp [Call.ofFrame, Call.ofTask, Call.ofOverride] at this

/-- C4 on the opened sample loader: `tween(5, 9, 0)` and `tween(5, 9, 1)` return true and
store frames 5 and 9. -/
theorem tween_degenerates_witness :
    (openedInline.tween envInline 5 9 0).1 = true ∧
    (openedInline.tween envInline 5 9 0).2.frameNo = 5 ∧
    (openedInline.tween envInline 5 9 1).2.frameNo = 9 ∧
    (openedInline.tween envInline 5 9 1).2.builder.tweening = false := by
  have h := tween_degenerates envInline openedInline 5 9 (by decide!) (by decide!)
  rw [h.1, h.2.1]
  decide!

/-! ## Transitions of the document pointer -/

theorem sameDoc_refl (c : LottieComposition) : SameDoc c c :=
  ⟨rfl, rfl, rfl, rfl, rfl, rfl, rfl⟩

theorem sameDoc_trans {a b c : LottieComposition} (h1 : SameDoc a b) (h2 : SameDoc b c) :
    SameDoc a c :=
  ⟨h2.1.trans h1.1, h2.2.1.trans h1.2.1, h2.2.2.1.trans h1.2.2.1,
    h2.2.2.2.1.trans h1.2.2.2.1, h2.2.2.2.2.1.trans h1.2.2.2.2.1,
    h2.2.2.2.2.2.1.trans h1.2.2.2.2.2.1, h2.2.2.2.2.2.2.trans h1.2.2.2.2.2.2⟩

theorem quiet_counts (l : List Call) (h : ∀ x ∈ l, Call.quiet x = true) :
    l.count (Call.parse true) = 0 ∧ l.count Call.build = 0 := by
  constructor
  · rw [List.count_eq_zero]
    intro hm
    have := h _ hm
    simp [Call.quiet] at this
  · rw [List.count_eq_zero]
    intro hm
    have := h _ hm
    simp [Call.quiet] at this

/-- An operation that logs only quiet calls, keeps a loaded document the same object and
leaves a loader without document as it is in `comp` and `rebuild`. -/
theorem trans_of_grows {s s' : LottieLoader} (hg : Grows Call.quiet s s')
    (hk : ∀ c, s.comp = some c → ∃ c', s'.comp = some c' ∧ SameDoc c c')
    (hn : s.comp = none → s'.comp = none ∧ s'.rebuild = s.rebuild) : Trans s s' := by
  obtain ⟨l, hl, hq⟩ := hg
  refine ⟨⟨l, hl, fun _ => hq, fun _ => quiet_counts l hq, ?_⟩, hk, fun h _ => (hn h).2⟩
  intro h1 h2
  rw [(hn h1).1] at h2
  simp at h2

theorem trans_refl (s : LottieLoader) : Trans s s :=
  trans_of_grows (grows_refl _ s) (fun c h => ⟨c, h, sameDoc_refl c⟩) (fun h => ⟨h, rfl⟩)

theorem trans_comp {a b c : LottieLoader} (h1 : Trans a b) (h2 : Trans b c) : Trans a c := by
  obtain ⟨⟨l1, e1, p1, q1, r1⟩, k1, f1⟩ := h1
  obtain ⟨⟨l2, e2, p2, q2, r2⟩, k2, f2⟩ := h2
  have hbn : c.comp = none → b.comp = none := by
    intro hc
    cases hb : b.comp with
    | none => rfl
    | some cb =>
      obtain ⟨c', hc', _⟩ := k2 cb hb
      rw [hc] at hc'
      cases hc'
  have han : b.comp = none → a.comp = none := by
    intro hb
    cases ha : a.comp with
    | none => rfl
    | some ca =>
      obtain ⟨c', hc', _⟩ := k1 ca ha
      rw [hb] at hc'
      cases hc'
  refine ⟨⟨l1 ++ l2, by rw [e2, e1, List.append_assoc], ?_, ?_, ?_⟩, ?_, ?_⟩
  · intro ha x hx
    have hb : b.comp.isSome = true := by
      obtain ⟨ca, hca⟩ := Option.isSome_iff_exists.mp ha
      obtain ⟨cb, hcb, _⟩ := k1 ca hca
      simp [hcb]
    rcases List.mem_append.mp hx with h | h
    · exact p1 ha x h
    · exact p2 hb x h
  · intro hc
    have hb := hbn hc
    simp only [List.count_append]
    have := q1 hb
    have := q2 hc
    omega
  · intro ha hc
    simp only [List.count_append]
    cases hb : b.comp with
    | none =>
      have := q1 hb
      have := r2 hb hc
      omega
    | some cb =>
      have hb' : b.comp.isSome = true := by simp [hb]
      have := r1 ha hb'
      have := quiet_counts l2 (p2 hb')
      omega
  · intro ca hca
    obtain ⟨cb, hcb, d1⟩ := k1 ca hca
    obtain ⟨cc, hcc, d2⟩ := k2 cb hcb
    exact ⟨cc, hcc, sameDoc_trans d1 d2⟩
  · intro ha hc
    have hb := hbn hc
    rw [f2 hb hc, f1 ha hb]

theorem applySlot_sids (slots : List LottieSlot) (e : SlotEntry) (bd : Bool) :
    (applySlot slots e bd).2.1.map LottieSlot.sid = slots.map LottieSlot.sid := by
  induction slots with
  | nil => simp [applySlot]
  | cons p rest ih =>
    unfold applySlot
    split_ifs with h
    · simp only [List.map_cons, ih]
    · unfold parserApply
      split_ifs <;> rfl

theorem overrideLoop_sids (payload : SlotPayload) (slots : List LottieSlot) (bd ok : Bool) :
    (overrideLoop slots payload bd ok).2.1.map LottieSlot.sid = slots.map LottieSlot.sid := by
  induction payload generalizing slots ok with
  | nil => simp [overrideLoop]
  | cons e es ih =>
    unfold overrideLoop
    simp only
    rw [ih, applySlot_sids]

theorem ofOverride_quiet (x : Call) (h : Call.ofOverride x = true) : Call.quiet x = true := by
  cases x <;> simp_all [Call.quiet, Call.ofOverride]

theorem overrideBody_trans (s : LottieLoader) (slots : Option SlotPayload) (bd : Bool) :
    Trans s (s.overrideBody slots bd).2 := by
  refine trans_of_grows (grows_mono (overrideBody_grows s slots bd) ofOverride_quiet) ?_ ?_
  · intro c hc
    unfold LottieLoader.overrideBody
    rw [hc]
    cases slots with
    | none =>
      simp only
      split_ifs
      · exact ⟨c, hc, sameDoc_refl c⟩
      · refine ⟨_, rfl, rfl, rfl, rfl, rfl, rfl, rfl, ?_⟩
        simp [LottieSlot.reset, Function.comp_def]
      · exact ⟨c, hc, sameDoc_refl c⟩
    | some payload =>
      simp only
      split_ifs
      · exact ⟨c, hc, sameDoc_refl c⟩
      · exact ⟨_, rfl, rfl, rfl, rfl, rfl, rfl, rfl, overrideLoop_sids payload c.slots bd false⟩
  · intro hn
    unfold LottieLoader.overrideBody
    rw [hn]
    exact ⟨hn, rfl⟩

theorem release_comp (s : LottieLoader) : s.release.comp = s.comp := by
  unfold LottieLoader.release
  split_ifs <;> rfl

/-- The end of the initial loading branch of `run`: `build`, `release`, `rebuild = false`. -/
theorem run_tail (s0 s2 : LottieLoader) (h0 : s0.comp = none) (l : List Call)
    (hl : s2.calls = s0.calls ++ [Call.parse true] ++ l) (hq : ∀ x ∈ l, Call.quiet x = true)
    (hc : s2.comp.isSome = true) :
    Trans s0 { ({ s2 with calls := s2.calls ++ [Call.build] } : LottieLoader).release with
      rebuild := false } := by
  have hcomp : ({ ({ s2 with calls := s2.calls ++ [Call.build] } : LottieLoader).release with
      rebuild := false } : LottieLoader).comp = s2.comp := by
    show (LottieLoader.release _).comp = _
    rw [release_comp]
  have hcalls : ({ ({ s2 with calls := s2.calls ++ [Call.build] } : LottieLoader).release with
      rebuild := false } : LottieLoader).calls = s0.calls ++ ([Call.parse true] ++ l ++ [Call.build]) := by
    show (LottieLoader.release _).calls = _
    rw [release_calls]
    show s2.calls ++ [Call.build] = _
    rw [hl]
    simp
  have hqc := quiet_counts l hq
  refine ⟨⟨_, hcalls, ?_, ?_, ?_⟩, ?_, ?_⟩
  · intro h; rw [h0] at h; simp at h
  · intro h; rw [hcomp] at h; rw [h] at hc; simp at hc
  · intro _ _
    simp only [List.count_append]
    refine ⟨?_, ?_⟩
    · have : List.count (Call.parse true) [Call.parse true] = 1 := by decide
      have : List.count (Call.parse true) [Call.build] = 0 := by decide
      omega
    · have : List.count Call.build [Call.parse true] = 0 := by decide
      have : List.count Call.build [Call.build] = 1 := by decide
      omega
  · intro c h; rw [h0] at h; cases h
  · intro _ h; rw [hcomp] at h; rw [h] at hc; simp at hc

theorem run_trans (env : Env) (s : LottieLoader) : Trans s (s.run env) := by
  unfold LottieLoader.run
  cases hc : s.comp with
  | some c =>
    simp only
    refine trans_of_grows (grows_push s (Call.update s.frameNo) rfl _ rfl) ?_ ?_
    · intro c' hc'
      rw [hc] at hc'
      cases hc'
      exact ⟨c, rfl, sameDoc_refl c⟩
    · intro hn; rw [hn] at hc; cases hc
  | none =>
    simp only
    cases hp : env.parse (s.content.getD []) with
    | none =>
      simp only [Option.isSome_none]
      refine ⟨⟨[Call.parse false], rfl, ?_, ?_, ?_⟩, ?_, ?_⟩
      · intro h; rw [hc] at h; simp at h
      · intro _; constructor <;> decide
      · intro _ h; simp at h
      · intro c h; rw [hc] at h; cases h
      · intro _ _; rfl
    | some r =>
      obtain ⟨c, slots⟩ := r
      simp only [Option.isSome_some]
      cases slots with
      | none =>
        simp only
        exact run_tail s { s with calls := s.calls ++ [Call.parse true], comp := some c } hc []
          (by simp) (by simp) rfl
      | some payload =>
        simp only
        have ht := overrideBody_trans
          { s with calls := s.calls ++ [Call.parse true], comp := some c } (some payload) true
        obtain ⟨⟨l, hl, hq, _, _⟩, hk, _⟩ := ht
        obtain ⟨c', hc', _⟩ := hk c rfl
        exact run_tail s _ hc l hl (hq rfl) (by rw [hc']; rfl)

/-- Writing fields other than `comp`, `rebuild` and the log. -/
theorem trans_of_same {s s' : LottieLoader} (hc : s'.comp = s.comp) (hl : s'.calls = s.calls)
    (hr : s'.rebuild = s.rebuild) : Trans s s' :=
  trans_of_grows (grows_same hl) (fun c h => ⟨c, by rw [hc, h], sameDoc_refl c⟩)
    (fun h => ⟨by rw [hc, h], hr⟩)

/-- Logging one quiet call. -/
theorem trans_of_push {s s' : LottieLoader} (x : Call) (hx : Call.quiet x = true)
    (hc : s'.comp = s.comp) (hl : s'.calls = s.calls ++ [x]) (hr : s'.rebuild = s.rebuild) :
    Trans s s' :=
  trans_of_grows (grows_push s x hx s' hl) (fun c h => ⟨c, by rw [hc, h], sameDoc_refl c⟩)
    (fun h => ⟨by rw [hc, h], hr⟩)

theorem done_trans (env : Env) (s : LottieLoader) : Trans s (s.done env) := by
  unfold LottieLoader.done
  split_ifs
  · exact trans_comp (run_trans env s) (trans_of_same rfl rfl rfl)
  · exact trans_refl s

theorem request_trans (env : Env) (s : LottieLoader) : Trans s (s.request env) := by
  unfold LottieLoader.request
  simp only
  have h1 : Trans s { s with calls := s.calls ++ [Call.request] } :=
    trans_of_push Call.request rfl rfl rfl rfl
  split_ifs
  · exact trans_comp h1 (run_trans env _)
  · exact trans_comp h1 (trans_of_same rfl rfl rfl)

theorem clearComp_trans (s : LottieLoader) : Trans s s.clearComp := by
  unfold LottieLoader.clearComp
  split_ifs
  · exact trans_of_push Call.clear rfl rfl rfl rfl
  · exact trans_refl s

theorem ready_trans (env : Env) (s : LottieLoader) : Trans s (s.ready env).2 := by
  unfold LottieLoader.ready
  simp only
  split_ifs
  · exact trans_refl s
  · exact done_trans env s
  · exact done_trans env s

theorem sync_trans (env : Env) (s : LottieLoader) : Trans s (s.sync env) := by
  unfold LottieLoader.sync
  simp only
  split_ifs
  · have h2 : Trans (s.done env)
        ({ s.done env with calls := (s.done env).calls ++ [Call.inlineRun] } : LottieLoader) :=
      trans_of_push Call.inlineRun rfl rfl rfl rfl
    exact trans_comp (done_trans env s) (trans_comp h2 (run_trans env _))
  · exact done_trans env s

theorem paint_trans (env : Env) (s : LottieLoader) : Trans s (s.paint env).2 := by
  unfold LottieLoader.paint
  simp only
  refine trans_comp (done_trans env s) ?_
  cases hc : (s.done env).comp with
  | none => exact trans_refl _
  | some c =>
    simp only
    refine trans_of_grows (grows_same rfl) ?_ ?_
    · intro c' hc'
      rw [hc] at hc'
      cases hc'
      exact ⟨_, rfl, rfl, rfl, rfl, rfl, rfl, rfl, rfl⟩
    · intro hn; rw [hn] at hc; cases hc

theorem frame_trans (env : Env) (s : LottieLoader) (n : ℚ) : Trans s (s.frame env n).2 := by
  unfold LottieLoader.frame
  simp only
  split_ifs
  · exact trans_refl s
  · have h2 : Trans (s.done env)
        ({ s.done env with
            frameNo := s.shorten env n
            builder := (s.done env).builder.offTween
            calls := (s.done env).calls ++ [Call.offTween] } : LottieLoader) :=
      trans_of_push Call.offTween rfl rfl rfl rfl
    exact trans_comp (done_trans env s)
      (trans_comp h2 (trans_comp (clearComp_trans _) (request_trans env _)))

theorem tween_trans (env : Env) (s : LottieLoader) (a b p : ℚ) :
    Trans s (s.tween env a b p).2 := by
  unfold LottieLoader.tween
  split_ifs
  · exact frame_trans env s a
  · exact frame_trans env s b
  · simp only
    have h2 : Trans (s.done env)
        ({ s.done env with
            frameNo := (s.done env).shorten env a
            builder := (s.done env).builder.onTween
              (({ s.done env with frameNo := (s.done env).shorten env a } : LottieLoader).shorten env b) p
            calls := (s.done env).calls ++ [Call.onTween
              (({ s.done env with frameNo := (s.done env).shorten env a } : LottieLoader).shorten env b)
              p] } : LottieLoader) :=
      trans_of_push (Call.onTween _ _) rfl rfl rfl rfl
    exact trans_comp (done_trans env s)
      (trans_comp h2 (trans_comp (clearComp_trans _) (request_trans env _)))

theorem segment_trans (s : LottieLoader) (b e : ℚ) : Trans s (s.segment b e).2 := by
  unfold LottieLoader.segment
  simp only
  split_ifs <;> first | exact trans_refl s | exact trans_of_same rfl rfl rfl

theorem segmentMarker_state (env : Env) (s : LottieLoader) (m : String) (b e : ℚ) :
    (s.segmentMarker env m b e).2.2.2 = (s.ready env).2 := by
  unfold LottieLoader.segmentMarker
  simp only
  cases (s.ready env).2.comp with
  | none => rfl
  | some c =>
    simp only
    split_ifs
    · rfl
    · cases findMarker c.markers m with
      | none => rfl
      | some r => rfl

theorem override_trans (env : Env) (s : LottieLoader) (slots : Option SlotPayload)
    (bd : Bool) : Trans s (s.override env slots bd).2 := by
  unfold LottieLoader.override
  simp only
  split_ifs
  · exact ready_trans env s
  · exact trans_comp (ready_trans env s) (overrideBody_trans _ slots bd)

theorem header_trans (env : Env) (s s' : LottieLoader) (r : Bool)
    (h : s.header env = some (r, s')) : Trans s s' := by
  unfold LottieLoader.header at h
  split_ifs at h with ht
  · simp only at h
    have h1 : Trans s ({ s with readied := true } : LottieLoader) := trans_of_same rfl rfl rfl
    have h2 := trans_comp h1 (run_trans env { s with readied := true })
    cases hc : (LottieLoader.run env { s with readied := true }).comp with
    | none =>
      rw [hc] at h
      simp only [Option.some.injEq, Prod.mk.injEq] at h
      rw [← h.2]
      exact h2
    | some c =>
      rw [hc] at h
      simp only [Option.some.injEq, Prod.mk.injEq] at h
      rw [← h.2]
      exact trans_comp h2 (trans_of_same hc.symm rfl rfl)
  · cases hx : s.content with
    | none => rw [hx] at h; cases h
    | some text =>
      rw [hx] at h
      simp only at h
      cases hq : quickScan (text.length + 1) text 0 ⟨s.frameRate, s.w, s.h, 0, 0⟩ with
      | nullDeref => rw [hq] at h; cases h
      | outOfFuel => rw [hq] at h; cases h
      | finished st =>
        rw [hq] at h
        simp only at h
        split_ifs at h
        · simp only [Option.some.injEq, Prod.mk.injEq] at h
          rw [← h.2]
          exact trans_of_same rfl rfl rfl
        · simp only [Option.some.injEq, Prod.mk.injEq] at h
          rw [← h.2]
          exact trans_of_same rfl rfl rfl

theorem open_trans (env : Env) (s s' : LottieLoader) (data : List Char) (size : Nat)
    (copy r : Bool) (h : s.open env data size copy = some (r, s')) : Trans s s' := by
  unfold LottieLoader.open at h
  simp only at h
  have h0 : Trans s ({ s with
      content := some (if copy = true then cstr (List.take size data) else cstr data)
      size := size
      copy := copy } : LottieLoader) := trans_of_same rfl rfl rfl
  exact trans_comp h0 (header_trans env _ s' r h)

theorem step_trans (env : Env) (s s' : LottieLoader) (op : Op)
    (h : step env s op = some s') : Trans s s' := by
  cases op with
  | «open» data size copy =>
    simp only [step, Option.map_eq_some'] at h
    obtain ⟨⟨r, t⟩, h1, h2⟩ := h
    simp only at h2
    rw [← h2]
    exact open_trans env s t data size copy r h1
  | run => simp only [step, Option.some.injEq] at h; rw [← h]; exact run_trans env s
  | frame n => simp only [step, Option.some.injEq] at h; rw [← h]; exact frame_trans env s n
  | tween a b p =>
    simp only [step, Option.some.injEq] at h; rw [← h]; exact tween_trans env s a b p
  | sync => simp only [step, Option.some.injEq] at h; rw [← h]; exact sync_trans env s
  | override slots bd =>
    simp only [step, Option.some.injEq] at h; rw [← h]; exact override_trans env s slots bd
  | segment b e =>
    simp only [step, Option.some.injEq] at h; rw [← h]; exact segment_trans s b e
  | segmentMarker m b e =>
    simp only [step, Option.some.injEq] at h
    rw [← h, segmentMarker_state]
    exact ready_trans env s
  | paint => simp only [step, Option.some.injEq] at h; rw [← h]; exact paint_trans env s
  | ready => simp only [step, Option.some.injEq] at h; rw [← h]; exact ready_trans env s
  | startFrame => simp only [step, Option.some.injEq] at h; rw [← h]; exact trans_refl s
  | totalFrame => simp only [step, Option.some.injEq] at h; rw [← h]; exact trans_refl s
  | curFrame => simp only [step, Option.some.injEq] at h; rw [← h]; exact trans_refl s
  | duration => simp only [step, Option.some.injEq] at h; rw [← h]; exact trans_refl s

theorem loadedOnce_init : LoadedOnce LottieLoader.init :=
  ⟨fun _ => ⟨rfl, rfl, rfl⟩, by decide, by decide⟩

theorem loadedOnce_trans {s s' : LottieLoader} (hi : LoadedOnce s) (ht : Trans s s') :
    LoadedOnce s' := by
  obtain ⟨⟨l, hl, p, q, r⟩, k, f⟩ := ht
  obtain ⟨i1, i2, i3⟩ := hi
  have hsn : s'.comp = none → s.comp = none := by
    intro h'
    cases hs : s.comp with
    | none => rfl
    | some c =>
      obtain ⟨c', hc', _⟩ := k c hs
      rw [h'] at hc'
      cases hc'
  rw [LoadedOnce, hl]
  simp only [List.count_append]
  refine ⟨?_, ?_, ?_⟩
  · intro h'
    have hs := hsn h'
    have hi := i1 hs
    have hq := q h'
    refine ⟨by rw [f hs h']; exact hi.1, by omega, by omega⟩
  · cases hs : s.comp with
    | some c =>
      have := quiet_counts l (p (by simp [hs]))
      omega
    | none =>
      have := i1 hs
      cases hs' : s'.comp with
      | none => have := q hs'; omega
      | some c' => have := r hs (by simp [hs']); omega
  · cases hs : s.comp with
    | some c =>
      have := quiet_counts l (p (by simp [hs]))
      omega
    | none =>
      have := i1 hs
      cases hs' : s'.comp with
      | none => have := q hs'; omega
      | some c' => have := r hs (by simp [hs']); omega

theorem reachable_loadedOnce {env : Env} {s : LottieLoader} (h : Reachable env s) :
    LoadedOnce s := by
  induction h with
  | init => exact loadedOnce_init
  | step s s' op _ hs ih => exact loadedOnce_trans ih (step_trans env s s' op hs)

/-! ## Theorems: the task runner -/

/-- C8: after every execution of `run()` on a loader that arose from a constructed one
the `rebuild` flag is false, in the update branch, in the successful initial load and
in the branch where the initial parse fails (there `run` returns before the assignment,
and the flag is false because only `override` on a loaded document ever sets it). -/
theorem run_clears_rebuild (env : Env) (s : LottieLoader) (h : Reachable env s) :
    (s.run env).rebuild = false := by
  have hi := reachable_loadedOnce h
  unfold LottieLoader.run
  cases hc : s.comp with
  | some c => rfl
  | none =>
    simp only
    cases hp : env.parse (s.content.getD []) with
    | none => exact (hi.1 hc).1
    | some r =>
      obtain ⟨c, slots⟩ := r
      rfl

/-- C8 on the constructed loader, where the parse of the missing content fails. -/
theorem run_clears_rebuild_witness :
    (LottieLoader.init.run envInline).rebuild = false ∧
    (LottieLoader.init.run envInline).calls = [Call.parse false] :=
  ⟨run_clears_rebuild envInline LottieLoader.init Reachable.init, by decide!⟩

/-- C9: once a document is loaded, every operation leaves `comp` non-null and the same
document object and logs neither `parse()` nor `build()`; `run()` then logs exactly the
one call `update(comp, frameNo)`; and on every loader that arose from a constructed one
at most one `parse()` has succeeded and at most one `build()` has been made. -/
theorem built_absorbing (env : Env) (s s' : LottieLoader) (op : Op)
    (hs : step env s op = some s') :
    (∀ c, s.comp = some c →
      (∃ c', s'.comp = some c' ∧ SameDoc c c') ∧
      (∃ l, s'.calls = s.calls ++ l ∧ ∀ x ∈ l, Call.quiet x = true) ∧
      s.run env = { s with calls := s.calls ++ [Call.update s.frameNo], rebuild := false }) ∧
    (Reachable env s →
      s'.calls.count (Call.parse true) ≤ 1 ∧ s'.calls.count Call.build ≤ 1) := by
  have ht := step_trans env s s' op hs
  refine ⟨?_, ?_⟩
  · intro c hc
    obtain ⟨⟨l, hl, p, _, _⟩, k, _⟩ := ht
    refine ⟨k c hc, ⟨l, hl, p (by simp [hc])⟩, ?_⟩
    unfold LottieLoader.run
    rw [hc]
  · intro hr
    exact (loadedOnce_trans (reachable_loadedOnce hr) ht).2

/-- C9 on the opened sample loader and `frame(5)`: the document stays and the log grows
by `offTween`, `clear`, the request and one `update`. -/
theorem built_absorbing_witness :
    (∃ c', (openedInline.frame envInline 5).2.comp = some c' ∧ SameDoc sampleComp c') ∧
    (openedInline.frame envInline 5).2.calls =
      openedInline.calls ++ [Call.offTween, Call.clear, Call.request, Call.update 5] :=
  ⟨((built_absorbing envInline openedInline (openedInline.frame envInline 5).2 (Op.frame 5)
      rfl).1 sampleComp (by decide!)).1, by decide!⟩

/-! ## Theorems: marker lookup -/

theorem findMarker_find (markers : List LottieMarker) (m : String) :
    findMarker markers m =
      (markers.find? (fun p => decide (m = p.name))).map
        (fun p => (p.time, p.time + p.duration)) := by
  induction markers with
  | nil => rfl
  | cons p rest ih =>
    unfold findMarker
    by_cases h : m = p.name
    · simp [h]
    · simp [h, ih]

/-- A run that leaves the loader without document is a failed parse and nothing else. -/
theorem run_unbuilt (env : Env) (s : LottieLoader) (h : (s.run env).comp = none) :
    s.run env = { s with calls := s.calls ++ [Call.parse false] } := by
  obtain ⟨_, k, _⟩ := run_trans env s
  have hn : s.comp = none := by
    cases hc : s.comp with
    | none => rfl
    | some c =>
      obtain ⟨c', hc', _⟩ := k c hc
      rw [h] at hc'
      cases hc'
  unfold LottieLoader.run at h ⊢
  rw [hn] at h ⊢
  simp only at h ⊢
  cases hp : env.parse (s.content.getD []) with
  | none => rfl
  | some r =>
    obtain ⟨c, slots⟩ := r
    rw [hp] at h
    simp only at h
    exfalso
    cases slots with
    | none =>
      have h2 : (LottieLoader.release _).comp = none := h
      rw [release_comp] at h2
      cases h2
    | some payload =>
      have h2 : (LottieLoader.release _).comp = none := h
      rw [release_comp] at h2
      obtain ⟨_, k2, _⟩ := overrideBody_trans
        { s with calls := s.calls ++ [Call.parse true], comp := some c } (some payload) true
      obtain ⟨c', hc', _⟩ := k2 c rfl
      have h3 : (LottieLoader.overrideBody
        { s with calls := s.calls ++ [Call.parse true], comp := some c } (some payload)
        true).2.comp = none := h2
      rw [h3] at hc'
      cases hc'

/-- C6: on a loaded document `segment(name, begin, end)` looks up the first marker in
list order whose name is exactly `name`: if there is one it returns true with
`begin = time` and `end = time + duration`, if there is none (or no marker at all) it
returns false and `begin`, `end` are as before; the loader is unchanged in both cases.
When `ready()` finds no document it returns false, `begin` and `end` are as before and
`segmentBegin`, `segmentEnd`, `frameNo`, `rebuild` and `overridden` are unchanged. -/
theorem segmentMarker_lookup (env : Env) (s : LottieLoader) (m : String) (b e : ℚ) :
    (∀ c, s.comp = some c →
      s.segmentMarker env m b e =
        match c.markers.find? (fun p => decide (m = p.name)) with
        | some p => (true, p.time, p.time + p.duration, s)
        | none => (false, b, e, s)) ∧
    ((s.ready env).1 = false →
      (s.segmentMarker env m b e).1 = false ∧
      (s.segmentMarker env m b e).2.1 = b ∧
      (s.segmentMarker env m b e).2.2.1 = e ∧
      (s.segmentMarker env m b e).2.2.2.comp = none ∧
      (s.segmentMarker env m b e).2.2.2.segmentBegin = s.segmentBegin ∧
      (s.segmentMarker env m b e).2.2.2.segmentEnd = s.segmentEnd ∧
      (s.segmentMarker env m b e).2.2.2.frameNo = s.frameNo ∧
      (s.segmentMarker env m b e).2.2.2.rebuild = s.rebuild ∧
      (s.segmentMarker env m b e).2.2.2.overridden = s.overridden) := by
  constructor
  · intro c hc
    have hr : s.ready env = (true, s) := by
      unfold LottieLoader.ready
      simp [hc]
    unfold LottieLoader.segmentMarker
    simp only [hr, hc, findMarker_find]
    cases hm : c.markers with
    | nil => simp
    | cons p rest =>
      simp only [Bool.not_true, List.length_cons, Bool.false_or]
      rw [if_neg (by simp)]
      cases List.find? (fun p => decide (m = p.name)) (p :: rest) with
      | none => rfl
      | some q => rfl
  · intro hr
    have hcn : (s.ready env).2.comp = none := by
      unfold LottieLoader.ready at hr ⊢
      simp only at hr ⊢
      split_ifs at hr ⊢ with h1 h2
      simpa using h2
    have hst : (s.ready env).2 = s ∨
        (s.ready env).2 = { s with calls := s.calls ++ [Call.parse false], pending := false } := by
      unfold LottieLoader.ready at hcn ⊢
      simp only at hcn ⊢
      split_ifs at hcn ⊢ with h1 h2
      · left; rfl
      · unfold LottieLoader.done at hcn ⊢
        split_ifs at hcn ⊢ with h3
        · right
          have h4 : (s.run env).comp = none := hcn
          rw [run_unbuilt env s h4]
        · left; rfl
      · unfold LottieLoader.done at hcn ⊢
        split_ifs at hcn ⊢ with h3
        · right
          have h4 : (s.run env).comp = none := hcn
          rw [run_unbuilt env s h4]
        · left; rfl
    have hres : s.segmentMarker env m b e = (false, b, e, (s.ready env).2) := by
      unfold LottieLoader.segmentMarker
      simp only [hcn]
    rw [hres]
    rcases hst with h | h <;> rw [h] <;> simp_all

/-- C6 on the opened sample loader: "loop" names two markers and the first one, at
time 20 with duration 30, is returned; "outro" names none. -/
theorem segmentMarker_lookup_witness :
    openedInline.segmentMarker envInline "loop" 1 2 = (true, 20, 50, openedInline) ∧
    openedInline.segmentMarker envInline "outro" 1 2 = (false, 1, 2, openedInline) := by
  have h := (segmentMarker_lookup envInline openedInline "loop" 1 2).1 sampleComp (by decide!)
  have h' := (segmentMarker_lookup envInline openedInline "outro" 1 2).1 sampleComp (by decide!)
  exact ⟨h.trans (by decide!), h'.trans (by decide!)⟩

/-! ## Theorems: the segment invariant -/

theorem override_built (env : Env) (s : LottieLoader) (c : LottieComposition)
    (hc : s.comp = some c) (slots : Option SlotPayload) (bd : Bool) :
    s.override env slots bd = s.overrideBody slots bd := by
  unfold LottieLoader.override LottieLoader.ready
  simp [hc]

theorem run_built (env : Env) (s : LottieLoader) (c : LottieComposition)
    (hc : s.comp = some c) :
    s.run env = { s with calls := s.calls ++ [Call.update s.frameNo], rebuild := false } := by
  unfold LottieLoader.run
  rw [hc]

/-- On a loaded document `sync()` keeps the document and `overridden`, leaves `rebuild`
clear, and when `rebuild` was set it has made an `update` to the current frame. -/
theorem sync_built (env : Env) (s : LottieLoader) (c : LottieComposition)
    (hc : s.comp = some c) :
    (s.sync env).comp = some c ∧ (s.sync env).overridden = s.overridden ∧
    (s.sync env).rebuild = false ∧
    (s.rebuild = true →
      ∃ l, (s.sync env).calls = s.calls ++ l ∧ Call.update s.frameNo ∈ l) := by
  by_cases hp : s.pending = true
  · have hd : s.done env =
        { s with
            calls := s.calls ++ [Call.update s.frameNo]
            rebuild := false
            pending := false } := by
      unfold LottieLoader.done
      rw [if_pos hp, run_built env s c hc]
    have hs : s.sync env =
        { s with
            calls := s.calls ++ [Call.update s.frameNo]
            rebuild := false
            pending := false } := by
      unfold LottieLoader.sync
      simp only
      rw [hd]
      exact if_neg (by simp)
    rw [hs]
    exact ⟨hc, rfl, rfl, fun _ => ⟨[Call.update s.frameNo], rfl, by simp⟩⟩
  · have hd : s.done env = s := by
      unfold LottieLoader.done
      rw [if_neg hp]
    by_cases hr : s.rebuild = true
    · have hs : s.sync env =
          { s with
              calls := s.calls ++ [Call.inlineRun] ++ [Call.update s.frameNo]
              rebuild := false } := by
        unfold LottieLoader.sync
        simp only
        rw [hd, if_pos hr]
        exact run_built env { s with calls := s.calls ++ [Call.inlineRun] } c hc
      rw [hs]
      exact ⟨hc, rfl, rfl, fun _ => ⟨[Call.inlineRun, Call.update s.frameNo], by simp, by simp⟩⟩
    · have hs : s.sync env = s := by
        unfold LottieLoader.sync
        simp only
        rw [hd, if_neg hr]
      rw [hs]
      exact ⟨hc, rfl, by simpa using hr, fun h => absurd h hr⟩

theorem applySlot_dflt (slots : List LottieSlot) (e : SlotEntry) :
    (applySlot slots e false).2.1.map LottieSlot.dflt = slots.map LottieSlot.dflt := by
  induction slots with
  | nil => simp [applySlot]
  | cons p rest ih =>
    unfold applySlot
    split_ifs with h
    · simp only [List.map_cons, ih]
    · unfold parserApply
      by_cases hv : e.valid = true <;> simp [hv]

theorem overrideLoop_dflt (payload : SlotPayload) (slots : List LottieSlot) (ok : Bool) :
    (overrideLoop slots payload false ok).2.1.map LottieSlot.dflt =
      slots.map LottieSlot.dflt := by
  induction payload generalizing slots ok with
  | nil => simp [overrideLoop]
  | cons e es ih =>
    unfold overrideLoop
    simp only
    rw [ih, applySlot_dflt]

theorem overrideBody_payload (s : LottieLoader) (c : LottieComposition)
    (payload : SlotPayload) (bd : Bool) (hc : s.comp = some c) (h0 : c.slots.length ≠ 0) :
    s.overrideBody (some payload) bd =
      ((overrideLoop c.slots payload bd false).1,
        { s with
            comp := some { c with slots := (overrideLoop c.slots payload bd false).2.1 }
            rebuild := (overrideLoop c.slots payload bd false).1
            overridden := s.overridden || (overrideLoop c.slots payload bd false).1
            calls := s.calls ++ (overrideLoop c.slots payload bd false).2.2 }) := by
  unfold LottieLoader.overrideBody
  rw [hc]
  simp only
  rw [if_neg h0]

theorem overrideBody_reset (s : LottieLoader) (c : LottieComposition) (bd : Bool)
    (hc : s.comp = some c) (h0 : c.slots.length ≠ 0) (ho : s.overridden = true) :
    s.overrideBody none bd =
      (true,
        { s with
            comp := some { c with slots := c.slots.map LottieSlot.reset }
            overridden := false
            rebuild := true
            calls := s.calls ++ c.slots.map (fun _ => Call.reset) }) := by
  unfold LottieLoader.overrideBody
  rw [hc]
  simp only
  rw [if_neg h0, if_pos ho]

theorem overrideBody_clean (s : LottieLoader) (c : LottieComposition) (bd : Bool)
    (hc : s.comp = some c) (h0 : c.slots.length ≠ 0) (ho : s.overridden = false) :
    s.overrideBody none bd = (true, s) := by
  unfold LottieLoader.overrideBody
  rw [hc]
  simp only
  rw [if_neg h0, if_neg (by simp [ho])]

theorem overrideBody_empty (s : LottieLoader) (c : LottieComposition)
    (slots : Option SlotPayload) (bd : Bool) (hc : s.comp = some c)
    (h0 : c.slots.length = 0) : s.overrideBody slots bd = (false, s) := by
  unfold LottieLoader.overrideBody
  rw [hc]
  simp only
  rw [if_pos h0]

/-- C5: on a loaded document, when `override(payload, false)` returns true (the payload
matched a slot and was applied) `rebuild` and `overridden` are set; `sync()` then makes an
`update` and leaves `rebuild` clear; the following `override(null, false)` returns true,
resets every slot to its default value (the defaults of the document before the
override), clears `overridden` and sets `rebuild` again. On a loaded document with at
least one slot that is not overridden, `override(null, false)` returns true and changes
nothing. -/
theorem override_then_reset (env : Env) (s : LottieLoader) (c : LottieComposition)
    (payload : SlotPayload) (hc : s.comp = some c)
    (hov : (s.override env (some payload) false).1 = true) :
    ((s.override env (some payload) false).2.rebuild = true ∧
      (s.override env (some payload) false).2.overridden = true) ∧
    (((s.override env (some payload) false).2.sync env).rebuild = false ∧
      ∃ l, ((s.override env (some payload) false).2.sync env).calls =
          (s.override env (some payload) false).2.calls ++ l ∧
        Call.update s.frameNo ∈ l) ∧
    ((((s.override env (some payload) false).2.sync env).override env none false).1 = true ∧
      (((s.override env (some payload) false).2.sync env).override env none false).2.overridden
        = false ∧
      (((s.override env (some payload) false).2.sync env).override env none false).2.rebuild
        = true ∧
      ∃ c3, (((s.override env (some payload) false).2.sync env).override env none false).2.comp
          = some c3 ∧
        (∀ p ∈ c3.slots, p.value = p.dflt) ∧
        c3.slots.map LottieSlot.value = c.slots.map LottieSlot.dflt ∧
        c3.slots.map LottieSlot.sid = c.slots.map LottieSlot.sid) ∧
    (∀ (t : LottieLoader) (ct : LottieComposition), t.comp = some ct → ct.slots ≠ [] →
      t.overridden = false → t.override env none false = (true, t)) := by
  have h0 : c.slots.length ≠ 0 := by
    intro h0
    rw [override_built env s c hc, overrideBody_empty s c _ _ hc h0] at hov
    cases hov
  rw [override_built env s c hc, overrideBody_payload s c payload false hc h0] at hov ⊢
  simp only at hov ⊢
  set L := overrideLoop c.slots payload false false with hL
  have hsid : L.2.1.map LottieSlot.sid = c.slots.map LottieSlot.sid :=
    overrideLoop_sids payload c.slots false false
  have hdf : L.2.1.map LottieSlot.dflt = c.slots.map LottieSlot.dflt :=
    overrideLoop_dflt payload c.slots false
  have hlen : L.2.1.length ≠ 0 := by
    have := congrArg List.length hsid
    simp only [List.length_map] at this
    rw [this]
    exact h0
  obtain ⟨y1, y2, y3, y4⟩ := sync_built env
    ({ s with
        comp := some { c with slots := L.2.1 }
        rebuild := L.1
        overridden := s.overridden || L.1
        calls := s.calls ++ L.2.2 } : LottieLoader) { c with slots := L.2.1 } rfl
  refine ⟨⟨hov, by simp [hov]⟩, ⟨y3, y4 hov⟩, ?_, ?_⟩
  · have ho : (LottieLoader.sync env
        ({ s with
            comp := some { c with slots := L.2.1 }
            rebuild := L.1
            overridden := s.overridden || L.1
            calls := s.calls ++ L.2.2 } : LottieLoader)).overridden = true := by
      rw [y2]
      simp [hov]
    rw [override_built env _ _ y1, overrideBody_reset _ _ false y1 hlen ho]
    refine ⟨rfl, rfl, rfl, _, rfl, ?_, ?_, ?_⟩
    · intro p hp
      simp only [List.mem_map] at hp
      obtain ⟨q, _, rfl⟩ := hp
      rfl
    · simp only [List.map_map]
      rw [← hdf]
      rfl
    · simp only [List.map_map]
      rw [← hsid]
      rfl
  · intro t ct htc hne hto
    rw [override_built env t ct htc]
    exact overrideBody_clean t ct false htc (by simpa using hne) hto

/-- C5 on the opened sample loader: overriding slot "size" with 7 (next to an unknown
slot id), then `sync()`, then `override(null, false)` gives the slot values 1 and 2 of
the document's defaults again. -/
theorem override_then_reset_witness :
    ((openedInline.override envInline
        (some [⟨"none", 3, true⟩, ⟨"size", 7, true⟩]) false).2.comp.map
      (fun d => d.slots.map LottieSlot.value)) = some [1, 7] ∧
    ((((openedInline.override envInline
        (some [⟨"none", 3, true⟩, ⟨"size", 7, true⟩]) false).2.sync envInline).override
          envInline none false).2.comp.map (fun d => d.slots.map LottieSlot.value))
      = some [1, 2] ∧
    (((openedInline.override envInline
        (some [⟨"none", 3, true⟩, ⟨"size", 7, true⟩]) false).2.sync envInline).override
          envInline none false).2.rebuild = true := by
  have h := override_then_reset envInline openedInline sampleComp
    [⟨"none", 3, true⟩, ⟨"size", 7, true⟩] (by decide!) (by decide!)
  exact ⟨by decide!, by decide!, h.2.2.1.2.2.1⟩

/-! ## Theorems: the override loop -/

theorem applySlot_applied (slots : List LottieSlot) (e : SlotEntry) (bd : Bool) :
    (applySlot slots e bd).1 = entryApplies slots e ∧
    (applySlot slots e bd).2.2 =
      (if slots.any (fun p => p.sid == e.sid) then [Call.apply e.sid e.valid] else []) := by
  induction slots with
  | nil => simp [applySlot, entryApplies]
  | cons p rest ih =>
    unfold applySlot
    by_cases h : p.sid = e.sid
    · simp [h, parserApply, entryApplies]
      by_cases hv : e.valid = true <;> simp [hv]
    · have hne : (p.sid == e.sid) = false := by simpa using h
      simp only [ne_eq, h, not_false_eq_true, if_true, ih.1, ih.2]
      simp [entryApplies, hne]

theorem any_sid_congr (a b : List LottieSlot)
    (h : a.map LottieSlot.sid = b.map LottieSlot.sid) (x : String) :
    a.any (fun p => p.sid == x) = b.any (fun p => p.sid == x) := by
  have hm : ∀ l : List LottieSlot,
      l.any (fun p => p.sid == x) = (l.map LottieSlot.sid).any (fun y => y == x) := by
    intro l
    induction l with
    | nil => rfl
    | cons p rest ih => simp only [List.any_cons, List.map_cons, ih]
  rw [hm a, hm b, h]

theorem overrideLoop_result (payload : SlotPayload) (slots : List LottieSlot) (bd ok : Bool) :
    (overrideLoop slots payload bd ok).1 = (ok || payload.any (entryApplies slots)) ∧
    (overrideLoop slots payload bd ok).2.2 = payload.flatMap (entryCalls slots) := by
  induction payload generalizing slots ok with
  | nil => simp [overrideLoop]
  | cons e es ih =>
    unfold overrideLoop
    simp only
    obtain ⟨a1, a2⟩ := applySlot_applied slots e bd
    obtain ⟨i1, i2⟩ := ih (applySlot slots e bd).2.1 (ok || (applySlot slots e bd).1)
    have hs := applySlot_sids slots e bd
    have hany : ∀ x, (applySlot slots e bd).2.1.any (fun p => p.sid == x)
        = slots.any (fun p => p.sid == x) := any_sid_congr _ _ hs
    have happ : entryApplies (applySlot slots e bd).2.1 = entryApplies slots := by
      funext x; simp [entryApplies, hany]
    have hcalls : entryCalls (applySlot slots e bd).2.1 = entryCalls slots := by
      funext x; simp [entryCalls, hany]
    constructor
    · rw [i1, a1, happ]
      simp [Bool.or_assoc]
    · rw [i2, a2, a1, hcalls]
      simp only [List.flatMap_cons]
      congr 1
      unfold entryCalls entryApplies
      by_cases hm : slots.any (fun p => p.sid == e.sid) = true
      · by_cases hv : e.valid = true <;> simp [hm, hv]
      · simp [hm]

/-- C11: for a payload applied to a loaded document with at least one slot,
`override(payload, byDefault)` returns true exactly when some id the override parser
yields is the id of a document slot and `apply()` succeeded on it; the calls it makes
are, entry by entry in payload order, `apply` on the matching slot (followed by `skip`
when `apply` fails) or exactly one `skip` for an id that matches no slot; and when the
result is true `rebuild` and `overridden` are both true afterwards. -/
theorem override_partial (env : Env) (s : LottieLoader) (c : LottieComposition)
    (payload : SlotPayload) (bd : Bool) (hc : s.comp = some c) (h0 : c.slots ≠ []) :
    ((s.override env (some payload) bd).1 = true ↔
      ∃ e ∈ payload, (∃ p ∈ c.slots, p.sid = e.sid) ∧ e.valid = true) ∧
    (s.override env (some payload) bd).2.calls =
      s.calls ++ payload.flatMap (entryCalls c.slots) ∧
    (∀ e ∈ payload, (∀ p ∈ c.slots, p.sid ≠ e.sid) →
      entryCalls c.slots e = [Call.skip e.sid]) ∧
    ((s.override env (some payload) bd).1 = true →
      (s.override env (some payload) bd).2.rebuild = true ∧
      (s.override env (some payload) bd).2.overridden = true) := by
  have hlen : c.slots.length ≠ 0 := by simpa using h0
  obtain ⟨r1, r2⟩ := overrideLoop_result payload c.slots bd false
  rw [override_built env s c hc, overrideBody_payload s c payload bd hc hlen]
  simp only
  refine ⟨?_, ?_, ?_, ?_⟩
  · rw [r1]
    simp [entryApplies]
  · rw [r2]
  · intro e _ hno
    unfold entryCalls
    rw [if_neg]
    simp only [List.any_eq_true, beq_iff_eq, not_exists, not_and]
    exact fun p hp => hno p hp
  · intro h
    simp [h]

/-- C11 on the opened sample loader: of the ids "none", "size", "color" the first matches
no slot and is skipped, the second is applied, the third matches but its value is
rejected, so it is skipped as well; the result is true. -/
theorem override_partial_witness :
    (openedInline.override envInline
      (some [⟨"none", 3, true⟩, ⟨"size", 7, true⟩, ⟨"color", 9, false⟩]) false).1 = true ∧
    (openedInline.override envInline
      (some [⟨"none", 3, true⟩, ⟨"size", 7, true⟩, ⟨"color", 9, false⟩]) false).2.calls =
      openedInline.calls ++ [Call.skip "none", Call.apply "size" true,
        Call.apply "color" false, Call.skip "color"] := by
  have h := override_partial envInline openedInline sampleComp
    [⟨"none", 3, true⟩, ⟨"size", 7, true⟩, ⟨"color", 9, false⟩] false (by decide!)
    (by decide!)
  exact ⟨h.1.mpr ⟨⟨"size", 7, true⟩, by decide!, ⟨⟨"size", 2, 2⟩, by decide!, rfl⟩, rfl⟩,
    h.2.1.trans (by decide!)⟩
/-- When `ready()` finds no document, the loader is as before or has only logged the
failed parse of the run that was in flight. -/
theorem ready_false_state (env : Env) (s : LottieLoader) (hr : (s.ready env).1 = false) :
    (s.ready env).2.comp = none ∧
    ((s.ready env).2 = s ∨
      (s.ready env).2 = { s with calls := s.calls ++ [Call.parse false], pending := false }) := by
  have hcn : (s.ready env).2.comp = none := by
    unfold LottieLoader.ready at hr ⊢
    simp only at hr ⊢
    split_ifs at hr ⊢ with h1 h2
    simpa using h2
  refine ⟨hcn, ?_⟩
  unfold LottieLoader.ready at hcn ⊢
  simp only at hcn ⊢
  split_ifs at hcn ⊢ with h1 h2
  · left; rfl
  · unfold LottieLoader.done at hcn ⊢
    split_ifs at hcn ⊢ with h3
    · right
      have h4 : (s.run env).comp = none := hcn
      rw [run_unbuilt env s h4]
    · left; rfl
  · unfold LottieLoader.done at hcn ⊢
    split_ifs at hcn ⊢ with h3
    · right
      have h4 : (s.run env).comp = none := hcn
      rw [run_unbuilt env s h4]
    · left; rfl

/-- C12: `override(payload, byDefault)` returns false and does nothing, for every payload
including null, when the document declares zero slots (the loader is unchanged) and when
`ready()` finds no document (no slot call is made, `comp` stays null and `rebuild` and
`overridden` are unchanged). -/
theorem override_noop (env : Env) (s : LottieLoader) (slots : Option SlotPayload)
    (bd : Bool) :
    (∀ c, s.comp = some c → c.slots = [] → s.override env slots bd = (false, s)) ∧
    ((s.ready env).1 = false →
      (s.override env slots bd).1 = false ∧
      (s.override env slots bd).2.comp = none ∧
      (s.override env slots bd).2.rebuild = s.rebuild ∧
      (s.override env slots bd).2.overridden = s.overridden ∧
      ∃ l, (s.override env slots bd).2.calls = s.calls ++ l ∧
        ∀ x ∈ l, Call.ofOverride x = false) := by
  constructor
  · intro c hc h0
    rw [override_built env s c hc]
    exact overrideBody_empty s c slots bd hc (by simp [h0])
  · intro hr
    obtain ⟨hcn, hst⟩ := ready_false_state env s hr
    have ho : s.override env slots bd = (false, (s.ready env).2) := by
      unfold LottieLoader.override
      simp [hr]
    rw [ho]
    refine ⟨rfl, hcn, ?_, ?_, ?_⟩
    · rcases hst with h | h <;> rw [h]
    · rcases hst with h | h <;> rw [h]
    · rcases hst with h | h
      · exact ⟨[], by rw [h]; simp, by simp⟩
      · refine ⟨[Call.parse false], by rw [h], ?_⟩
        intro x hx
        simp only [List.mem_singleton] at hx
        rw [hx]; rfl

/-- C12 on a constructed loader (no document) and on a loaded document without slots. -/
theorem override_noop_witness :
    (LottieLoader.init.override envInline (some [⟨"size", 7, true⟩]) false).1 = false ∧
    (LottieLoader.init.override envInline (some [⟨"size", 7, true⟩]) false).2.rebuild =
      false ∧
    ({ openedInline with comp := some { sampleComp with slots := [] } } : LottieLoader).override
        envInline none false =
      (false, { openedInline with comp := some { sampleComp with slots := [] } }) := by
  have h1 := (override_noop envInline LottieLoader.init (some [⟨"size", 7, true⟩]) false).2
    (by decide!)
  have h2 := (override_noop envInline
    ({ openedInline with comp := some { sampleComp with slots := [] } } : LottieLoader)
    none false).1 { sampleComp with slots := [] } rfl rfl
  exact ⟨h1.1, h1.2.2.1, h2⟩

/-- C15: `sync()` awaits the run in flight and then, when `rebuild` is set, makes exactly
one `run()` inline, and none when `rebuild` is clear; on a loaded document `rebuild` is
false on return, and when it was set on entry an `update` to the current frame has been
made. -/
theorem sync_runs_once (env : Env) (s : LottieLoader) :
    ((s.done env).rebuild = true →
      s.sync env =
        ({ s.done env with calls := (s.done env).calls ++ [Call.inlineRun] } :
          LottieLoader).run env ∧
      (s.sync env).calls.count Call.inlineRun = (s.done env).calls.count Call.inlineRun + 1) ∧
    ((s.done env).rebuild = false → s.sync env = s.done env) ∧
    (s.done env).calls.count Call.inlineRun = s.calls.count Call.inlineRun ∧
    (∀ c, s.comp = some c →
      (s.sync env).rebuild = false ∧
      (s.rebuild = true →
        ∃ l, (s.sync env).calls = s.calls ++ l ∧ Call.update s.frameNo ∈ l)) := by
  have hcount : ∀ (a b : LottieLoader), Grows Call.ofTask a b →
      b.calls.count Call.inlineRun = a.calls.count Call.inlineRun := by
    intro a b hg
    obtain ⟨l, hl, hp⟩ := hg
    rw [hl, List.count_append]
    have : l.count Call.inlineRun = 0 := by
      rw [List.count_eq_zero]
      intro hm
      have := hp _ hm
      simp [Call.ofTask, Call.ofOverride] at this
    omega
  refine ⟨?_, ?_, hcount _ _ (done_grows env s), ?_⟩
  · intro hr
    have hs : s.sync env =
        ({ s.done env with calls := (s.done env).calls ++ [Call.inlineRun] } :
          LottieLoader).run env := by
      unfold LottieLoader.sync
      simp only
      rw [if_pos hr]
    refine ⟨hs, ?_⟩
    rw [hs, hcount _ _ (run_grows env _)]
    simp [List.count_append]
  · intro hr
    unfold LottieLoader.sync
    simp only
    rw [if_neg (by simp [hr])]
  · intro c hc
    obtain ⟨_, _, y3, y4⟩ := sync_built env s c hc
    exact ⟨y3, y4⟩

/-- C15 on the opened sample loader after an override: one inline run with one update. -/
theorem sync_runs_once_witness :
    ((openedInline.override envInline (some [⟨"size", 7, true⟩]) false).2.sync envInline).calls
      = openedInline.calls ++ [Call.apply "size" true, Call.inlineRun, Call.update 0] ∧
    ((openedInline.override envInline (some [⟨"size", 7, true⟩]) false).2.sync
      envInline).rebuild = false := by
  have h := (sync_runs_once envInline
    (openedInline.override envInline (some [⟨"size", 7, true⟩]) false).2).1 (by decide!)
  exact ⟨by rw [h.1]; decide!, by rw [h.1]; decide!⟩

/-- C16 fails on the code: after `override(null)` has reset the slots (`rebuild` set), an
`override` whose payload matches no slot returns false and clears `rebuild`, so the
following `sync()` makes no run and the reset never reaches the builder. -/
theorem override_drops_rebuild :
    (((openedInline.override envInline (some [⟨"size", 7, true⟩]) false).2.sync
        envInline).override envInline none false).2.rebuild = true ∧
    ((((openedInline.override envInline (some [⟨"size", 7, true⟩]) false).2.sync
        envInline).override envInline none false).2.override envInline
          (some [⟨"none", 3, true⟩]) false).1 = false ∧
    ((((openedInline.override envInline (some [⟨"size", 7, true⟩]) false).2.sync
        envInline).override envInline none false).2.override envInline
          (some [⟨"none", 3, true⟩]) false).2.rebuild = false ∧
    (((((openedInline.override envInline (some [⟨"size", 7, true⟩]) false).2.sync
        envInline).override envInline none false).2.override envInline
          (some [⟨"none", 3, true⟩]) false).2.sync envInline).calls =
      openedInline.calls ++ [Call.apply "size" true, Call.inlineRun, Call.update 0,
        Call.reset, Call.reset, Call.skip "none"] := by
  decide!

/-- C17: a `frame(n)` call that dispatches stores `frameNo` in document-local time, the
value of `nearbyintf((n + s) * 10000.0f) * 0.0001f` in the float arithmetic for the
segment start `s`, and `curFrame()` is then `frameNo - s`; in exact arithmetic `frameNo`
is `nearbyintf((n + s) * 10^4) / 10^4` and `curFrame()` lies within 0.00005 of `n`; and a
later `segment(begin, end)` call leaves `frameNo` unchanged. -/
theorem frame_local_time (env : Env) (s : LottieLoader) (n : ℚ)
    (h : (s.frame env n).1 = true) :
    (s.frame env n).2.frameNo =
      env.fl (nearbyintf (env.fl (env.fl (n + s.segmentBegin) * 10000)) *
        env.fl (1 / 10000)) ∧
    (s.frame env n).2.curFrame = (s.frame env n).2.frameNo - s.segmentBegin ∧
    (env.fl = id →
      (s.frame env n).2.frameNo = nearbyintf ((n + s.segmentBegin) * 10000) / 10000 ∧
      |(s.frame env n).2.curFrame - n| ≤ 5 / 100000) ∧
    ∀ b e, ((s.frame env n).2.segment b e).2.frameNo = (s.frame env n).2.frameNo := by
  obtain ⟨f1, f2, _⟩ := frame_dispatches env s n h
  have hcur : (s.frame env n).2.curFrame = (s.frame env n).2.frameNo - s.segmentBegin := by
    unfold LottieLoader.curFrame LottieLoader.startFrame
    rw [f2]
  refine ⟨f1, hcur, ?_, ?_⟩
  · intro hfl
    have hsh : s.shorten env n = nearbyintf ((n + s.segmentBegin) * 10000) / 10000 := by
      unfold LottieLoader.shorten LottieLoader.startFrame
      rw [hfl]
      simp only [id]
      ring
    refine ⟨by rw [f1, hsh], ?_⟩
    rw [hcur, f1, hsh]
    unfold nearbyintf
    have hn := abs_le.mp (roundHalfEven_near ((n + s.segmentBegin) * 10000))
    rw [abs_le]
    constructor <;> linarith [hn.1, hn.2]
  · intro b e
    unfold LottieLoader.segment
    simp only
    split_ifs <;> rfl

/-- C17 on the opened sample loader with the segment `[10, 40]`, in exact arithmetic:
`frame(2.00004)` stores frame 12 and `curFrame()` is 2. -/
theorem frame_local_time_witness :
    ((openedInline.segment 10 40).2.frame envExact (200004 / 100000)).2.frameNo = 12 ∧
    ((openedInline.segment 10 40).2.frame envExact (200004 / 100000)).2.curFrame = 2 := by
  have h := frame_local_time envExact (openedInline.segment 10 40).2 (200004 / 100000)
    (by decide!)
  exact ⟨(h.2.2.1 rfl).1.trans (by decide!), h.2.1.trans (by decide!)⟩

/-! ## Theorems: the two paths of the header -/

/-- The quick-scan path of `header`: with worker threads a successful `header` leaves the
document pointer and the call log as they were and stores what the scan found. -/
theorem header_scan (env : Env) (s r : LottieLoader) (ht : env.threads ≠ 0)
    (h : s.header env = some (true, r)) :
    r.comp = s.comp ∧ r.calls = s.calls ∧
    ∃ text st, s.content = some text ∧
      quickScan (text.length + 1) text 0 ⟨s.frameRate, s.w, s.h, 0, 0⟩ = Scan.finished st ∧
      r.frameRate = st.frameRate ∧ r.w = st.w ∧ r.h = st.h ∧
      r.frameCnt = st.endFrame - st.startFrame ∧ r.segmentEnd = st.endFrame - st.startFrame ∧
      ¬ st.frameRate < env.FLOAT_EPSILON := by
  unfold LottieLoader.header at h
  rw [if_neg ht] at h
  cases hx : s.content with
  | none => rw [hx] at h; cases h
  | some text =>
    rw [hx] at h
    simp only at h
    cases hq : quickScan (text.length + 1) text 0 ⟨s.frameRate, s.w, s.h, 0, 0⟩ with
    | nullDeref => rw [hq] at h; cases h
    | outOfFuel => rw [hq] at h; cases h
    | finished st =>
      rw [hq] at h
      simp only at h
      split_ifs at h with hlt
      · simp at h
      · simp only [Option.some.injEq, Prod.mk.injEq, true_and] at h
        rw [← h]
        exact ⟨rfl, rfl, text, st, rfl, hq, rfl, rfl, rfl, rfl, rfl, hlt⟩

/-- The full-parse path of `header`: without worker threads a successful `header` has a
document and has taken size, frame count and frame rate from it. -/
theorem header_load (env : Env) (s r : LottieLoader) (ht : env.threads = 0)
    (h : s.header env = some (true, r)) :
    ∃ c, r.comp = some c ∧ r.w = c.w ∧ r.h = c.h ∧ r.frameCnt = c.frameCnt ∧
      r.segmentEnd = c.frameCnt ∧ r.frameRate = c.frameRate := by
  unfold LottieLoader.header at h
  rw [if_pos ht] at h
  simp only at h
  cases hc : (LottieLoader.run env { s with readied := true }).comp with
  | none =>
    rw [hc] at h
    simp at h
  | some c =>
    rw [hc] at h
    simp only [Option.some.injEq, Prod.mk.injEq, true_and] at h
    rw [← h]
    exact ⟨c, rfl, rfl, rfl, rfl, rfl, rfl⟩

/-- C14, as stated, fails: without worker threads `open` of the sample text succeeds with
the document loaded, after one `parse()` and one `build()`. -/
theorem open_inline_quick_fails :
    ¬ (∀ (env : Env) (data : List Char) (size : Nat) (copy : Bool) (r : LottieLoader),
        env.threads = 0 → LottieLoader.init.open env data size copy = some (true, r) →
        r.comp = none ∧ Call.parse true ∉ r.calls ∧ Call.build ∉ r.calls) := by
  intro h
  have h1 := h envInline sampleText 69 true openedInline rfl (by decide!)
  revert h1
  decide!

/-- C14, amended: it is with worker threads (thread count not zero) that `open()`
produces width, height, frame rate and frame count by the quick scan without constructing
the document: after a successful `open()` the document pointer and the call log are as
before (on a constructed loader: null, and neither `parse()` nor `build()` called).
Without worker threads a successful `open()` has the document loaded, its values taken
from the document, and on a loader that had none exactly one successful `parse()` and
one `build()` were made. -/
theorem open_paths (env : Env) (s r : LottieLoader) (data : List Char) (size : Nat)
    (copy : Bool) (h : s.open env data size copy = some (true, r)) :
    (env.threads ≠ 0 →
      r.comp = s.comp ∧ r.calls = s.calls ∧
      ∃ text st, text = (if copy = true then cstr (data.take size) else cstr data) ∧
        quickScan (text.length + 1) text 0 ⟨s.frameRate, s.w, s.h, 0, 0⟩
          = Scan.finished st ∧
        r.frameRate = st.frameRate ∧ r.w = st.w ∧ r.h = st.h ∧
        r.frameCnt = st.endFrame - st.startFrame) ∧
    (env.threads = 0 →
      (∃ c, r.comp = some c ∧ r.w = c.w ∧ r.h = c.h ∧ r.frameCnt = c.frameCnt ∧
        r.frameRate = c.frameRate) ∧
      (s.comp = none → ∃ l, r.calls = s.calls ++ l ∧
        l.count (Call.parse true) = 1 ∧ l.count Call.build = 1)) := by
  have ht := open_trans env s r data size copy true h
  unfold LottieLoader.open at h
  simp only at h
  constructor
  · intro hth
    obtain ⟨h1, h2, text, st, h3, h4, h5, h6, h7, h8, _, _⟩ := header_scan env _ r hth h
    exact ⟨h1, h2, text, st, (Option.some.inj h3).symm, h4, h5, h6, h7, h8⟩
  · intro hth
    obtain ⟨c, h1, h2, h3, h4, _, h6⟩ := header_load env _ r hth h
    refine ⟨⟨c, h1, h2, h3, h4, h6⟩, ?_⟩
    intro hn
    obtain ⟨⟨l, hl, _, _, p3⟩, _, _⟩ := ht
    exact ⟨l, hl, p3 hn (by simp [h1])⟩

/-- The amended C14 on the sample text: with worker threads the opened loader has no
document, an empty call log and the scanned values 100 x 50, 30 fps, 60 frames; without
worker threads it has the document. -/
theorem open_paths_witness :
    (openedAsync.comp = none ∧ openedAsync.calls = [] ∧
      openedAsync.w = 100 ∧ openedAsync.h = 50 ∧ openedAsync.frameRate = 30 ∧
      openedAsync.frameCnt = 60) ∧
    openedInline.comp = some sampleComp := by
  have h1 := (open_paths envAsync LottieLoader.init openedAsync sampleText 69 true
    (by decide!)).1 (by decide!)
  have h2 := (open_paths envInline LottieLoader.init openedInline sampleText 69 true
    (by decide!)).2 rfl
  exact ⟨⟨h1.1, h1.2.1, by decide!, by decide!, by decide!, by decide!⟩, by decide!⟩

/-! ## The scan loop, iteration by iteration -/

/-- The loop of `quickScan` is the iteration `scanIter` repeated. -/
theorem quickScan_iter (fuel : Nat) (p : List Char) (depth : Nat) (st : Probe) :
    quickScan (fuel + 1) p depth st =
      match scanIter p depth st with
      | Iter.stop => Scan.finished st
      | Iter.crash => Scan.nullDeref
      | Iter.next p' d' st' => quickScan fuel p' d' st' := by
  cases p with
  | nil => rfl
  | cons c rest =>
    conv_lhs => unfold quickScan
    unfold scanIter
    simp only
    by_cases h1 : c = Char.ofNat 123
    · rw [if_pos h1, if_pos h1]
    rw [if_neg h1, if_neg h1]
    by_cases h2 : c = Char.ofNat 125
    · rw [if_pos h2, if_pos h2]
    rw [if_neg h2, if_neg h2]
    by_cases h3 : depth ≠ 1
    · rw [if_pos h3, if_pos h3]
    rw [if_neg h3, if_neg h3]
    by_cases h4 : startsWith (c :: rest) "\"v\":" = true
    · rw [if_pos h4, if_pos h4]
    rw [if_neg h4, if_neg h4]
    by_cases h5 : startsWith (c :: rest) "\"fr\":" = true
    · rw [if_pos h5, if_pos h5]
      cases valueEnd (List.drop 5 (c :: rest)) <;> rfl
    rw [if_neg h5, if_neg h5]
    by_cases h6 : startsWith (c :: rest) "\"ip\":" = true
    · rw [if_pos h6, if_pos h6]
      cases valueEnd (List.drop 5 (c :: rest)) <;> rfl
    rw [if_neg h6, if_neg h6]
    by_cases h7 : startsWith (c :: rest) "\"op\":" = true
    · rw [if_pos h7, if_pos h7]
      cases valueEnd (List.drop 5 (c :: rest)) <;> rfl
    rw [if_neg h7, if_neg h7]
    by_cases h8 : startsWith (c :: rest) "\"w\":" = true
    · rw [if_pos h8, if_pos h8]
      cases valueEnd (List.drop 4 (c :: rest)) <;> rfl
    rw [if_neg h8, if_neg h8]
    by_cases h9 : startsWith (c :: rest) "\"h\":" = true
    · rw [if_pos h9, if_pos h9]
      cases valueEnd (List.drop 4 (c :: rest)) <;> rfl
    rw [if_neg h9, if_neg h9]

theorem strstr1_suffix (q : List Char) (c : Char) (e : List Char)
    (h : strstr1 q c = some e) : e.IsSuffix q ∧ e ≠ [] := by
  unfold strstr1 at h
  have hs := List.dropWhile_suffix (fun x => x != c) (l := q)
  cases hd : List.dropWhile (fun x => x != c) q with
  | nil => rw [hd] at h; cases h
  | cons a r =>
    rw [hd] at h hs
    simp only [Option.some.injEq] at h
    rw [← h]
    exact ⟨hs, by simp⟩

theorem valueEnd_suffix (q e : List Char) (h : valueEnd q = some e) :
    e.IsSuffix q ∧ e ≠ [] := by
  unfold valueEnd at h
  cases h1 : strstr1 q ',' with
  | some e1 =>
    rw [h1] at h
    simp only [Option.some.injEq] at h
    rw [← h]
    exact strstr1_suffix q _ e1 h1
  | none =>
    rw [h1] at h
    exact strstr1_suffix q _ e h

/-- Every iteration that goes on moves the cursor forward inside the text, by at least
one character. -/
theorem scanIter_advances (p : List Char) (depth : Nat) (st : Probe) (p' : List Char)
    (d' : Nat) (st' : Probe) (h : scanIter p depth st = Iter.next p' d' st') :
    p'.IsSuffix p ∧ p'.length < p.length := by
  have hdrop : ∀ (n : Nat) (q e : List Char), q ≠ [] → 0 < n → e.IsSuffix (q.drop n) →
      e.IsSuffix q ∧ e.length < q.length := by
    intro n q e hq hn he
    have h1 : (q.drop n).length < q.length := by
      rw [List.length_drop]
      have : 0 < q.length := List.length_pos.mpr hq
      omega
    exact ⟨he.trans (List.drop_suffix n q), lt_of_le_of_lt he.length_le h1⟩
  cases p with
  | nil => simp [scanIter] at h
  | cons c rest =>
    have htail : rest.IsSuffix (c :: rest) ∧ rest.length < (c :: rest).length :=
      ⟨List.suffix_cons c rest, by simp⟩
    unfold scanIter at h
    simp only at h
    split_ifs at h
    all_goals first
      | (simp only [Iter.next.injEq] at h; rw [← h.1]; exact htail)
      | (simp only [Iter.next.injEq] at h; rw [← h.1]
         exact hdrop 4 (c :: rest) _ (by simp) (by norm_num) (List.suffix_refl _))
      | (split at h
         · cases h
         · rename_i e he
           simp only [Iter.next.injEq] at h
           rw [← h.1]
           first
             | exact hdrop 5 (c :: rest) e (by simp) (by norm_num) (valueEnd_suffix _ e he).1
             | exact hdrop 4 (c :: rest) e (by simp) (by norm_num) (valueEnd_suffix _ e he).1)

/-- With more iterations than characters the result of the loop does not depend on the
iteration budget. -/
theorem quickScan_fuel (n : Nat) : ∀ (m : Nat) (p : List Char) (depth : Nat) (st : Probe),
    p.length < n → p.length < m → quickScan n p depth st = quickScan m p depth st := by
  induction n with
  | zero => intro m p depth st h; omega
  | succ n ih =>
    intro m p depth st hn hm
    cases m with
    | zero => omega
    | succ m =>
      rw [quickScan_iter, quickScan_iter]
      cases hi : scanIter p depth st with
      | stop => rfl
      | crash => rfl
      | next p' d' st' =>
        have := (scanIter_advances p depth st p' d' st' hi).2
        exact ih m p' d' st' (by omega) (by omega)

/-- The loop with the budget `header` gives it. -/
theorem scan_step (p : List Char) (depth : Nat) (st : Probe) :
    quickScan (p.length + 1) p depth st =
      match scanIter p depth st with
      | Iter.stop => Scan.finished st
      | Iter.crash => Scan.nullDeref
      | Iter.next p' d' st' => quickScan (p'.length + 1) p' d' st' := by
  rw [quickScan_iter]
  cases hi : scanIter p depth st with
  | stop => rfl
  | crash => rfl
  | next p' d' st' =>
    have := (scanIter_advances p depth st p' d' st' hi).2
    exact quickScan_fuel _ _ p' d' st' (by omega) (by omega)

theorem quickScan_total (n : Nat) : ∀ (p : List Char) (depth : Nat) (st : Probe),
    p.length < n → quickScan n p depth st ≠ Scan.outOfFuel := by
  induction n with
  | zero => intro p depth st h; omega
  | succ n ih =>
    intro p depth st hn
    rw [quickScan_iter]
    cases hi : scanIter p depth st with
    | stop => simp
    | crash => simp
    | next p' d' st' =>
      have := (scanIter_advances p depth st p' d' st' hi).2
      exact ih p' d' st' (by omega)
/-! ## Theorems: termination of the quick scan -/

theorem strstr1_of_mem (q : List Char) (c : Char) (h : c ∈ q) : ∃ e, strstr1 q c = some e := by
  unfold strstr1
  cases hd : List.dropWhile (fun x => x != c) q with
  | nil =>
    exfalso
    rw [List.dropWhile_eq_nil_iff] at hd
    have := hd c h
    simp at this
  | cons a r => exact ⟨_, rfl⟩

theorem valueEnd_of_mem (q : List Char) (h : ',' ∈ q ∨ Char.ofNat 125 ∈ q) :
    ∃ e, valueEnd q = some e := by
  unfold valueEnd
  cases h1 : strstr1 q ',' with
  | some e1 => exact ⟨e1, rfl⟩
  | none =>
    rcases h with h | h
    · obtain ⟨e, he⟩ := strstr1_of_mem q ',' h
      rw [he] at h1
      cases h1
    · exact strstr1_of_mem q _ h

/-- Behind a recognised key that is followed by a ',' or a closing brace the jump has a
target. -/
theorem valueEnd_after_key (p : List Char) (key : String)
    (hk : startsWith p key = true) (hq : key.toList.head? = some '"')
    (hc : ',' ∉ key.toList ∧ Char.ofNat 125 ∉ key.toList)
    (h : p.head? = some '"' → ',' ∈ p ∨ Char.ofNat 125 ∈ p) :
    ∃ e, valueEnd (p.drop key.toList.length) = some e := by
  unfold startsWith at hk
  have hp : key.toList <+: p := List.isPrefixOf_iff_prefix.mp hk
  obtain ⟨t, ht⟩ := hp
  have hd : p.drop key.toList.length = t := by
    rw [← ht]
    exact List.drop_left _ _
  rw [hd]
  apply valueEnd_of_mem
  have hhead : p.head? = some '"' := by
    rw [← ht]
    cases hkl : key.toList with
    | nil => rw [hkl] at hq; cases hq
    | cons a r => rw [hkl] at hq; simpa using hq
  rcases h hhead with h1 | h1
  · left
    rw [← ht] at h1
    rcases List.mem_append.mp h1 with h2 | h2
    · exact absurd h2 hc.1
    · exact h2
  · right
    rw [← ht] at h1
    rcases List.mem_append.mp h1 with h2 | h2
    · exact absurd h2 hc.2
    · exact h2

theorem scanIter_no_crash (p : List Char) (depth : Nat) (st : Probe)
    (h : p.head? = some '"' → ',' ∈ p ∨ Char.ofNat 125 ∈ p) :
    scanIter p depth st ≠ Iter.crash := by
  cases p with
  | nil => simp [scanIter]
  | cons c rest =>
    unfold scanIter
    simp only
    split_ifs with h1 h2 h3 h4 h5 h6 h7 h8 h9
    · simp
    · simp
    · simp
    · simp
    · obtain ⟨e, he⟩ := valueEnd_after_key (c :: rest) "\"fr\":" h5 rfl (by decide) h
      have he' : valueEnd (List.drop 5 (c :: rest)) = some e := he
      rw [he']
      simp
    · obtain ⟨e, he⟩ := valueEnd_after_key (c :: rest) "\"ip\":" h6 rfl (by decide) h
      have he' : valueEnd (List.drop 5 (c :: rest)) = some e := he
      rw [he']
      simp
    · obtain ⟨e, he⟩ := valueEnd_after_key (c :: rest) "\"op\":" h7 rfl (by decide) h
      have he' : valueEnd (List.drop 5 (c :: rest)) = some e := he
      rw [he']
      simp
    · obtain ⟨e, he⟩ := valueEnd_after_key (c :: rest) "\"w\":" h8 rfl (by decide) h
      have he' : valueEnd (List.drop 4 (c :: rest)) = some e := he
      rw [he']
      simp
    · obtain ⟨e, he⟩ := valueEnd_after_key (c :: rest) "\"h\":" h9 rfl (by decide) h
      have he' : valueEnd (List.drop 4 (c :: rest)) = some e := he
      rw [he']
      simp
    · simp

theorem quickScan_finishes (n : Nat) : ∀ (p : List Char) (depth : Nat) (st : Probe),
    p.length < n → ValuesEnd p → ∃ r, quickScan n p depth st = Scan.finished r := by
  induction n with
  | zero => intro p depth st h; omega
  | succ n ih =>
    intro p depth st hn hv
    rw [quickScan_iter]
    cases hi : scanIter p depth st with
    | stop => exact ⟨st, rfl⟩
    | crash => exact absurd hi (scanIter_no_crash p depth st (hv p (List.suffix_refl p)))
    | next p' d' st' =>
      obtain ⟨hs, hl⟩ := scanIter_advances p depth st p' d' st' hi
      exact ih p' d' st' (by omega) (fun q hq => hv q (hq.trans hs))

theorem valuesEnd_of_last (text : List Char)
    (h : text.getLast? = some (Char.ofNat 125)) : ValuesEnd text := by
  intro q hq hh
  right
  obtain ⟨t, ht⟩ := hq
  have hne : q ≠ [] := by
    intro h0
    rw [h0] at hh
    cases hh
  have hl : q.getLast? = some (Char.ofNat 125) := by
    rw [← ht, List.getLast?_append_of_ne_nil _ hne] at h
    exact h
  exact List.mem_of_getLast?_eq_some hl

/-- C18, as stated, fails: on the content `}` the depth counter is decremented at 0 and
wraps to 4294967295; and on a content that stops behind the value of a recognised key
the jump target is null. -/
theorem quickScan_unguarded :
    scanIter [Char.ofNat 125] 0 ⟨0, 0, 0, 0, 0⟩ = Iter.next [] 4294967295 ⟨0, 0, 0, 0, 0⟩ ∧
    quickScan (truncatedText.length + 1) truncatedText 0 ⟨0, 0, 0, 0, 0⟩ = Scan.nullDeref := by
  constructor <;> decide!

/-- C18, amended: every iteration of the quick scan that goes on moves the cursor
forward inside the text by at least one character, so the loop never runs more
iterations than the text has characters; on every content in which a ',' or a closing
brace follows behind every quote (in particular one that ends with a closing brace) the
loop ends at the terminating NUL; the depth counter is an unsigned 32-bit counter that
wraps around when a closing brace is met at depth 0. -/
theorem quickScan_terminates (text : List Char) (depth : Nat) (st : Probe) :
    (∀ p d s p' d' s', scanIter p d s = Iter.next p' d' s' →
      p'.IsSuffix p ∧ p'.length < p.length) ∧
    quickScan (text.length + 1) text depth st ≠ Scan.outOfFuel ∧
    (ValuesEnd text → ∃ r, quickScan (text.length + 1) text depth st = Scan.finished r) ∧
    (text.getLast? = some (Char.ofNat 125) →
      ∃ r, quickScan (text.length + 1) text depth st = Scan.finished r) ∧
    (∀ rest s, scanIter (Char.ofNat 125 :: rest) 0 s = Iter.next rest (2 ^ 32 - 1) s) := by
  refine ⟨scanIter_advances, quickScan_total _ text depth st (by omega),
    quickScan_finishes _ text depth st (by omega),
    fun h => quickScan_finishes _ text depth st (by omega) (valuesEnd_of_last text h), ?_⟩
  intro rest s
  rfl

/-- The amended C18 on the sample text, which ends with a closing brace: the scan ends
with the values of the top-level fields. -/
theorem quickScan_terminates_witness :
    sampleText.getLast? = some (Char.ofNat 125) ∧
    ∃ r, quickScan (sampleText.length + 1) sampleText 0 ⟨0, 0, 0, 0, 0⟩ = Scan.finished r :=
  ⟨by decide!, (quickScan_terminates sampleText 0 ⟨0, 0, 0, 0, 0⟩).2.2.2.1 (by decide!)⟩
/-! ## The quick scan on the items of a top-level object -/

theorem scanIter_open (rest : List Char) (d : Nat) (st : Probe) :
    scanIter (Char.ofNat 123 :: rest) d st = Iter.next rest ((d + 1) % 2 ^ 32) st := rfl

theorem scanIter_close (rest : List Char) (d : Nat) (st : Probe) :
    scanIter (Char.ofNat 125 :: rest) d st =
      Iter.next rest ((d + (2 ^ 32 - 1)) % 2 ^ 32) st := rfl

/-- Away from depth 1 an iteration only steps over the character. -/
theorem scanIter_deep (c : Char) (rest : List Char) (d : Nat) (st : Probe)
    (h1 : c ≠ Char.ofNat 123) (h2 : c ≠ Char.ofNat 125) (hd : d ≠ 1) :
    scanIter (c :: rest) d st = Iter.next rest d st := by
  unfold scanIter
  simp only
  rw [if_neg h1, if_neg h2, if_pos hd]

theorem scanIter_version (c : Char) (rest : List Char) (st : Probe)
    (h1 : c ≠ Char.ofNat 123) (h2 : c ≠ Char.ofNat 125)
    (hv : startsWith (c :: rest) "\"v\":" = true) :
    scanIter (c :: rest) 1 st = Iter.next ((c :: rest).drop 4) 1 st := by
  unfold scanIter
  simp only
  rw [if_neg h1, if_neg h2, if_neg (by simp), if_pos hv]

theorem scanIter_plain (c : Char) (rest : List Char) (st : Probe)
    (h1 : c ≠ Char.ofNat 123) (h2 : c ≠ Char.ofNat 125)
    (hv : startsWith (c :: rest) "\"v\":" = false) (hk : valueKeyAt (c :: rest) = false) :
    scanIter (c :: rest) 1 st = Iter.next rest 1 st := by
  unfold valueKeyAt at hk
  simp only [Bool.or_eq_false_iff] at hk
  obtain ⟨⟨⟨⟨k1, k2⟩, k3⟩, k4⟩, k5⟩ := hk
  unfold scanIter
  simp only
  rw [if_neg h1, if_neg h2, if_neg (by simp), if_neg (by simp [hv]), if_neg (by simp [k1]),
    if_neg (by simp [k2]), if_neg (by simp [k3]), if_neg (by simp [k4]), if_neg (by simp [k5])]

/-- At depth 1 on the literal of a key the iteration stores the numeric parse of what
follows and jumps to the end of the value. -/
theorem scanIter_key (k : Key) (q e : List Char) (st : Probe)
    (he : valueEnd q = some e) :
    scanIter (k.text.toList ++ q) 1 st = Iter.next e 1 (st.assign k (toFloat q)) := by
  cases k <;>
  · simp only [Key.text, scanIter, startsWith, String.toList, List.cons_append,
      List.nil_append, List.isPrefixOf, List.drop, Probe.assign]
    simp [he]
/-- Whether a literal starts at the cursor is decided inside a stretch that is followed
by a character the literal does not contain. -/
theorem isPrefixOf_append_sep (key r : List Char) (a : Char) (x : List Char)
    (ha : a ∉ key) : key.isPrefixOf (r ++ a :: x) = key.isPrefixOf r := by
  induction key generalizing r with
  | nil => simp
  | cons y ks ih =>
    cases r with
    | nil =>
      have hya : (y == a) = false := by
        simp only [beq_eq_false_iff_ne, ne_eq]
        intro h
        exact ha (by simp [h])
      simp [List.isPrefixOf, hya]
    | cons z r' =>
      have h := ih r' (fun h => ha (List.mem_cons_of_mem _ h))
      show (y == z && ks.isPrefixOf (r' ++ a :: x)) = (y == z && ks.isPrefixOf r')
      rw [h]

theorem startsWith_append_sep (key : String) (r : List Char) (a : Char) (x : List Char)
    (ha : a ∉ key.toList) : startsWith (r ++ a :: x) key = startsWith r key := by
  unfold startsWith
  exact isPrefixOf_append_sep key.toList r a x ha

theorem valueKeyAt_append_sep (r : List Char) (a : Char) (x : List Char)
    (ha : a = ',' ∨ a = Char.ofNat 125) : valueKeyAt (r ++ a :: x) = valueKeyAt r := by
  unfold valueKeyAt
  rcases ha with h | h <;> subst h <;>
  · rw [startsWith_append_sep _ r _ x (by decide), startsWith_append_sep _ r _ x (by decide),
      startsWith_append_sep _ r _ x (by decide), startsWith_append_sep _ r _ x (by decide),
      startsWith_append_sep _ r _ x (by decide)]

theorem inert_step (c : Char) (rest : List Char)
    (h1 : c ≠ Char.ofNat 123) (h2 : c ≠ Char.ofNat 125) (h : inert (c :: rest) 0 = true) :
    valueKeyAt (c :: rest) = false ∧ inert rest 0 = true := by
  unfold inert at h
  rw [if_neg h1, if_neg h2] at h
  by_cases hk : valueKeyAt (c :: rest) = true
  · rw [if_pos ⟨rfl, hk⟩] at h
    cases h
  · rw [if_neg (fun hh => hk hh.2)] at h
    exact ⟨by simpa using hk, h⟩

/-- The quick scan walks over an inert stretch: it arrives behind it at depth 1 with the
values it had. -/
theorem walk_inert (n : Nat) : ∀ (t : List Char) (k : Nat) (a : Char) (x : List Char)
    (st : Probe), t.length ≤ n → inert t k = true → k + t.length + 1 < 2 ^ 32 →
    (a = ',' ∨ a = Char.ofNat 125) →
    quickScan ((t ++ a :: x).length + 1) (t ++ a :: x) (k + 1) st =
      quickScan ((a :: x).length + 1) (a :: x) 1 st := by
  induction n with
  | zero =>
    intro t k a x st hn hi _ _
    have ht : t = [] := List.length_eq_zero.mp (by omega)
    subst ht
    have hk : k = 0 := by simpa [inert] using hi
    subst hk
    rfl
  | succ n ih =>
    intro t k a x st hn hi hb ha
    cases t with
    | nil =>
      have hk : k = 0 := by simpa [inert] using hi
      subst hk
      rfl
    | cons c rest =>
      simp only [List.length_cons] at hn hb
      rw [scan_step]
      simp only [List.cons_append]
      by_cases h1 : c = Char.ofNat 123
      · subst h1
        rw [scanIter_open]
        simp only
        have hi' : inert rest (k + 1) = true := by
          unfold inert at hi
          rw [if_pos rfl] at hi
          exact hi
        have hm : (k + 1 + 1) % 2 ^ 32 = (k + 1) + 1 := Nat.mod_eq_of_lt (by omega)
        rw [hm]
        exact ih rest (k + 1) a x st (by omega) hi' (by omega) ha
      by_cases h2 : c = Char.ofNat 125
      · subst h2
        rw [scanIter_close]
        simp only
        have hi' : 0 < k ∧ inert rest (k - 1) = true := by
          unfold inert at hi
          rw [if_neg (by decide), if_pos rfl] at hi
          simpa using hi
        have hm : (k + 1 + (2 ^ 32 - 1)) % 2 ^ 32 = (k - 1) + 1 := by
          have : k + 1 + (2 ^ 32 - 1) = k + 2 ^ 32 := by omega
          rw [this, Nat.add_mod_right, Nat.mod_eq_of_lt (by omega)]
          omega
        rw [hm]
        exact ih rest (k - 1) a x st (by omega) hi'.2 (by omega) ha
      by_cases hk : k = 0
      · subst hk
        obtain ⟨hv, hr⟩ := inert_step c rest h1 h2 hi
        by_cases hver : startsWith (c :: (rest ++ a :: x)) "\"v\":" = true
        · rw [scanIter_version c _ st h1 h2 hver]
          simp only
          have hver' : startsWith (c :: rest) "\"v\":" = true := by
            have := startsWith_append_sep "\"v\":" (c :: rest) a x
              (by rcases ha with h | h <;> subst h <;> decide)
            rw [← this]
            exact hver
          unfold startsWith at hver'
          obtain ⟨t4, ht4⟩ := List.isPrefixOf_iff_prefix.mp hver'
          have hd : (c :: (rest ++ a :: x)).drop 4 = t4 ++ a :: x := by
            have : c :: (rest ++ a :: x) = "\"v\":".toList ++ (t4 ++ a :: x) := by
              rw [← List.append_assoc, ht4]
              rfl
            rw [this]
            rfl
          rw [hd]
          have hi4 : inert t4 0 = true := by
            rw [← ht4] at hi
            have e1 := inert_step _ _ (by decide) (by decide) hi
            have e2 := inert_step _ _ (by decide) (by decide) e1.2
            have e3 := inert_step _ _ (by decide) (by decide) e2.2
            have e4 := inert_step _ _ (by decide) (by decide) e3.2
            exact e4.2
          have hl4 : t4.length + 4 = rest.length + 1 := by
            have := congrArg List.length ht4
            simp only [List.length_append, List.length_cons] at this
            have h4 : "\"v\":".toList.length = 4 := by decide
            omega
          exact ih t4 0 a x st (by omega) hi4 (by omega) ha
        · have hv' : valueKeyAt (c :: (rest ++ a :: x)) = false := by
            have := valueKeyAt_append_sep (c :: rest) a x ha
            rw [← hv, ← this]
            rfl
          rw [scanIter_plain c _ st h1 h2 (by simpa using hver) hv']
          simp only
          exact ih rest 0 a x st (by omega) hr (by omega) ha
      · have hi' : inert rest k = true := by
          unfold inert at hi
          rw [if_neg h1, if_neg h2, if_neg (fun hh => hk hh.1)] at hi
          exact hi
        rw [scanIter_deep c _ (k + 1) st h1 h2 (by omega)]
        simp only
        exact ih rest k a x st (by omega) hi' (by omega) ha
/-! ## The numeric parse stops at a comma or a closing brace -/

theorem signStage_match (q : List Char) :
    (match q with
      | '-' :: r => (true, r)
      | '+' :: r => (false, r)
      | _ => (false, q)) = signStage q := by
  unfold signStage
  cases q with
  | nil => rfl
  | cons c r =>
    by_cases h1 : c = '-'
    · subst h1; rfl
    by_cases h2 : c = '+'
    · subst h2; rfl
    simp only [h1, h2, if_false]
    split
    · rename_i heq; simp at heq; exact absurd heq.1 h1
    · rename_i heq; simp at heq; exact absurd heq.1 h2
    · rfl

theorem fracStage_match (q : List Char) :
    (match q with
      | '.' :: r => readDigits r 0 0
      | r => (0, 0, r)) = fracStage q := by
  unfold fracStage
  cases q with
  | nil => rfl
  | cons c r =>
    by_cases h1 : c = '.'
    · subst h1; rfl
    simp only [h1, if_false]
    split
    · rename_i heq; simp at heq; exact absurd heq.1 h1
    · rfl

theorem expStage_match (q : List Char) :
    (match q with
      | 'e' :: '-' :: r => (true, (readDigits r 0 0).1)
      | 'E' :: '-' :: r => (true, (readDigits r 0 0).1)
      | 'e' :: '+' :: r => (false, (readDigits r 0 0).1)
      | 'E' :: '+' :: r => (false, (readDigits r 0 0).1)
      | 'e' :: r => (false, (readDigits r 0 0).1)
      | 'E' :: r => (false, (readDigits r 0 0).1)
      | _ => (false, 0)) = expStage q := by
  unfold expStage
  cases q with
  | nil => rfl
  | cons c r =>
    by_cases hc : c = 'e' ∨ c = 'E'
    · simp only [hc, if_true]
      cases r with
      | nil => rcases hc with h | h <;> subst h <;> rfl
      | cons d r' =>
        by_cases hd1 : d = '-'
        · subst hd1
          rcases hc with h | h <;> subst h <;> rfl
        by_cases hd2 : d = '+'
        · subst hd2
          rcases hc with h | h <;> subst h <;> rfl
        simp only [hd1, hd2, if_false]
        rcases hc with h | h <;> subst h <;>
        · split <;> simp_all
    · simp only [hc, if_false]
      split <;> simp_all

theorem toFloat_staged (p : List Char) : toFloat p = toFloatStaged p := by
  unfold toFloatStaged
  simp only [← signStage_match, ← fracStage_match, ← expStage_match]
  rfl
theorem dropWhile_stop (u : List Char) (a : Char) (x : List Char)
    (ha : a.isWhitespace = false) :
    List.dropWhile Char.isWhitespace (u ++ a :: x) =
      List.dropWhile Char.isWhitespace u ++ a :: x := by
  induction u with
  | nil => simp [List.dropWhile, ha]
  | cons c r ih =>
    by_cases hc : c.isWhitespace = true
    · simp only [List.cons_append, List.dropWhile, hc]
      exact ih
    · have hc' : c.isWhitespace = false := by simpa using hc
      simp only [List.cons_append, List.dropWhile, hc']
      rfl

theorem signStage_stop (u : List Char) (a : Char) (x : List Char)
    (h1 : a ≠ '-') (h2 : a ≠ '+') :
    signStage (u ++ a :: x) = ((signStage u).1, (signStage u).2 ++ a :: x) := by
  cases u with
  | nil => simp [signStage, h1, h2]
  | cons c r =>
    by_cases c1 : c = '-'
    · simp [signStage, c1]
    by_cases c2 : c = '+'
    · simp [signStage, c1, c2]
    simp [signStage, c1, c2]

theorem readDigits_stop (u : List Char) (a : Char) (x : List Char)
    (ha : a.isDigit = false) : ∀ (acc cnt : Nat),
    readDigits (u ++ a :: x) acc cnt =
      ((readDigits u acc cnt).1, (readDigits u acc cnt).2.1,
        (readDigits u acc cnt).2.2 ++ a :: x) := by
  induction u with
  | nil =>
    intro acc cnt
    simp [readDigits, ha]
  | cons c r ih =>
    intro acc cnt
    by_cases hc : c.isDigit = true
    · simp only [List.cons_append, readDigits, hc, if_true]
      exact ih _ _
    · simp [readDigits, hc]

theorem fracStage_stop (u : List Char) (a : Char) (x : List Char)
    (h1 : a ≠ '.') (ha : a.isDigit = false) :
    fracStage (u ++ a :: x) =
      ((fracStage u).1, (fracStage u).2.1, (fracStage u).2.2 ++ a :: x) := by
  cases u with
  | nil => simp [fracStage, h1]
  | cons c r =>
    by_cases c1 : c = '.'
    · simp only [List.cons_append, fracStage, c1, if_true]
      exact readDigits_stop r a x ha 0 0
    · simp [fracStage, c1]

theorem expStage_stop (u : List Char) (a : Char) (x : List Char)
    (ha : a.isDigit = false) (h1 : a ≠ 'e') (h2 : a ≠ 'E') (h3 : a ≠ '-') (h4 : a ≠ '+') :
    expStage (u ++ a :: x) = expStage u := by
  cases u with
  | nil => simp [expStage, h1, h2]
  | cons c r =>
    by_cases hc : c = 'e' ∨ c = 'E'
    · cases r with
      | nil => simp [expStage, hc, h3, h4, readDigits, ha]
      | cons d r' =>
        by_cases d1 : d = '-'
        · simp [expStage, hc, d1, readDigits_stop r' a x ha]
        by_cases d2 : d = '+'
        · simp [expStage, hc, d1, d2, readDigits_stop r' a x ha]
        have := readDigits_stop (d :: r') a x ha 0 0
        simp only [List.cons_append] at this
        simp [expStage, hc, d1, d2, this]
    · simp [expStage, hc]

/-- The numeric parse of a text does not read beyond a comma or a closing brace. -/
theorem toFloat_stop (u : List Char) (a : Char) (x : List Char)
    (ha : a = ',' ∨ a = Char.ofNat 125) : toFloat (u ++ a :: x) = toFloat u := by
  have hs : a.isWhitespace = false ∧ a.isDigit = false ∧ a ≠ '-' ∧ a ≠ '+' ∧ a ≠ '.' ∧
      a ≠ 'e' ∧ a ≠ 'E' := by
    rcases ha with h | h <;> subst h <;> decide
  obtain ⟨s1, s2, s3, s4, s5, s6, s7⟩ := hs
  rw [toFloat_staged, toFloat_staged]
  unfold toFloatStaged
  simp only [dropWhile_stop u a x s1, signStage_stop _ a x s3 s4, readDigits_stop _ a x s2,
    fracStage_stop _ a x s5 s2, expStage_stop _ a x s2 s6 s7 s3 s4]
theorem renderFrom_head (is : List Item) :
    ∃ a x, renderFrom is = a :: x ∧ (a = ',' ∨ (a = Char.ofNat 125 ∧ x = [])) := by
  cases is with
  | nil => exact ⟨_, _, rfl, Or.inr ⟨rfl, rfl⟩⟩
  | cons i is => exact ⟨_, _, rfl, Or.inl rfl⟩

theorem dropWhile_value (v : List Char) (c : Char) (y : List Char)
    (hv : ∀ z ∈ v, z ≠ c) :
    List.dropWhile (fun z => z != c) (v ++ c :: y) = c :: y := by
  induction v with
  | nil => simp [List.dropWhile]
  | cons z v ih =>
    have hz : (z != c) = true := by simpa using hv z (by simp)
    simp only [List.cons_append, List.dropWhile, hz]
    exact ih (fun w hw => hv w (List.mem_cons_of_mem _ hw))

/-- Behind a value without comma and brace the jump goes to the comma that follows, or
to the closing brace at the end of the text. -/
theorem valueEnd_value (v : List Char) (a : Char) (x : List Char)
    (hv : v.all (fun c => c != ',' && c != Char.ofNat 123 && c != Char.ofNat 125) = true)
    (ha : a = ',' ∨ (a = Char.ofNat 125 ∧ x = [])) :
    valueEnd (v ++ a :: x) = some (a :: x) := by
  have hv' : ∀ z ∈ v, z ≠ ',' ∧ z ≠ Char.ofNat 125 := by
    intro z hz
    have := (List.all_eq_true.mp hv) z hz
    simp only [Bool.and_eq_true, bne_iff_ne, ne_eq] at this
    exact ⟨this.1.1, this.2⟩
  unfold valueEnd strstr1
  rcases ha with h | ⟨h, hx⟩
  · subst h
    rw [dropWhile_value v ',' x (fun z hz => (hv' z hz).1)]
  · subst h
    subst hx
    have hnone : List.dropWhile (fun z => z != ',') (v ++ [Char.ofNat 125]) = [] := by
      rw [List.dropWhile_eq_nil_iff]
      intro z hz
      rcases List.mem_append.mp hz with h1 | h1
      · simpa using (hv' z h1).1
      · simp only [List.mem_singleton] at h1
        subst h1
        decide
    rw [hnone]
    simp only
    rw [dropWhile_value v (Char.ofNat 125) [] (fun z hz => (hv' z hz).2)]

/-- The quick scan on one item at depth 1: it arrives behind the item at depth 1, with
the value stored when the item is a field of one of the five keys. -/
theorem item_step (i : Item) (is : List Item) (st : Probe) (hw : i.wf = true)
    (hb : i.text.length + 1 < 2 ^ 32) :
    quickScan ((i.text ++ renderFrom is).length + 1) (i.text ++ renderFrom is) 1 st =
      quickScan ((renderFrom is).length + 1) (renderFrom is) 1 (i.effect st) := by
  obtain ⟨a, x, hr, ha⟩ := renderFrom_head is
  rw [hr]
  cases i with
  | other t =>
    have hsep : a = ',' ∨ a = Char.ofNat 125 := by
      rcases ha with h | h
      · exact Or.inl h
      · exact Or.inr h.1
    exact walk_inert t.length t 0 a x st (le_refl _) hw (by simpa using hb) hsep
  | num k v =>
    rw [scan_step]
    have he := valueEnd_value v a x hw ha
    have htext : (Item.num k v).text ++ a :: x = k.text.toList ++ (v ++ a :: x) := by
      simp [Item.text]
    have hsep : a = ',' ∨ a = Char.ofNat 125 := by
      rcases ha with h | h
      · exact Or.inl h
      · exact Or.inr h.1
    rw [htext, scanIter_key k (v ++ a :: x) (a :: x) st he, toFloat_stop v a x hsep]
    rfl

/-- The quick scan behind an item: it walks the items that follow and ends at the
closing brace with their top-level values. -/
theorem scan_items (is : List Item) : ∀ (st : Probe), (∀ i ∈ is, i.wf = true) →
    (renderFrom is).length < 2 ^ 32 →
    quickScan ((renderFrom is).length + 1) (renderFrom is) 1 st =
      Scan.finished (topLevel is st) := by
  induction is with
  | nil =>
    intro st _ _
    rfl
  | cons i is ih =>
    intro st hw hb
    have hlen : (renderFrom (i :: is)).length = 1 + (i.text.length + (renderFrom is).length) := by
      simp [renderFrom]
      omega
    rw [scan_step]
    have hp : scanIter (renderFrom (i :: is)) 1 st
        = Iter.next (i.text ++ renderFrom is) 1 st :=
      scanIter_plain ',' _ st (by decide) (by decide) (by rfl) (by rfl)
    rw [hp]
    simp only
    rw [item_step i is st (hw i (by simp)) (by omega)]
    exact ih _ (fun j hj => hw j (List.mem_cons_of_mem _ hj)) (by omega)

/-- The quick scan of the text of a top-level object ends with the top-level values of
its items. -/
theorem scan_document (items : List Item) (st : Probe) (hw : ∀ i ∈ items, i.wf = true)
    (hb : (document items).length < 2 ^ 32) :
    quickScan ((document items).length + 1) (document items) 0 st =
      Scan.finished (topLevel items st) := by
  cases items with
  | nil => rfl
  | cons i is =>
    have hlen : (document (i :: is)).length = 1 + (i.text.length + (renderFrom is).length) := by
      simp [document]
      omega
    rw [scan_step]
    have hp : scanIter (document (i :: is)) 0 st = Iter.next (i.text ++ renderFrom is) 1 st :=
      scanIter_open _ 0 st
    rw [hp]
    simp only
    rw [item_step i is st (hw i (by simp)) (by omega)]
    exact scan_items is _ (fun j hj => hw j (List.mem_cons_of_mem _ hj)) (by omega)
/-! ## Theorems: what the quick scan reads -/

/-- C13, as stated, fails: in this text the top-level object carries "fr":30 and the
other four fields, but the brace inside the string of its first field is counted as
nesting, the fields are met at depth 2, the frame rate stays 0 and `open` fails. -/
theorem header_counts_any_brace :
    (LottieLoader.init.open envAsync braceText 48 false).map
      (fun r => (r.1, r.2.frameRate, r.2.w, r.2.h)) = some (false, 0, 0, 0) := by
  decide!

/-- C13, amended: the quick scan stores values only at depth 1 of its brace counter,
which counts every brace of the text (away from depth 1 an iteration leaves the values
as they are). For every text of less than 2^32 characters that is an object whose
comma-separated items are fields of the keys "fr", "ip", "op", "w", "h" with a value
without comma and brace, or stretches that balance their braces and show none of the
five literals outside them, the quick-scan `header` returns with frame rate, width and
height the numeric parse of the values of the last top-level "fr", "w", "h" fields (the
previous values where there is none), whatever the nested stretches hold; it returns
true with `frameCnt = segmentEnd = op - ip` when that frame rate is not below
`FLOAT_EPSILON` and false when it is. On any text, when the quick-scan `header` returns,
it returns false exactly when the frame rate it stored is below `FLOAT_EPSILON`. -/
theorem header_top_level (env : Env) (s : LottieLoader) (items : List Item)
    (hth : env.threads ≠ 0) (hc : s.content = some (document items))
    (hw : ∀ i ∈ items, i.wf = true) (hb : (document items).length < 2 ^ 32) :
    (∃ b r, s.header env = some (b, r) ∧
      r.frameRate = (topLevel items ⟨s.frameRate, s.w, s.h, 0, 0⟩).frameRate ∧
      r.w = (topLevel items ⟨s.frameRate, s.w, s.h, 0, 0⟩).w ∧
      r.h = (topLevel items ⟨s.frameRate, s.w, s.h, 0, 0⟩).h ∧
      (b = true →
        r.frameCnt = (topLevel items ⟨s.frameRate, s.w, s.h, 0, 0⟩).endFrame -
          (topLevel items ⟨s.frameRate, s.w, s.h, 0, 0⟩).startFrame ∧
        r.segmentEnd = r.frameCnt)) ∧
    (∀ (t : LottieLoader) b r, t.header env = some (b, r) →
      (b = false ↔ r.frameRate < env.FLOAT_EPSILON)) ∧
    (∀ p d st, d ≠ 1 →
      scanIter p d st = Iter.stop ∨ ∃ p' d', scanIter p d st = Iter.next p' d' st) := by
  refine ⟨?_, ?_, ?_⟩
  · have hs := scan_document items ⟨s.frameRate, s.w, s.h, 0, 0⟩ hw hb
    unfold LottieLoader.header
    rw [if_neg hth, hc]
    simp only [hs]
    split_ifs with hlt
    · exact ⟨false, _, rfl, rfl, rfl, rfl, fun h => (by cases h)⟩
    · exact ⟨true, _, rfl, rfl, rfl, rfl, fun _ => ⟨rfl, rfl⟩⟩
  · intro t b r h
    unfold LottieLoader.header at h
    rw [if_neg hth] at h
    cases hx : t.content with
    | none => rw [hx] at h; cases h
    | some text =>
      rw [hx] at h
      simp only at h
      cases hq : quickScan (text.length + 1) text 0 ⟨t.frameRate, t.w, t.h, 0, 0⟩ with
      | nullDeref => rw [hq] at h; cases h
      | outOfFuel => rw [hq] at h; cases h
      | finished st =>
        rw [hq] at h
        simp only at h
        split_ifs at h with hlt
        · simp only [Option.some.injEq, Prod.mk.injEq] at h
          rw [← h.1, ← h.2]
          exact ⟨fun _ => hlt, fun _ => rfl⟩
        · simp only [Option.some.injEq, Prod.mk.injEq] at h
          rw [← h.1, ← h.2]
          exact ⟨fun hh => (by cases hh), fun hh => absurd hh hlt⟩
  · intro p d st hd
    cases p with
    | nil => exact Or.inl rfl
    | cons c rest =>
      right
      by_cases h1 : c = Char.ofNat 123
      · subst h1
        exact ⟨_, _, scanIter_open rest d st⟩
      by_cases h2 : c = Char.ofNat 125
      · subst h2
        exact ⟨_, _, scanIter_close rest d st⟩
      exact ⟨_, _, scanIter_deep c rest d st h1 h2 hd⟩

/-- The amended C13 on an object with the five fields and, between them, a nested object
that repeats "fr", "ip" and "w": the scan stores 30 fps, 100 x 50 and 60 frames. -/
theorem header_top_level_witness :
    ∃ r, ({ LottieLoader.init with content := some (document sampleItems) } :
        LottieLoader).header envAsync = some (true, r) ∧
      r.frameRate = 30 ∧ r.w = 100 ∧ r.h = 50 ∧ r.frameCnt = 60 ∧ r.segmentEnd = 60 := by
  obtain ⟨b, r, h1, h2, h3, h4, h5⟩ := (header_top_level envAsync
    { LottieLoader.init with content := some (document sampleItems) } sampleItems
    (by decide) rfl (by decide!) (by decide!)).1
  have hb : b = true := by
    have h6 : ({ LottieLoader.init with content := some (document sampleItems) } :
        LottieLoader).header envAsync = some (b, r) := h1
    have h7 : (({ LottieLoader.init with content := some (document sampleItems) } :
        LottieLoader).header envAsync).map Prod.fst = some true := by decide!
    rw [h6] at h7
    simpa using h7
  subst hb
  obtain ⟨h8, h9⟩ := h5 rfl
  refine ⟨r, h1, h2.trans (by decide!), h3.trans (by decide!), h4.trans (by decide!),
    h8.trans (by decide!), h9.trans (h8.trans (by decide!))⟩

end Lottie

namespace WebP

/-! ## Decode buffers: arithmetic facts -/

theorem wrap32_id {x : ℤ} (h1 : -2 ^ 31 ≤ x) (h2 : x < 2 ^ 31) : wrap32 x = x := by
  unfold wrap32
  omega

theorem u64_id {x : ℤ} (h1 : 0 ≤ x) (h2 : x < 2 ^ 64) : u64 x = x := by
  unfold u64
  omega

theorem abs32_id {x : ℤ} (h1 : 0 ≤ x) (h2 : x < 2 ^ 31) : abs32 x = x := by
  unfold abs32
  rw [abs_of_nonneg h1]
  exact wrap32_id (by omega) h2

theorem tdiv_two {x : ℤ} (h : 0 ≤ x) : x.tdiv 2 = x / 2 :=
  Int.tdiv_eq_ediv h (by decide)

theorem bpp_pos {m : ℤ} (h : IsValidColorspace m = true) : 0 < bpp m := by
  unfold IsValidColorspace MODE_RGB MODE_LAST at h
  simp only [decide_eq_true_eq] at h
  obtain ⟨h1, h2⟩ := h
  interval_cases m <;> decide

theorem bpp_yuv {m : ℤ} (h : IsValidColorspace m = true) (h2 : WebPIsRGBMode m = false) :
    bpp m = 1 ∧ (m = MODE_YUV ∨ m = MODE_YUVA) := by
  unfold IsValidColorspace MODE_RGB MODE_LAST at h
  unfold WebPIsRGBMode MODE_YUV at h2
  simp only [decide_eq_true_eq, decide_eq_false_iff_not] at h h2
  obtain ⟨h1, h3⟩ := h
  have : m = 11 ∨ m = 12 := by omega
  rcases this with rfl | rfl <;> decide

theorem mul_small {a c : ℤ} (ha : 0 ≤ a) (ha2 : a < 2 ^ 31) (hc : 0 ≤ c) (hc2 : c < 2 ^ 31) :
    0 ≤ a * c ∧ a * c < 2 ^ 62 := by
  refine ⟨mul_nonneg ha hc, ?_⟩
  have h1 : a * c ≤ (2 ^ 31 - 1) * (2 ^ 31 - 1) :=
    mul_le_mul (by omega) (by omega) hc (by norm_num)
  have h2 : ((2 : ℤ) ^ 31 - 1) * (2 ^ 31 - 1) < 2 ^ 62 := by norm_num
  omega

theorem u64_mul {a c : ℤ} (ha : 0 ≤ a) (ha2 : a < 2 ^ 31) (hc : 0 ≤ c) (hc2 : c < 2 ^ 31) :
    u64 (u64 a * u64 c) = a * c := by
  rw [u64_id ha (by omega), u64_id hc (by omega)]
  have h := mul_small ha ha2 hc hc2
  exact u64_id h.1 (by omega)

theorem ldiff_one (m : ℕ) : Nat.ldiff m 1 = m - m % 2 := by
  unfold Nat.ldiff
  unfold Nat.bitwise
  by_cases h0 : m = 0
  · simp [h0]
  · simp only [h0, if_false]
    simp only [show (1:ℕ) ≠ 0 by decide, if_false]
    have h1 : (1:ℕ) / 2 = 0 := by decide
    simp only [h1]
    unfold Nat.bitwise
    by_cases h2 : m / 2 = 0
    · simp [h2]
      omega
    · simp [h2]
      omega

theorem lor_one (m : ℕ) : m ||| 1 = m + 1 - m % 2 := by
  show Nat.lor m 1 = _
  unfold Nat.lor
  unfold Nat.bitwise
  by_cases h0 : m = 0
  · simp [h0]
  · simp only [h0, if_false]
    simp only [show (1:ℕ) ≠ 0 by decide, if_false]
    have h1 : (1:ℕ) / 2 = 0 := by decide
    simp only [h1]
    unfold Nat.bitwise
    by_cases h2 : m / 2 = 0
    · simp [h2]
      omega
    · simp [h2]
      omega

/-- Clearing the lowest bit (`x & ~1`) rounds down to an even number. -/
theorem land_not_one (x : ℤ) : Int.land x (Int.not 1) = x - x % 2 := by
  have hn : Int.not 1 = Int.negSucc 1 := rfl
  rw [hn]
  cases x with
  | ofNat m =>
    show ((Nat.ldiff m 1 : ℕ) : ℤ) = _
    rw [ldiff_one]
    have : m % 2 ≤ m := Nat.mod_le m 2
    simp only [Int.ofNat_eq_coe]
    omega
  | negSucc m =>
    show Int.negSucc (m ||| 1) = _
    rw [lor_one]
    have : m % 2 < 2 := Nat.mod_lt m (by decide)
    simp only [Int.negSucc_eq]
    omega

/-- The test of the crop rectangle in `WebPAllocateDecBuffer`, when the two sums fit
an `int`. -/
theorem crop_test (opt : WebPDecoderOptions) (w h : ℤ)
    (hx : opt.crop_left - opt.crop_left % 2 + opt.crop_width < 2 ^ 31)
    (hy : opt.crop_top - opt.crop_top % 2 + opt.crop_height < 2 ^ 31) :
    (Int.land opt.crop_left (Int.not 1) < 0 ∨ Int.land opt.crop_top (Int.not 1) < 0 ∨
      opt.crop_width ≤ 0 ∨ opt.crop_height ≤ 0 ∨
      wrap32 (Int.land opt.crop_left (Int.not 1) + opt.crop_width) > w ∨
      wrap32 (Int.land opt.crop_top (Int.not 1) + opt.crop_height) > h) ↔
    (opt.crop_left - opt.crop_left % 2 < 0 ∨ opt.crop_top - opt.crop_top % 2 < 0 ∨
      opt.crop_width ≤ 0 ∨ opt.crop_height ≤ 0 ∨
      opt.crop_left - opt.crop_left % 2 + opt.crop_width > w ∨
      opt.crop_top - opt.crop_top % 2 + opt.crop_height > h) := by
  rw [land_not_one, land_not_one]
  by_cases h1 : opt.crop_left - opt.crop_left % 2 < 0
  · simp only [h1, true_or]
  by_cases h2 : opt.crop_top - opt.crop_top % 2 < 0
  · simp only [h2, true_or, or_true]
  by_cases h3 : opt.crop_width ≤ 0
  · simp only [h3, true_or, or_true]
  by_cases h4 : opt.crop_height ≤ 0
  · simp only [h4, true_or, or_true]
  rw [wrap32_id (by omega) hx, wrap32_id (by omega) hy]

/-- On an RGB colorspace a fresh allocation sets the one plane and passes the check. -/
theorem allocate_rgb (malloc : ℤ → ℤ) (b : WebPDecBuffer)
    (hw : 0 < b.width) (hh : 0 < b.height) (hhi : b.height < 2 ^ 31)
    (hmode : IsValidColorspace b.colorspace = true)
    (hext : b.is_external_memory = 0) (hpriv : b.private_memory = 0)
    (hstride : b.width * bpp b.colorspace < 2 ^ 31)
    (hrgb : WebPIsRGBMode b.colorspace = true)
    (halloc : 0 < malloc (b.width * bpp b.colorspace * b.height)) :
    AllocateBuffer malloc b =
      (VP8StatusCode.VP8_STATUS_OK,
        { b with
            private_memory := malloc (b.width * bpp b.colorspace * b.height)
            RGBA :=
              { rgba := malloc (b.width * bpp b.colorspace * b.height)
                stride := b.width * bpp b.colorspace
                size := b.width * bpp b.colorspace * b.height } }) := by
  have hb := bpp_pos hmode
  have hs0 : 0 ≤ b.width * bpp b.colorspace := mul_nonneg hw.le hb.le
  have hs : wrap32 (b.width * bpp b.colorspace) = b.width * bpp b.colorspace :=
    wrap32_id (by omega) hstride
  have hsz := u64_mul hs0 hstride hh.le hhi
  have hsz2 := mul_small hs0 hstride hh.le hhi
  have htot : u64 (u64 (b.width * bpp b.colorspace * b.height + 2 * 0 + 0) * 1) =
      b.width * bpp b.colorspace * b.height := by
    rw [mul_zero, add_zero, add_zero, u64_id hsz2.1 (by omega), mul_one,
      u64_id hsz2.1 (by omega)]
  have hne : malloc (b.width * bpp b.colorspace * b.height) ≠ 0 := by omega
  unfold AllocateBuffer
  simp only [hmode, hrgb, hext, hpriv, hs, hsz, htot, hne, not_lt.mpr hw.le, not_lt.mpr hh.le,
    not_le.mpr hw, not_le.mpr hh, or_self, if_false, and_self, if_true, Bool.true_eq_false,
    false_and, Bool.false_eq_true, or_false]
  unfold CheckDecBuffer
  simp only [hmode, hrgb, hs, hsz, hne, abs32_id hs0 hstride, Bool.not_true, if_false,
    Bool.false_eq_true, le_refl, ge_iff_le, decide_True, Bool.and_self, if_true, ne_eq,
    not_false_eq_true]

/-- On a YUV colorspace a fresh allocation sets the planes one after the other and passes
the check. -/
theorem allocate_yuv (malloc : ℤ → ℤ) (b : WebPDecBuffer)
    (hw : 0 < b.width) (hh : 0 < b.height)
    (hwi : b.width + 1 < 2 ^ 31) (hhi : b.height + 1 < 2 ^ 31)
    (hmode : IsValidColorspace b.colorspace = true)
    (hext : b.is_external_memory = 0) (hpriv : b.private_memory = 0)
    (hyuv : WebPIsRGBMode b.colorspace = false)
    (halloc : 0 < malloc (b.width * b.height +
      2 * ((b.width + 1) / 2 * ((b.height + 1) / 2)) +
      (if b.colorspace = MODE_YUVA then b.width * b.height else 0))) :
    AllocateBuffer malloc b =
      (VP8StatusCode.VP8_STATUS_OK,
        { b with
            private_memory := malloc (b.width * b.height +
              2 * ((b.width + 1) / 2 * ((b.height + 1) / 2)) +
              (if b.colorspace = MODE_YUVA then b.width * b.height else 0))
            YUVA :=
              { y := malloc (b.width * b.height +
                  2 * ((b.width + 1) / 2 * ((b.height + 1) / 2)) +
                  (if b.colorspace = MODE_YUVA then b.width * b.height else 0))
                y_stride := b.width
                y_size := b.width * b.height
                u := malloc (b.width * b.height +
                  2 * ((b.width + 1) / 2 * ((b.height + 1) / 2)) +
                  (if b.colorspace = MODE_YUVA then b.width * b.height else 0)) +
                  b.width * b.height
                u_stride := (b.width + 1) / 2
                u_size := (b.width + 1) / 2 * ((b.height + 1) / 2)
                v := malloc (b.width * b.height +
                  2 * ((b.width + 1) / 2 * ((b.height + 1) / 2)) +
                  (if b.colorspace = MODE_YUVA then b.width * b.height else 0)) +
                  b.width * b.height + (b.width + 1) / 2 * ((b.height + 1) / 2)
                v_stride := (b.width + 1) / 2
                v_size := (b.width + 1) / 2 * ((b.height + 1) / 2)
                a := if b.colorspace = MODE_YUVA then
                    malloc (b.width * b.height +
                      2 * ((b.width + 1) / 2 * ((b.height + 1) / 2)) +
                      (if b.colorspace = MODE_YUVA then b.width * b.height else 0)) +
                      b.width * b.height + 2 * ((b.width + 1) / 2 * ((b.height + 1) / 2))
                  else b.YUVA.a
                a_size := if b.colorspace = MODE_YUVA then b.width * b.height else 0
                a_stride := if b.colorspace = MODE_YUVA then b.width else 0 } }) := by
  obtain ⟨hb, hm⟩ := bpp_yuv hmode hyuv
  have hw1 : wrap32 (b.width + 1) = b.width + 1 := wrap32_id (by omega) hwi
  have hh1 : wrap32 (b.height + 1) = b.height + 1 := wrap32_id (by omega) hhi
  have hwt : (b.width + 1).tdiv 2 = (b.width + 1) / 2 := tdiv_two (by omega)
  have hht : (b.height + 1).tdiv 2 = (b.height + 1) / 2 := tdiv_two (by omega)
  have hs : wrap32 (b.width * 1) = b.width := by
    rw [mul_one]
    exact wrap32_id (by omega) (by omega)
  have hu0 : 0 ≤ (b.width + 1) / 2 := by omega
  have hu1 : (b.width + 1) / 2 < 2 ^ 31 := by omega
  have hv0 : 0 ≤ (b.height + 1) / 2 := by omega
  have hv1 : (b.height + 1) / 2 < 2 ^ 31 := by omega
  have hsz := u64_mul hw.le (show b.width < 2 ^ 31 by omega) hh.le
    (show b.height < 2 ^ 31 by omega)
  have hsz2 := mul_small hw.le (show b.width < 2 ^ 31 by omega) hh.le
    (show b.height < 2 ^ 31 by omega)
  have huv := u64_mul hu0 hu1 hv0 hv1
  have huv2 := mul_small hu0 hu1 hv0 hv1
  have hau0 : abs32 ((b.width + 1) / 2) = (b.width + 1) / 2 := abs32_id hu0 hu1
  have haw : abs32 b.width = b.width := abs32_id hw.le (by omega)
  have hle : (b.width + 1) / 2 ≤ b.width := by omega
  have ha0 : 0 ≤ (if b.colorspace = MODE_YUVA then b.width * b.height else 0) := by
    split
    · exact hsz2.1
    · exact le_refl 0
  have ha1 : (if b.colorspace = MODE_YUVA then b.width * b.height else 0) < 2 ^ 62 := by
    split
    · exact hsz2.2
    · norm_num
  have htot : u64 (u64 (b.width * b.height +
      2 * ((b.width + 1) / 2 * ((b.height + 1) / 2)) +
      (if b.colorspace = MODE_YUVA then b.width * b.height else 0)) * 1) =
      b.width * b.height + 2 * ((b.width + 1) / 2 * ((b.height + 1) / 2)) +
      (if b.colorspace = MODE_YUVA then b.width * b.height else 0) := by
    have h1 := hsz2.1
    have h2 := hsz2.2
    have h3 := huv2.1
    have h4 := huv2.2
    have e1 : u64 (b.width * b.height + 2 * ((b.width + 1) / 2 * ((b.height + 1) / 2)) +
        (if b.colorspace = MODE_YUVA then b.width * b.height else 0)) =
        b.width * b.height + 2 * ((b.width + 1) / 2 * ((b.height + 1) / 2)) +
        (if b.colorspace = MODE_YUVA then b.width * b.height else 0) :=
      u64_id (by omega) (by omega)
    rw [e1, mul_one, e1]
  have hp := halloc
  have hne : malloc (b.width * b.height +
      2 * ((b.width + 1) / 2 * ((b.height + 1) / 2)) +
      (if b.colorspace = MODE_YUVA then b.width * b.height else 0)) ≠ 0 := by omega
  have hnu : malloc (b.width * b.height +
      2 * ((b.width + 1) / 2 * ((b.height + 1) / 2)) +
      (if b.colorspace = MODE_YUVA then b.width * b.height else 0)) +
      b.width * b.height ≠ 0 := by
    have h1 := hsz2.1
    omega
  have hnv : malloc (b.width * b.height +
      2 * ((b.width + 1) / 2 * ((b.height + 1) / 2)) +
      (if b.colorspace = MODE_YUVA then b.width * b.height else 0)) +
      b.width * b.height + (b.width + 1) / 2 * ((b.height + 1) / 2) ≠ 0 := by
    have h1 := hsz2.1
    have h3 := huv2.1
    omega
  have hna : malloc (b.width * b.height +
      2 * ((b.width + 1) / 2 * ((b.height + 1) / 2)) +
      (if b.colorspace = MODE_YUVA then b.width * b.height else 0)) +
      b.width * b.height + 2 * ((b.width + 1) / 2 * ((b.height + 1) / 2)) ≠ 0 := by
    have h1 := hsz2.1
    have h3 := huv2.1
    omega
  unfold AllocateBuffer
  simp only [hmode, hyuv, hext, hpriv, hb, hs, hw1, hh1, hwt, hht, hsz, huv, not_le.mpr hw,
    not_le.mpr hh, or_self, if_false, and_self, if_true, Bool.true_eq_false, true_and,
    Bool.false_eq_true, or_false]
  by_cases hy : b.colorspace = MODE_YUVA
  · simp only [hy, if_true] at htot hne hnu hnv hna ⊢
    simp only [hsz, htot, hne, if_false]
    have hmode2 : IsValidColorspace MODE_YUVA = true := by decide
    have hyuv2 : WebPIsRGBMode MODE_YUVA = false := by decide
    unfold CheckDecBuffer
    simp only [hmode2, hyuv2, hy, hw1, hh1, hwt, hht, hsz, huv, hau0, haw, hne, hnu, hnv, hna,
      hle, Bool.not_true, Bool.not_false, if_false, if_true, Bool.false_eq_true, le_refl,
      ge_iff_le, decide_True, Bool.and_self, ne_eq, not_false_eq_true]
  · simp only [hy, if_false, add_zero] at htot hne hnu hnv hna ⊢
    have hz : u64 (u64 0 * u64 b.height) = 0 := by
      rw [u64_id (le_refl 0) (by norm_num), zero_mul]
      exact u64_id (le_refl 0) (by norm_num)
    simp only [htot, hne, if_false]
    unfold CheckDecBuffer
    simp only [hmode, hyuv, hy, hw1, hh1, hwt, hht, hsz, huv, hau0, haw, hne, hnu, hnv, hna,
      hle, Bool.not_true, Bool.not_false, if_false, if_true, Bool.false_eq_true, le_refl,
      ge_iff_le, decide_True, Bool.and_self, ne_eq, not_false_eq_true]

theorem allocate_status (malloc : ℤ → ℤ) (b : WebPDecBuffer)
    (h : (AllocateBuffer malloc b).1 = VP8StatusCode.VP8_STATUS_OK) :
    CheckDecBuffer (AllocateBuffer malloc b).2 = VP8StatusCode.VP8_STATUS_OK := by
  have hs : ∀ c : WebPDecBuffer,
      (AllocateBuffer malloc c).1 = VP8StatusCode.VP8_STATUS_INVALID_PARAM ∨
      (AllocateBuffer malloc c).1 = VP8StatusCode.VP8_STATUS_OUT_OF_MEMORY ∨
      (AllocateBuffer malloc c).1 = CheckDecBuffer (AllocateBuffer malloc c).2 := by
    intro c
    unfold AllocateBuffer
    simp only
    split_ifs <;>
      first
      | exact Or.inl rfl
      | exact Or.inr (Or.inl rfl)
      | exact Or.inr (Or.inr rfl)
  rcases hs b with h1 | h1 | h1
  · rw [h1] at h
    cases h
  · rw [h1] at h
    cases h
  · rw [← h1]
    exact h

theorem allocate_size (malloc : ℤ → ℤ) (b : WebPDecBuffer) :
    (AllocateBuffer malloc b).2.width = b.width ∧
    (AllocateBuffer malloc b).2.height = b.height := by
  unfold AllocateBuffer
  simp only
  split_ifs <;> exact ⟨rfl, rfl⟩

theorem flip_size (b : WebPDecBuffer) :
    ∃ r, WebPFlipBuffer (some b) = (VP8StatusCode.VP8_STATUS_OK, some r) ∧
      r.width = b.width ∧ r.height = b.height := by
  unfold WebPFlipBuffer
  simp only
  split_ifs <;> exact ⟨_, rfl, rfl, rfl⟩

/-- C19 (counterexample): on the planar YUV colorspace with width 2147483647 and height 2
the row of `w * 1` bytes fits an `int`, but `w + 1` does not: the chroma stride comes out
as -1073741824, the allocator is asked for 2147483646 bytes only, and the allocation
still returns VP8_STATUS_OK, with a luma plane of 4294967294 bytes that ends beyond the
block. -/
theorem allocate_overflows :
    IsValidColorspace MODE_YUV = true ∧
    (2147483647 : ℤ) * bpp MODE_YUV < 2 ^ 31 ∧
    (AllocateBuffer (mallocOnly 2147483646)
      { freshBuffer MODE_YUV with width := 2147483647, height := 2 }).1 =
      VP8StatusCode.VP8_STATUS_OK ∧
    (AllocateBuffer (mallocOnly 2147483646)
      { freshBuffer MODE_YUV with width := 2147483647, height := 2 }).2.YUVA.y_size =
      4294967294 ∧
    (AllocateBuffer (mallocOnly 2147483646)
      { freshBuffer MODE_YUV with width := 2147483647, height := 2 }).2.YUVA.u_stride =
      -1073741824 ∧
    (AllocateBuffer (mallocOnly 2147483646)
      { freshBuffer MODE_YUV with width := 2147483647, height := 2 }).2.YUVA.u =
      4096 + 4294967294 := by
  decide!

/-- C19 (amended): for every width and height above 0, a valid colorspace, no external
and no private memory, a row of `w * kModeBpp[mode]` bytes that fits an `int`, and on the
YUV colorspaces `w + 1` and `h + 1` fitting an `int` as well, an allocation whose block of
`total_size = size + 2 * uv_size + a_size` bytes is granted returns VP8_STATUS_OK: the
buffer it wrote passes `CheckDecBuffer`, the strides and sizes are the stated ones, and
the planes follow one another from the start of the block to its end. -/
theorem allocate_passes_check (malloc : ℤ → ℤ) (b : WebPDecBuffer) (total : ℤ)
    (hw : 0 < b.width) (hh : 0 < b.height) (hhi : b.height < 2 ^ 31)
    (hmode : IsValidColorspace b.colorspace = true)
    (hext : b.is_external_memory = 0) (hpriv : b.private_memory = 0)
    (hstride : b.width * bpp b.colorspace < 2 ^ 31)
    (hyuv : WebPIsRGBMode b.colorspace = false →
      b.width + 1 < 2 ^ 31 ∧ b.height + 1 < 2 ^ 31)
    (htotal : total = b.width * bpp b.colorspace * b.height +
      2 * (if WebPIsRGBMode b.colorspace = false then
        (b.width + 1) / 2 * ((b.height + 1) / 2) else 0) +
      (if b.colorspace = MODE_YUVA then b.width * b.height else 0))
    (halloc : 0 < malloc total) :
    (AllocateBuffer malloc b).1 = VP8StatusCode.VP8_STATUS_OK ∧
    CheckDecBuffer (AllocateBuffer malloc b).2 = VP8StatusCode.VP8_STATUS_OK ∧
    (AllocateBuffer malloc b).2.private_memory = malloc total ∧
    (WebPIsRGBMode b.colorspace = true →
      (AllocateBuffer malloc b).2.RGBA =
        ⟨malloc total, b.width * bpp b.colorspace, total⟩ ∧
      total = b.width * bpp b.colorspace * b.height) ∧
    (WebPIsRGBMode b.colorspace = false →
      (AllocateBuffer malloc b).2.YUVA.y = malloc total ∧
      (AllocateBuffer malloc b).2.YUVA.y_stride = b.width ∧
      (AllocateBuffer malloc b).2.YUVA.y_size = b.width * b.height ∧
      (AllocateBuffer malloc b).2.YUVA.u = malloc total + b.width * b.height ∧
      (AllocateBuffer malloc b).2.YUVA.u_stride = (b.width + 1) / 2 ∧
      (AllocateBuffer malloc b).2.YUVA.u_size = (b.width + 1) / 2 * ((b.height + 1) / 2) ∧
      (AllocateBuffer malloc b).2.YUVA.v =
        (AllocateBuffer malloc b).2.YUVA.u + (AllocateBuffer malloc b).2.YUVA.u_size ∧
      (AllocateBuffer malloc b).2.YUVA.v_stride = (b.width + 1) / 2 ∧
      (AllocateBuffer malloc b).2.YUVA.v_size = (b.width + 1) / 2 * ((b.height + 1) / 2) ∧
      0 ≤ (AllocateBuffer malloc b).2.YUVA.y_size ∧
      0 ≤ (AllocateBuffer malloc b).2.YUVA.u_size ∧
      (b.colorspace = MODE_YUVA →
        (AllocateBuffer malloc b).2.YUVA.a =
          (AllocateBuffer malloc b).2.YUVA.v + (AllocateBuffer malloc b).2.YUVA.v_size ∧
        (AllocateBuffer malloc b).2.YUVA.a_stride = b.width ∧
        (AllocateBuffer malloc b).2.YUVA.a_size = b.width * b.height ∧
        (AllocateBuffer malloc b).2.YUVA.a + (AllocateBuffer malloc b).2.YUVA.a_size =
          malloc total + total) ∧
      (b.colorspace ≠ MODE_YUVA →
        (AllocateBuffer malloc b).2.YUVA.a_size = 0 ∧
        (AllocateBuffer malloc b).2.YUVA.v + (AllocateBuffer malloc b).2.YUVA.v_size =
          malloc total + total)) := by
  cases hr : WebPIsRGBMode b.colorspace with
  | true =>
    simp only [hr, Bool.true_eq_false, if_false, mul_zero, add_zero] at htotal
    have hya : b.colorspace ≠ MODE_YUVA := by
      intro h
      rw [h] at hr
      exact absurd hr (by decide)
    simp only [hya, if_false, add_zero] at htotal
    subst htotal
    have e := allocate_rgb malloc b hw hh hhi hmode hext hpriv hstride hr halloc
    have hst : (AllocateBuffer malloc b).1 = VP8StatusCode.VP8_STATUS_OK := by rw [e]
    refine ⟨hst, allocate_status malloc b hst, ?_, ?_, ?_⟩
    · rw [e]
    · intro _
      refine ⟨?_, rfl⟩
      rw [e]
    · intro h
      cases h
  | false =>
    obtain ⟨hwi, hhj⟩ := hyuv hr
    obtain ⟨hb, _⟩ := bpp_yuv hmode hr
    simp only [hr, if_true, hb, mul_one] at htotal
    subst htotal
    have e := allocate_yuv malloc b hw hh hwi hhj hmode hext hpriv hr halloc
    have hst : (AllocateBuffer malloc b).1 = VP8StatusCode.VP8_STATUS_OK := by rw [e]
    have hsz := mul_small hw.le (show b.width < 2 ^ 31 by omega) hh.le hhi
    have huv := mul_small (show 0 ≤ (b.width + 1) / 2 by omega)
      (show (b.width + 1) / 2 < 2 ^ 31 by omega) (show 0 ≤ (b.height + 1) / 2 by omega)
      (show (b.height + 1) / 2 < 2 ^ 31 by omega)
    refine ⟨hst, allocate_status malloc b hst, ?_, ?_, ?_⟩
    · rw [e]
    · intro h
      cases h
    · intro _
      rw [e]
      refine ⟨rfl, rfl, rfl, rfl, rfl, rfl, rfl, rfl, rfl, hsz.1, huv.1, ?_, ?_⟩
      · intro hy
        simp only [hy, if_true]
        refine ⟨?_, ?_, ?_, ?_⟩ <;> first | trivial | ring
      · intro hy
        simp only [hy, if_false, add_zero]
        refine ⟨?_, ?_⟩ <;> first | trivial | ring

theorem allocate_passes_check_witness :
    (AllocateBuffer mallocAny { freshBuffer MODE_YUVA with width := 5, height := 3 }).1 =
      VP8StatusCode.VP8_STATUS_OK ∧
    (AllocateBuffer mallocAny { freshBuffer MODE_YUVA with width := 5, height := 3 }).2.YUVA.a +
      (AllocateBuffer mallocAny
        { freshBuffer MODE_YUVA with width := 5, height := 3 }).2.YUVA.a_size =
      mallocAny 42 + 42 :=
  have h := allocate_passes_check mallocAny
    { freshBuffer MODE_YUVA with width := 5, height := 3 } 42
    (by decide) (by decide) (by decide) (by decide) rfl rfl (by decide)
    (fun _ => ⟨by decide, by decide⟩) (by decide!) (by decide)
  ⟨h.1, (h.2.2.2.2 (by decide)).2.2.2.2.2.2.2.2.2.2.2.1 rfl |>.2.2.2⟩

/-- C20: the test `x + cw > w || y + ch > h` of the crop rectangle (out of frame
boundary) is defeated by `int` overflow. For a 100 x 100 picture and a crop rectangle at
(2, 0) of width 2147483647 and height 100 the sum `x + cw` leaves the `int` range and the
test is false: the rectangle is accepted, although it extends beyond the picture, and
2147483647 is written to the width of the buffer, whether the allocation that follows
succeeds or fails (VP8_STATUS_OUT_OF_MEMORY, not VP8_STATUS_INVALID_PARAM). -/
theorem crop_beyond_frame :
    (2 : ℤ) + 2147483647 > 100 ∧
    (WebPAllocateDecBuffer mallocAny 100 100 (some ⟨1, 2, 0, 2147483647, 100, 0, 0, 0, 0⟩)
      (some (freshBuffer 1))).1 ≠ VP8StatusCode.VP8_STATUS_INVALID_PARAM ∧
    (WebPAllocateDecBuffer mallocAny 100 100 (some ⟨1, 2, 0, 2147483647, 100, 0, 0, 0, 0⟩)
      (some (freshBuffer 1))).2 ≠ some (freshBuffer 1) ∧
    ((WebPAllocateDecBuffer mallocAny 100 100 (some ⟨1, 2, 0, 2147483647, 100, 0, 0, 0, 0⟩)
      (some (freshBuffer 1))).2.map fun r => (r.width, r.height)) =
      some (2147483647, 100) ∧
    (WebPAllocateDecBuffer (fun _ => 0) 100 100
      (some ⟨1, 2, 0, 2147483647, 100, 0, 0, 0, 0⟩) (some (freshBuffer 1))).1 =
      VP8StatusCode.VP8_STATUS_OUT_OF_MEMORY ∧
    ((WebPAllocateDecBuffer (fun _ => 0) 100 100
      (some ⟨1, 2, 0, 2147483647, 100, 0, 0, 0, 0⟩) (some (freshBuffer 1))).2.map
        fun r => (r.width, r.height)) = some (2147483647, 100) := by
  decide!

/-- Where the sums of the crop origin (rounded down to even) and the crop size fit an
`int`, `WebPAllocateDecBuffer` does what C20 states: it returns VP8_STATUS_INVALID_PARAM
and leaves `out` as it was when `out` is null, `w <= 0` or `h <= 0`, when cropping is
enabled and the rectangle has a negative origin, a size that is not positive or extends
beyond `w x h`, or when scaling is enabled with a scaled width or height that is not
positive; otherwise the width and height of `out` are the scaled size if scaling is
enabled, else the crop size if cropping is enabled, else `(w, h)`. -/
theorem allocate_dec_buffer_size (malloc : ℤ → ℤ) (w h : ℤ)
    (options : Option WebPDecoderOptions) (out : Option WebPDecBuffer)
    (hov : ∀ opt, options = some opt → opt.use_cropping ≠ 0 →
      opt.crop_left - opt.crop_left % 2 + opt.crop_width < 2 ^ 31 ∧
      opt.crop_top - opt.crop_top % 2 + opt.crop_height < 2 ^ 31) :
    (out = none ∨ w ≤ 0 ∨ h ≤ 0 →
      WebPAllocateDecBuffer malloc w h options out =
        (VP8StatusCode.VP8_STATUS_INVALID_PARAM, out)) ∧
    (∀ opt, options = some opt → opt.use_cropping ≠ 0 →
      (opt.crop_left - opt.crop_left % 2 < 0 ∨ opt.crop_top - opt.crop_top % 2 < 0 ∨
        opt.crop_width ≤ 0 ∨ opt.crop_height ≤ 0 ∨
        opt.crop_left - opt.crop_left % 2 + opt.crop_width > w ∨
        opt.crop_top - opt.crop_top % 2 + opt.crop_height > h) →
      WebPAllocateDecBuffer malloc w h options out =
        (VP8StatusCode.VP8_STATUS_INVALID_PARAM, out)) ∧
    (∀ opt, options = some opt → opt.use_scaling ≠ 0 →
      (opt.scaled_width ≤ 0 ∨ opt.scaled_height ≤ 0) →
      WebPAllocateDecBuffer malloc w h options out =
        (VP8StatusCode.VP8_STATUS_INVALID_PARAM, out)) ∧
    (∀ o, out = some o → 0 < w → 0 < h →
      (∀ opt, options = some opt →
        (opt.use_cropping ≠ 0 →
          ¬(opt.crop_left - opt.crop_left % 2 < 0 ∨ opt.crop_top - opt.crop_top % 2 < 0 ∨
            opt.crop_width ≤ 0 ∨ opt.crop_height ≤ 0 ∨
            opt.crop_left - opt.crop_left % 2 + opt.crop_width > w ∨
            opt.crop_top - opt.crop_top % 2 + opt.crop_height > h)) ∧
        (opt.use_scaling ≠ 0 → ¬(opt.scaled_width ≤ 0 ∨ opt.scaled_height ≤ 0))) →
      ∃ r, (WebPAllocateDecBuffer malloc w h options out).2 = some r ∧
        (r.width, r.height) =
          (match options with
          | none => (w, h)
          | some opt =>
            if opt.use_scaling ≠ 0 then (opt.scaled_width, opt.scaled_height)
            else if opt.use_cropping ≠ 0 then (opt.crop_width, opt.crop_height)
            else (w, h))) := by
  have key : ∀ (o : WebPDecBuffer) (tw th : ℤ) (fl : Bool),
      ∃ r, (if (AllocateBuffer malloc { o with width := tw, height := th }).1 ≠
            VP8StatusCode.VP8_STATUS_OK then
          ((AllocateBuffer malloc { o with width := tw, height := th }).1,
            some (AllocateBuffer malloc { o with width := tw, height := th }).2)
        else if fl = true then
          WebPFlipBuffer (some (AllocateBuffer malloc { o with width := tw, height := th }).2)
        else ((AllocateBuffer malloc { o with width := tw, height := th }).1,
          some (AllocateBuffer malloc { o with width := tw, height := th }).2)).2 = some r ∧
        (r.width, r.height) = (tw, th) := by
    intro o tw th fl
    obtain ⟨a1, a2⟩ := allocate_size malloc { o with width := tw, height := th }
    obtain ⟨r, f1, f2, f3⟩ :=
      flip_size (AllocateBuffer malloc { o with width := tw, height := th }).2
    split_ifs
    · exact ⟨_, rfl, by rw [a1, a2]⟩
    · refine ⟨r, by rw [f1], ?_⟩
      rw [f2, f3, a1, a2]
    · exact ⟨_, rfl, by rw [a1, a2]⟩
  refine ⟨?_, ?_, ?_, ?_⟩
  · intro hbad
    cases out with
    | none => rfl
    | some o =>
      have hwh : w ≤ 0 ∨ h ≤ 0 := by
        rcases hbad with hb | hb
        · cases hb
        · exact hb
      unfold WebPAllocateDecBuffer
      simp only [hwh, if_true]
  · intro opt hopt hc hrect
    subst hopt
    obtain ⟨hx, hy⟩ := hov opt rfl hc
    have ht := (crop_test opt w h hx hy).mpr hrect
    cases out with
    | none => rfl
    | some o =>
      unfold WebPAllocateDecBuffer
      by_cases hwh : w ≤ 0 ∨ h ≤ 0
      · simp only [hwh, if_true]
      · simp only [hwh, if_false, hc, ne_eq, not_false_eq_true, if_true, ht]
  · intro opt hopt hs hsc
    subst hopt
    cases out with
    | none => rfl
    | some o =>
      unfold WebPAllocateDecBuffer
      by_cases hwh : w ≤ 0 ∨ h ≤ 0
      · simp only [hwh, if_true]
      · simp only [hwh, if_false]
        by_cases hc : opt.use_cropping = 0
        · simp only [hc, hs, hsc, ne_eq, not_true_eq_false, not_false_eq_true, if_false,
            if_true]
        · by_cases ht : Int.land opt.crop_left (Int.not 1) < 0 ∨
              Int.land opt.crop_top (Int.not 1) < 0 ∨ opt.crop_width ≤ 0 ∨
              opt.crop_height ≤ 0 ∨
              wrap32 (Int.land opt.crop_left (Int.not 1) + opt.crop_width) > w ∨
              wrap32 (Int.land opt.crop_top (Int.not 1) + opt.crop_height) > h
          · simp only [hc, ht, ne_eq, not_false_eq_true, if_true]
          · simp only [hc, ht, hs, hsc, ne_eq, not_false_eq_true, if_false, if_true]
  · intro o ho hw hh hopt
    subst ho
    cases options with
    | none =>
      unfold WebPAllocateDecBuffer
      simp only [not_le.mpr hw, not_le.mpr hh, or_self, if_false]
      exact key o w h false
    | some opt =>
      obtain ⟨hcr, hsc⟩ := hopt opt rfl
      unfold WebPAllocateDecBuffer
      simp only [not_le.mpr hw, not_le.mpr hh, or_self, if_false]
      by_cases hs : opt.use_scaling = 0
      · by_cases hc : opt.use_cropping = 0
        · simp only [hs, hc, ne_eq, not_true_eq_false, if_false]
          by_cases hf : opt.flip = 0
          · simp only [hf, not_true_eq_false, if_false]
            exact key o w h false
          · simp only [hf, not_false_eq_true, if_true]
            exact key o w h true
        · obtain ⟨hx, hy⟩ := hov opt rfl hc
          have ht := (not_congr (crop_test opt w h hx hy)).mpr (hcr hc)
          simp only [hs, hc, ne_eq, not_true_eq_false, not_false_eq_true, if_false, if_true, ht]
          by_cases hf : opt.flip = 0
          · simp only [hf, not_true_eq_false, if_false]
            exact key o opt.crop_width opt.crop_height false
          · simp only [hf, not_false_eq_true, if_true]
            exact key o opt.crop_width opt.crop_height true
      · have hsc2 := hsc hs
        by_cases hc : opt.use_cropping = 0
        · simp only [hs, hc, ne_eq, not_true_eq_false, not_false_eq_true, if_false, if_true, hsc2]
          by_cases hf : opt.flip = 0
          · simp only [hf, not_true_eq_false, if_false]
            exact key o opt.scaled_width opt.scaled_height false
          · simp only [hf, not_false_eq_true, if_true]
            exact key o opt.scaled_width opt.scaled_height true
        · obtain ⟨hx, hy⟩ := hov opt rfl hc
          have ht := (not_congr (crop_test opt w h hx hy)).mpr (hcr hc)
          simp only [hs, hc, ne_eq, not_true_eq_false, not_false_eq_true, if_false, if_true, ht,
            hsc2]
          by_cases hf : opt.flip = 0
          · simp only [hf, not_true_eq_false, if_false]
            exact key o opt.scaled_width opt.scaled_height false
          · simp only [hf, not_false_eq_true, if_true]
            exact key o opt.scaled_width opt.scaled_height true

theorem allocate_dec_buffer_size_witness :
    WebPAllocateDecBuffer mallocAny 100 100 (some ⟨1, 3, 0, 200, 100, 0, 0, 0, 0⟩)
        (some (freshBuffer 1)) =
      (VP8StatusCode.VP8_STATUS_INVALID_PARAM, some (freshBuffer 1)) ∧
    ∃ r, (WebPAllocateDecBuffer mallocAny 100 100 (some ⟨1, 3, 0, 50, 60, 0, 0, 0, 0⟩)
        (some (freshBuffer 1))).2 = some r ∧ (r.width, r.height) = (50, 60) :=
  ⟨(allocate_dec_buffer_size mallocAny 100 100 (some ⟨1, 3, 0, 200, 100, 0, 0, 0, 0⟩)
      (some (freshBuffer 1))
      (fun opt ho _ => by
        cases ho
        exact ⟨by decide, by decide⟩)).2.1 _ rfl (by decide) (by decide),
    (allocate_dec_buffer_size mallocAny 100 100 (some ⟨1, 3, 0, 50, 60, 0, 0, 0, 0⟩)
      (some (freshBuffer 1))
      (fun opt ho _ => by
        cases ho
        exact ⟨by decide, by decide⟩)).2.2.2 _ rfl (by decide) (by decide)
      (fun opt ho => by
        cases ho
        exact ⟨fun _ => by decide, fun hs => absurd rfl hs⟩)⟩

/-! ## Flipping a buffer -/

theorem planeFits_iff (rows p s : ℤ) :
    planeFits rows p s = true ↔
      (-2 ^ 31 < s ∧ s < 2 ^ 31 ∧ -2 ^ 31 < rows * s ∧ rows * s < 2 ^ 31 ∧
        (p ≠ 0 → p + rows * s ≠ 0)) := by
  unfold planeFits
  exact decide_eq_true_iff

theorem abs32_neg (s : ℤ) : abs32 (-s) = abs32 s := by
  unfold abs32
  rw [abs_neg]

/-- One plane under the two moves of a flip and of the flip after it. -/
theorem plane_moves {rows p s : ℤ} (h : planeFits rows p s = true) :
    wrap32 (rows * s) = rows * s ∧ wrap32 (-s) = -s ∧
    wrap32 (rows * -s) = -(rows * s) ∧ wrap32 (- -s) = s ∧
    p + rows * s + -(rows * s) = p ∧ (p ≠ 0 → p + rows * s ≠ 0) := by
  obtain ⟨h1, h2, h3, h4, h5⟩ := (planeFits_iff rows p s).mp h
  refine ⟨wrap32_id (by omega) h4, wrap32_id (by omega) (by omega), ?_, ?_, by ring, h5⟩
  · rw [mul_neg]
    exact wrap32_id (by omega) (by omega)
  · rw [neg_neg]
    exact wrap32_id (by omega) h2

theorem flip_rgb (b : WebPDecBuffer) (hr : WebPIsRGBMode b.colorspace = true)
    (hh : wrap32 (b.height - 1) = b.height - 1)
    (hp : planeFits (b.height - 1) b.RGBA.rgba b.RGBA.stride = true) :
    WebPFlipBuffer (some b) =
      (VP8StatusCode.VP8_STATUS_OK,
        some { b with
          RGBA :=
            { b.RGBA with
                rgba := b.RGBA.rgba + (b.height - 1) * b.RGBA.stride
                stride := -b.RGBA.stride } }) := by
  obtain ⟨e1, e2, _⟩ := plane_moves hp
  unfold WebPFlipBuffer
  simp only [hr, if_true, hh, e1, e2]

theorem flip_yuv (b : WebPDecBuffer) (hr : WebPIsRGBMode b.colorspace = false)
    (hh : wrap32 (b.height - 1) = b.height - 1)
    (hy : planeFits (b.height - 1) b.YUVA.y b.YUVA.y_stride = true)
    (hu : planeFits ((b.height - 1) / 2) b.YUVA.u b.YUVA.u_stride = true)
    (hv : planeFits ((b.height - 1) / 2) b.YUVA.v b.YUVA.v_stride = true)
    (ha : b.YUVA.a ≠ 0 → planeFits (b.height - 1) b.YUVA.a b.YUVA.a_stride = true) :
    WebPFlipBuffer (some b) =
      (VP8StatusCode.VP8_STATUS_OK,
        some { b with
          YUVA :=
            { b.YUVA with
                y := b.YUVA.y + (b.height - 1) * b.YUVA.y_stride
                y_stride := -b.YUVA.y_stride
                u := b.YUVA.u + (b.height - 1) / 2 * b.YUVA.u_stride
                u_stride := -b.YUVA.u_stride
                v := b.YUVA.v + (b.height - 1) / 2 * b.YUVA.v_stride
                v_stride := -b.YUVA.v_stride
                a := if b.YUVA.a ≠ 0 then b.YUVA.a + (b.height - 1) * b.YUVA.a_stride
                  else b.YUVA.a
                a_stride := if b.YUVA.a ≠ 0 then -b.YUVA.a_stride else b.YUVA.a_stride } }) := by
  obtain ⟨y1, y2, _⟩ := plane_moves hy
  obtain ⟨u1, u2, _⟩ := plane_moves hu
  obtain ⟨v1, v2, _⟩ := plane_moves hv
  unfold WebPFlipBuffer
  simp only [hr, Bool.false_eq_true, if_false, hh, y1, y2, u1, u2, v1, v2]
  by_cases h0 : b.YUVA.a = 0
  · simp only [h0, ne_eq, not_true_eq_false, if_false]
  · obtain ⟨a1, a2, _⟩ := plane_moves (ha h0)
    simp only [h0, ne_eq, not_false_eq_true, if_true, a1, a2]

theorem flipFits_iff (b : WebPDecBuffer) :
    flipFits b = true ↔
      (wrap32 (b.height - 1) = b.height - 1 ∧
        (WebPIsRGBMode b.colorspace = true →
          planeFits (b.height - 1) b.RGBA.rgba b.RGBA.stride = true) ∧
        (WebPIsRGBMode b.colorspace = false →
          planeFits (b.height - 1) b.YUVA.y b.YUVA.y_stride = true ∧
          planeFits ((b.height - 1) / 2) b.YUVA.u b.YUVA.u_stride = true ∧
          planeFits ((b.height - 1) / 2) b.YUVA.v b.YUVA.v_stride = true ∧
          (b.YUVA.a ≠ 0 → planeFits (b.height - 1) b.YUVA.a b.YUVA.a_stride = true))) := by
  unfold flipFits
  have hw : wrap32 (b.height - 1) = b.height - 1 ↔
      (-2 ^ 31 ≤ b.height - 1 ∧ b.height - 1 < 2 ^ 31) := by
    unfold wrap32
    omega
  rw [hw]
  cases hr : WebPIsRGBMode b.colorspace with
  | true =>
    simp only [if_true, Bool.and_eq_true, decide_eq_true_eq, forall_const, Bool.true_eq_false,
      false_implies, and_true]
  | false =>
    simp only [Bool.false_eq_true, if_false, Bool.and_eq_true, decide_eq_true_eq,
      Bool.or_eq_true, forall_const, false_implies, true_and, ne_eq]
    constructor
    · rintro ⟨h1, ⟨⟨h2, h3⟩, h4⟩, h5⟩
      exact ⟨h1, h2, h3, h4, fun h0 => h5.resolve_left h0⟩
    · rintro ⟨h1, h2, h3, h4, h5⟩
      refine ⟨h1, ⟨⟨h2, h3⟩, h4⟩, ?_⟩
      by_cases h0 : b.YUVA.a = 0
      · exact Or.inl h0
      · exact Or.inr (h5 h0)

theorem status_ok_iff (c : Bool) :
    (if c = true then VP8StatusCode.VP8_STATUS_OK
      else VP8StatusCode.VP8_STATUS_INVALID_PARAM) = VP8StatusCode.VP8_STATUS_OK ↔
      c = true := by
  cases c <;> simp

theorem check_rgb (b : WebPDecBuffer) (hr : WebPIsRGBMode b.colorspace = true) :
    CheckDecBuffer b = VP8StatusCode.VP8_STATUS_OK ↔
      (IsValidColorspace b.colorspace = true ∧
        u64 (u64 (abs32 b.RGBA.stride) * u64 b.height) ≤ b.RGBA.size ∧
        wrap32 (b.width * bpp b.colorspace) ≤ abs32 b.RGBA.stride ∧ b.RGBA.rgba ≠ 0) := by
  unfold CheckDecBuffer
  simp only []
  rw [status_ok_iff]
  cases hv : IsValidColorspace b.colorspace with
  | false => simp
  | true =>
    simp only [hr, Bool.not_true, Bool.false_eq_true, if_false, ge_iff_le, true_and,
      Bool.and_eq_true, decide_eq_true_eq, and_assoc]

theorem check_yuv (b : WebPDecBuffer) (hr : WebPIsRGBMode b.colorspace = false) :
    CheckDecBuffer b = VP8StatusCode.VP8_STATUS_OK ↔
      (IsValidColorspace b.colorspace = true ∧
        u64 (u64 (abs32 b.YUVA.y_stride) * u64 b.height) ≤ b.YUVA.y_size ∧
        u64 (u64 (abs32 b.YUVA.u_stride) * u64 ((wrap32 (b.height + 1)).tdiv 2)) ≤
          b.YUVA.u_size ∧
        u64 (u64 (abs32 b.YUVA.v_stride) * u64 ((wrap32 (b.height + 1)).tdiv 2)) ≤
          b.YUVA.v_size ∧
        b.width ≤ abs32 b.YUVA.y_stride ∧
        (wrap32 (b.width + 1)).tdiv 2 ≤ abs32 b.YUVA.u_stride ∧
        (wrap32 (b.width + 1)).tdiv 2 ≤ abs32 b.YUVA.v_stride ∧
        b.YUVA.y ≠ 0 ∧ b.YUVA.u ≠ 0 ∧ b.YUVA.v ≠ 0 ∧
        (b.colorspace = MODE_YUVA →
          b.width ≤ abs32 b.YUVA.a_stride ∧
          u64 (u64 (abs32 b.YUVA.a_stride) * u64 b.height) ≤ b.YUVA.a_size ∧
          b.YUVA.a ≠ 0)) := by
  unfold CheckDecBuffer
  simp only []
  rw [status_ok_iff]
  cases hv : IsValidColorspace b.colorspace with
  | false => simp
  | true =>
    simp only [hr, Bool.not_true, Bool.not_false, Bool.false_eq_true, if_false, if_true,
      ge_iff_le, true_and]
    by_cases hm : b.colorspace = MODE_YUVA
    · simp only [hm, if_true, forall_const, Bool.and_eq_true, decide_eq_true_eq, and_assoc]
    · simp only [hm, if_false, false_implies, and_true, Bool.and_eq_true, decide_eq_true_eq,
        and_assoc]

/-- C21 (counterexample): two buffers that pass `CheckDecBuffer`. On the RGBA buffer of
16384 x 32769 pixels the offset `(height - 1) * stride` is 2^31 and leaves the `int`
range: one flip moves the pointer back by 2^31 bytes and not to the start of the last
row, and the second flip leaves it 2^32 bytes before the place it came from. On the YUV
buffer without alpha plane the flip leaves the alpha stride 7 as it is. -/
theorem flip_not_involution :
    CheckDecBuffer tallBuffer = VP8StatusCode.VP8_STATUS_OK ∧
    ((WebPFlipBuffer (some tallBuffer)).2.map fun r => r.RGBA.rgba) =
      some (tallBuffer.RGBA.rgba - 2 ^ 31) ∧
    tallBuffer.RGBA.rgba + (tallBuffer.height - 1) * tallBuffer.RGBA.stride =
      tallBuffer.RGBA.rgba + 2 ^ 31 ∧
    ((WebPFlipBuffer (WebPFlipBuffer (some tallBuffer)).2).2.map fun r =>
      (r.RGBA.rgba, r.RGBA.stride)) = some (tallBuffer.RGBA.rgba - 2 ^ 32, 65536) ∧
    CheckDecBuffer plainYuv = VP8StatusCode.VP8_STATUS_OK ∧
    plainYuv.YUVA.a_stride = 7 ∧
    ((WebPFlipBuffer (some plainYuv)).2.map fun r => r.YUVA.a_stride) = some 7 := by
  decide!

/-- C21 (amended): for every buffer that is not null (RGB or YUV(A) colorspace, any
height) whose flip stays inside `int` arithmetic (`flipFits`: `height - 1`, the negated
strides and the offsets of the moved planes fit an `int`, and no plane pointer is moved
to the null address), `WebPFlipBuffer` returns VP8_STATUS_OK; it negates the stride of
every plane it moves and moves the pointer to the start of the last row of the plane,
`height - 1` rows on, and `(height - 1) >> 1` rows on for the two chroma planes, which is
their last row when the height is positive; the alpha plane is moved when its pointer is
not null and left as it is otherwise; a second flip gives back the buffer as it was; and
a buffer that passes `CheckDecBuffer` passes it after the flip. -/
theorem flip_involution (b : WebPDecBuffer) (hf : flipFits b = true) :
    ∃ r, WebPFlipBuffer (some b) = (VP8StatusCode.VP8_STATUS_OK, some r) ∧
      WebPFlipBuffer (some r) = (VP8StatusCode.VP8_STATUS_OK, some b) ∧
      (WebPIsRGBMode b.colorspace = true →
        r.RGBA.stride = -b.RGBA.stride ∧
        r.RGBA.rgba = b.RGBA.rgba + (b.height - 1) * b.RGBA.stride) ∧
      (WebPIsRGBMode b.colorspace = false →
        r.YUVA.y_stride = -b.YUVA.y_stride ∧
        r.YUVA.y = b.YUVA.y + (b.height - 1) * b.YUVA.y_stride ∧
        r.YUVA.u_stride = -b.YUVA.u_stride ∧
        r.YUVA.u = b.YUVA.u + (b.height - 1) / 2 * b.YUVA.u_stride ∧
        r.YUVA.v_stride = -b.YUVA.v_stride ∧
        r.YUVA.v = b.YUVA.v + (b.height - 1) / 2 * b.YUVA.v_stride ∧
        (b.YUVA.a ≠ 0 →
          r.YUVA.a_stride = -b.YUVA.a_stride ∧
          r.YUVA.a = b.YUVA.a + (b.height - 1) * b.YUVA.a_stride) ∧
        (b.YUVA.a = 0 → r.YUVA.a = 0 ∧ r.YUVA.a_stride = b.YUVA.a_stride)) ∧
      (0 < b.height → (b.height - 1) / 2 = (b.height + 1) / 2 - 1) ∧
      (CheckDecBuffer b = VP8StatusCode.VP8_STATUS_OK →
        CheckDecBuffer r = VP8StatusCode.VP8_STATUS_OK) := by
  obtain ⟨hh, hrgb, hyuv⟩ := (flipFits_iff b).mp hf
  obtain ⟨cs, w, h, ext, ⟨rgba, stride, size⟩,
    ⟨y, u, v, a, sy, su, sv, sa, zy, zu, zv, za⟩, pm⟩ := b
  simp only at hh hrgb hyuv ⊢
  have hrows : 0 < h → (h - 1) / 2 = (h + 1) / 2 - 1 := by
    intro h0
    omega
  cases hr : WebPIsRGBMode cs with
  | true =>
    have hp := hrgb hr
    obtain ⟨e1, e2, e3, e4, e5, e6⟩ := plane_moves hp
    refine ⟨_, flip_rgb _ hr hh hp, ?_, fun _ => ⟨rfl, rfl⟩, ?_, hrows, ?_⟩
    · unfold WebPFlipBuffer
      simp only [hr, if_true, hh, e3, e4, e5]
    · intro hx
      cases hx
    · intro hc
      rw [check_rgb _ hr] at hc
      rw [check_rgb _ hr]
      simp only [abs32_neg] at hc ⊢
      exact ⟨hc.1, hc.2.1, hc.2.2.1, e6 hc.2.2.2⟩
  | false =>
    obtain ⟨hy, hu, hv, ha⟩ := hyuv hr
    obtain ⟨y1, y2, y3, y4, y5, y6⟩ := plane_moves hy
    obtain ⟨u1, u2, u3, u4, u5, u6⟩ := plane_moves hu
    obtain ⟨v1, v2, v3, v4, v5, v6⟩ := plane_moves hv
    refine ⟨_, flip_yuv _ hr hh hy hu hv ha, ?_, ?_, ?_, hrows, ?_⟩
    · unfold WebPFlipBuffer
      simp only [hr, Bool.false_eq_true, if_false, hh, y3, y4, y5, u3, u4, u5, v3, v4, v5]
      by_cases h0 : a = 0
      · simp only [h0, ne_eq, not_true_eq_false, if_false]
      · obtain ⟨a1, a2, a3, a4, a5, a6⟩ := plane_moves (ha h0)
        simp only [h0, a6 h0, ne_eq, not_false_eq_true, if_true, a3, a4, a5]
    · intro hx
      cases hx
    · intro _
      refine ⟨rfl, rfl, rfl, rfl, rfl, rfl, ?_, ?_⟩
      · intro h0
        simp only [h0, ne_eq, not_false_eq_true, if_true, and_self]
      · intro h0
        simp only [h0, ne_eq, not_true_eq_false, if_false, and_self]
    · intro hc
      rw [check_yuv _ hr] at hc
      rw [check_yuv _ hr]
      simp only [abs32_neg] at hc ⊢
      obtain ⟨c1, c2, c3, c4, c5, c6, c7, c8, c9, c10, c11⟩ := hc
      refine ⟨c1, c2, c3, c4, c5, c6, c7, y6 c8, u6 c9, v6 c10, ?_⟩
      intro hm
      obtain ⟨d1, d2, d3⟩ := c11 hm
      obtain ⟨a1, a2, a3, a4, a5, a6⟩ := plane_moves (ha d3)
      simp only [d3, ne_eq, not_false_eq_true, if_true, abs32_neg]
      exact ⟨d1, d2, a6 d3⟩

theorem flip_involution_witness :
    flipFits alphaBuffer = true ∧
    CheckDecBuffer alphaBuffer = VP8StatusCode.VP8_STATUS_OK ∧
    ∃ r, WebPFlipBuffer (some alphaBuffer) = (VP8StatusCode.VP8_STATUS_OK, some r) ∧
      WebPFlipBuffer (some r) = (VP8StatusCode.VP8_STATUS_OK, some alphaBuffer) ∧
      CheckDecBuffer r = VP8StatusCode.VP8_STATUS_OK :=
  have h := flip_involution alphaBuffer (by decide!)
  ⟨by decide!, by decide!, h.choose, h.choose_spec.1, h.choose_spec.2.1,
    h.choose_spec.2.2.2.2.2 (by decide!)⟩

end WebP
